import Mathlib

/-!
Verification development for the grid-layout engine of this repository
(`src/lib/utils.js` and the coordinate converter source file).

The JS code is embedded shallowly: layout items become a structure over `Int`
coordinates, the mutation-heavy algorithms (`compact`, `resolveCompactionCollision`,
`correctBounds`, `moveElement`) become explicit state-passing functions, and the
`while` loops of the source are modelled with explicit fuel, returning `Option`
(`none` = fuel exhausted).  Pixel arithmetic of the coordinate converter is
modelled over `ℚ` with JavaScript's `Math.round` as `⌊q + 1/2⌋`.
-/

namespace RGL

/-- A grid layout item, as in `utils.js`.  Coordinates and sizes are grid units
(JS numbers, modelled as integers); `i` is the item's id string.  Only the
fields read by the embedded functions are carried. -/
structure LayoutItem where
  i : String
  x : Int
  y : Int
  w : Int
  h : Int
  static : Bool := false
  moved : Bool := false
  isDraggable : Option Bool := none
deriving Repr, DecidableEq, Inhabited

/-- `bottom(layout)` from `utils.js`: maximum of `y + h` over the layout,
starting from 0. -/
def bottom (layout : List LayoutItem) : Int :=
  layout.foldl (fun max l => if l.y + l.h > max then l.y + l.h else max) 0

/-- `collides(l1, l2)` from `utils.js`: same id never collides; otherwise the
four axis-separation tests, with boundary touching not colliding. -/
def collides (l1 l2 : LayoutItem) : Bool :=
  if l1.i = l2.i then false
  else if l1.x + l1.w ≤ l2.x then false
  else if l1.x ≥ l2.x + l2.w then false
  else if l1.y + l1.h ≤ l2.y then false
  else if l1.y ≥ l2.y + l2.h then false
  else true

/-- `getFirstCollision(layout, layoutItem)` from `utils.js`. -/
def getFirstCollision (layout : List LayoutItem) (layoutItem : LayoutItem) :
    Option LayoutItem :=
  layout.find? (fun l => collides l layoutItem)

/-- `getAllCollisions(layout, layoutItem)` from `utils.js`. -/
def getAllCollisions (layout : List LayoutItem) (layoutItem : LayoutItem) :
    List LayoutItem :=
  layout.filter (fun l => collides l layoutItem)

/-- `getStatics(layout)` from `utils.js`. -/
def getStatics (layout : List LayoutItem) : List LayoutItem :=
  layout.filter (fun l => l.static)

/-- `cloneLayoutItem(layoutItem)` from `utils.js` (field-by-field copy; the
`Boolean(...)` coercions on `moved`/`static` are identities since those fields
are already booleans in the model). -/
def cloneLayoutItem (layoutItem : LayoutItem) : LayoutItem :=
  { i := layoutItem.i, x := layoutItem.x, y := layoutItem.y,
    w := layoutItem.w, h := layoutItem.h,
    static := layoutItem.static, moved := layoutItem.moved,
    isDraggable := layoutItem.isDraggable }

/-- `cloneLayout(layout)` from `utils.js`. -/
def cloneLayout (layout : List LayoutItem) : List LayoutItem :=
  layout.map cloneLayoutItem

/-- `getLayoutItem(layout, id)` from `utils.js`. -/
def getLayoutItem (layout : List LayoutItem) (id : String) : Option LayoutItem :=
  layout.find? (fun l => l.i = id)

/-- `modifyLayout(layout, layoutItem)` from `utils.js`: replace every entry
whose id matches `layoutItem.i`, keep the rest. -/
def modifyLayout (layout : List LayoutItem) (layoutItem : LayoutItem) :
    List LayoutItem :=
  layout.map (fun l => if layoutItem.i = l.i then layoutItem else l)

/-- The comparator of `sortLayoutItemsByRowCol` in `utils.js`
(1 / 0 / -1 valued). -/
def cmpRowCol (a b : LayoutItem) : Int :=
  if a.y > b.y ∨ (a.y = b.y ∧ a.x > b.x) then 1
  else if a.y = b.y ∧ a.x = b.x then 0
  else -1

/-- The comparator of `sortLayoutItemsByColRow` in `utils.js`
(1 / -1 valued; it never returns 0). -/
def cmpColRow (a b : LayoutItem) : Int :=
  if a.x > b.x ∨ (a.x = b.x ∧ a.y > b.y) then 1
  else -1

/-- `sortLayoutItemsByRowCol(layout)`: stable sort by the row/col comparator.
JavaScript's `Array.prototype.sort` is a stable sort; a stable sort keeps `a`
before `b` exactly when `cmp a b ≤ 0`, which is what the left-biased
`List.insertionSort` does. -/
def sortLayoutItemsByRowCol (layout : List LayoutItem) : List LayoutItem :=
  List.insertionSort (fun a b => cmpRowCol a b ≤ 0) layout

/-- `sortLayoutItemsByColRow(layout)`: stable sort by the col/row comparator. -/
def sortLayoutItemsByColRow (layout : List LayoutItem) : List LayoutItem :=
  List.insertionSort (fun a b => cmpColRow a b ≤ 0) layout

/-- The compaction mode: `"vertical"`, `"horizontal"` or JS `null`. -/
inductive CompactType where
  | vertical
  | horizontal
  | null
deriving Repr, DecidableEq

/-- `sortLayoutItems(layout, compactType)` from `utils.js`. -/
def sortLayoutItems (layout : List LayoutItem) (compactType : CompactType) :
    List LayoutItem :=
  match compactType with
  | .horizontal => sortLayoutItemsByColRow layout
  | .vertical => sortLayoutItemsByRowCol layout
  | .null => layout

/-! ## The compactor

`compact` mutates shared item objects: `resolveCompactionCollision` receives
the sorted array (whose entries are the original layout's items) and moves
later-sorted entries in place, while the currently compacted item `l` is a
clone living outside that array.  The state is made explicit: `CState.arr`
holds the layout's items by original index (current, possibly mutated,
values) and `CState.cur` holds the clone; the sorted array is the index list
`order` viewed through `arr`. -/

/-- The axis argument `"x"` / `"y"` of `resolveCompactionCollision`. -/
inductive Axis where
  | x
  | y
deriving Repr, DecidableEq

/-- Read `item[axis]`. -/
def getAxis (l : LayoutItem) : Axis → Int
  | .x => l.x
  | .y => l.y

/-- Write `item[axis] = v`. -/
def setAxis (l : LayoutItem) : Axis → Int → LayoutItem
  | .x, v => { l with x := v }
  | .y, v => { l with y := v }

/-- `heightWidth = { x: "w", y: "h" }`: read `item[sizeProp]`. -/
def getSize (l : LayoutItem) : Axis → Int
  | .x => l.w
  | .y => l.h

/-- The mutable state of one `compactItem` run: the layout's items by
original index, plus the clone being compacted. -/
structure CState where
  arr : List LayoutItem
  cur : LayoutItem
deriving Repr, DecidableEq

/-- Which object `resolveCompactionCollision` is moving: the outer clone
(`.cur`, the top-level call from `compactItem`) or the sorted-array entry at
original index `k` (`.idx k`, the recursive calls). -/
inductive RTarget where
  | cur
  | idx (k : Nat)
deriving Repr, DecidableEq

/-- Read the target's current value. -/
def targetGet (st : CState) : RTarget → LayoutItem
  | .cur => st.cur
  | .idx k => st.arr.getD k default

/-- Overwrite the target's value. -/
def targetSet (st : CState) (t : RTarget) (v : LayoutItem) : CState :=
  match t with
  | .cur => { st with cur := v }
  | .idx k => { st with arr := st.arr.set k v }

/-- The id column of the sorted array (`layout.map(layoutItem => layoutItem.i)`). -/
def sortedIds (order : List Nat) (arr : List LayoutItem) : List String :=
  order.map (fun k => (arr.getD k default).i)

/-- The `for` loop of `resolveCompactionCollision`: scan the sorted entries
after the moved item (`ps` is the remaining suffix of `order`), skipping
statics, breaking once `otherItem.y > item.y + item.h`, and recursing —
through the `dive` argument, which is `resolveCompactionCollision` at the
next fuel — into each colliding entry. -/
def resolveCollisionScan (dive : CState → Nat → Int → Option CState)
    (target : RTarget) (moveToCoord : Int) (axis : Axis) :
    CState → List Nat → Option CState
  | st, [] => some st
  | st, k :: rest =>
    let item := targetGet st target
    let otherItem := st.arr.getD k default
    if otherItem.static then
      resolveCollisionScan dive target moveToCoord axis st rest
    else if otherItem.y > item.y + item.h then
      some st
    else if collides item otherItem then
      match dive st k (moveToCoord + getSize item axis) with
      | none => none
      | some st2 => resolveCollisionScan dive target moveToCoord axis st2 rest
    else
      resolveCollisionScan dive target moveToCoord axis st rest

/-- `resolveCompactionCollision(layout, item, moveToCoord, axis)` from
`utils.js`, on explicit state (`layout` is `order` viewed through `st.arr`).
Bumps `item[axis]` by one, scans the sorted entries after `item`'s id position
(JS `indexOf` returns -1 when absent, so the scan then starts at 0), and
finally sets `item[axis] = moveToCoord`. -/
def resolveCompactionCollision : Nat → List Nat → Axis → CState → RTarget →
    Int → Option CState
  | 0, _, _, _, _, _ => none
  | f + 1, order, axis, st, target, moveToCoord =>
    let item := targetGet st target
    let st1 := targetSet st target (setAxis item axis (getAxis item axis + 1))
    let ids := sortedIds order st1.arr
    let start := if item.i ∈ ids then ids.indexOf item.i + 1 else 0
    match resolveCollisionScan
        (fun st2 k m => resolveCompactionCollision f order axis st2 (.idx k) m)
        target moveToCoord axis st1 (order.drop start) with
    | none => none
    | some st2 =>
      some (targetSet st2 target (setAxis (targetGet st2 target) axis moveToCoord))

/-- Stated from the claim's words (C8), for comparison with
`resolveCollisionScan`: the scan-stop test on "the compaction axis" — `x`
for horizontal compaction, `y` for vertical.  The code's test always uses
`y`. -/
def claimScanPast (axis : Axis) (item otherItem : LayoutItem) : Bool :=
  match axis with
  | .x => otherItem.x > item.x + item.w
  | .y => otherItem.y > item.y + item.h

/-- The claim's version of `resolveCollisionScan`: identical except that the
scan stops by `claimScanPast` (axis-dependent) instead of the code's
`otherItem.y > item.y + item.h`. -/
def claimResolveCollisionScan (dive : CState → Nat → Int → Option CState)
    (target : RTarget) (moveToCoord : Int) (axis : Axis) :
    CState → List Nat → Option CState
  | st, [] => some st
  | st, k :: rest =>
    let item := targetGet st target
    let otherItem := st.arr.getD k default
    if otherItem.static then
      claimResolveCollisionScan dive target moveToCoord axis st rest
    else if claimScanPast axis item otherItem then
      some st
    else if collides item otherItem then
      match dive st k (moveToCoord + getSize item axis) with
      | none => none
      | some st2 => claimResolveCollisionScan dive target moveToCoord axis st2 rest
    else
      claimResolveCollisionScan dive target moveToCoord axis st rest

/-- The claim's version of `resolveCompactionCollision`, built on
`claimResolveCollisionScan`; it differs from the code only in the scan-stop
test. -/
def claimResolveCompactionCollision : Nat → List Nat → Axis → CState →
    RTarget → Int → Option CState
  | 0, _, _, _, _, _ => none
  | f + 1, order, axis, st, target, moveToCoord =>
    let item := targetGet st target
    let st1 := targetSet st target (setAxis item axis (getAxis item axis + 1))
    let ids := sortedIds order st1.arr
    let start := if item.i ∈ ids then ids.indexOf item.i + 1 else 0
    match claimResolveCollisionScan
        (fun st2 k m => claimResolveCompactionCollision f order axis st2 (.idx k) m)
        target moveToCoord axis st1 (order.drop start) with
    | none => none
    | some st2 =>
      some (targetSet st2 target (setAxis (targetGet st2 target) axis moveToCoord))

/-- A target that actually designates storage in the state: `.cur` always
does; `.idx k` only when `k` is inside the array. -/
def TargetOk (st : CState) : RTarget → Prop
  | .cur => True
  | .idx k => k < st.arr.length

/-- The three-item state distinguishing the code's scan stop from the
claim's: with horizontal axis, the code breaks at `rJ` (large `y`) and never
reaches the colliding `rK`; the claim's axis-based stop would push `rK`. -/
def rI : LayoutItem := { i := "i0", x := 0, y := 0, w := 2, h := 1 }

/-- See `rI`. -/
def rJ : LayoutItem := { i := "j1", x := 1, y := 5, w := 1, h := 1 }

/-- See `rI`. -/
def rK : LayoutItem := { i := "k2", x := 1, y := 0, w := 1, h := 1 }

/-- The pull-toward-origin loop of `compactItem`:
`while (l[axis] > 0 && !getFirstCollision(compareWith, l)) l[axis]--`. -/
def pullLoop (fuel : Nat) (compareWith : List LayoutItem) (axis : Axis)
    (l : LayoutItem) : Option LayoutItem :=
  if getAxis l axis > 0 ∧ getFirstCollision compareWith l = none then
    match fuel with
    | 0 => none
    | f + 1 => pullLoop f compareWith axis (setAxis l axis (getAxis l axis - 1))
  else
    some l

/-- The main collision loop of `compactItem`:
`while ((collides = getFirstCollision(compareWith, l)) && !(compactType === null && allowOverlap))`,
with the horizontal overflow wrap inside the body. -/
def compactItemLoop (fuel : Nat) (order : List Nat) (compareWith : List LayoutItem)
    (compactType : CompactType) (cols : Int) (allowOverlap : Bool) (st : CState) :
    Option CState :=
  match getFirstCollision compareWith st.cur with
  | none => some st
  | some c =>
    if compactType = .null ∧ allowOverlap then some st
    else
      match fuel with
      | 0 => none
      | f + 1 =>
        let step :=
          if compactType = .horizontal then
            resolveCompactionCollision fuel order .x st .cur (c.x + c.w)
          else
            resolveCompactionCollision fuel order .y st .cur (c.y + c.h)
        match step with
        | none => none
        | some st1 =>
          if compactType = .horizontal ∧ st1.cur.x + st1.cur.w > cols then
            let l1 := { st1.cur with x := cols - st1.cur.w, y := st1.cur.y + 1 }
            match pullLoop fuel compareWith .x l1 with
            | none => none
            | some l2 =>
              compactItemLoop f order compareWith compactType cols allowOverlap
                { st1 with cur := l2 }
          else
            compactItemLoop f order compareWith compactType cols allowOverlap st1

/-- `compactItem(compareWith, l, compactType, cols, fullLayout, allowOverlap)`
from `utils.js`: `st.cur` is the clone `l`, `st.arr` (with `order`) is the
sorted `fullLayout`. -/
def compactItem (fuel : Nat) (order : List Nat) (compareWith : List LayoutItem)
    (compactType : CompactType) (cols : Int) (allowOverlap : Bool) (st : CState) :
    Option CState :=
  let compactV := compactType = CompactType.vertical
  let compactH := compactType = CompactType.horizontal
  let l0 := st.cur
  let l1 := if compactV then { l0 with y := min (bottom compareWith) l0.y } else l0
  let pulled :=
    if compactV then pullLoop fuel compareWith .y l1
    else if compactH then pullLoop fuel compareWith .x l1
    else some l1
  match pulled with
  | none => none
  | some l2 =>
    match compactItemLoop fuel order compareWith compactType cols allowOverlap
        { st with cur := l2 } with
    | none => none
    | some st3 =>
      some { st3 with cur := { st3.cur with y := max st3.cur.y 0, x := max st3.cur.x 0 } }

/-- The index order in which `compact` traverses the layout: a stable sort of
the positions `0..n-1` by the mode's comparator on the input items
(`sortLayoutItems` on the item array, tracked by original index; the sort runs
before any mutation). -/
def sortIndicesFor (layout : List LayoutItem) (compactType : CompactType) :
    List Nat :=
  match compactType with
  | .horizontal => List.insertionSort
      (fun a b => cmpColRow (layout.getD a default) (layout.getD b default) ≤ 0)
      (List.range layout.length)
  | .vertical => List.insertionSort
      (fun a b => cmpRowCol (layout.getD a default) (layout.getD b default) ≤ 0)
      (List.range layout.length)
  | .null => List.range layout.length

/-- The main loop of `compact`: clone the item at each sorted index, compact it
if non-static, append it to `compareWith`, write it (with `moved` cleared) to
the output slot of its original index, and thread the mutated array. -/
def compactGo (fuel : Nat) (fullOrder : List Nat) (compactType : CompactType)
    (cols : Int) (allowOverlap : Bool) :
    List Nat → List LayoutItem → List LayoutItem → List (Option LayoutItem) →
    Option (List (Option LayoutItem))
  | [], _, _, out => some out
  | idx :: rest, compareWith, arr, out =>
    let l := cloneLayoutItem (arr.getD idx default)
    if l.static then
      compactGo fuel fullOrder compactType cols allowOverlap rest compareWith arr
        (out.set idx (some { l with moved := false }))
    else
      match compactItem fuel fullOrder compareWith compactType cols allowOverlap
          ⟨arr, l⟩ with
      | none => none
      | some st =>
        let lr := { st.cur with moved := false }
        compactGo fuel fullOrder compactType cols allowOverlap rest
          (compareWith ++ [lr]) st.arr (out.set idx (some lr))

/-- `compact(layout, compactType, cols, allowOverlap)` from `utils.js`. -/
def compact (fuel : Nat) (layout : List LayoutItem) (compactType : CompactType)
    (cols : Int) (allowOverlap : Bool) : Option (List LayoutItem) :=
  let compareWith := getStatics layout
  let order := sortIndicesFor layout compactType
  match compactGo fuel order compactType cols allowOverlap order compareWith layout
      (List.replicate layout.length none) with
  | none => none
  | some out => some (out.map (fun o => o.getD default))

/-! ## Bounds correction -/

/-- The two bounds clamps at the top of `correctBounds`'s loop body:
overflow right (`x + w > cols` resets `x = cols - w`), then overflow left
(`x < 0` resets `x = 0` and `w = cols`). -/
def boundClamp (cols : Int) (l : LayoutItem) : LayoutItem :=
  let l1 := if l.x + l.w > cols then { l with x := cols - l.w } else l
  if l1.x < 0 then { l1 with x := 0, w := cols } else l1

/-- The static-pushdown loop of `correctBounds`:
`while (getFirstCollision(collidesWith, l)) l.y++`.  `cw` holds the indices of
the `collidesWith` entries, read through the current array (the entry of the
pushed item itself is stale there, but `collides` excludes it by id anyway,
exactly as the JS self-comparison is excluded). -/
def correctBoundsPush : Nat → List Nat → List LayoutItem → LayoutItem →
    Option LayoutItem
  | fuel, cw, arr, l =>
    match getFirstCollision (cw.map (fun k => arr.getD k default)) l, fuel with
    | none, _ => some l
    | some _, 0 => none
    | some _, f + 1 => correctBoundsPush f cw arr { l with y := l.y + 1 }

/-- The loop of `correctBounds`: clamp each item into `[0, cols]`, add
non-static items to `collidesWith`, push colliding statics down. -/
def correctBoundsGo (fuel : Nat) (cols : Int) :
    List Nat → List Nat → List LayoutItem → Option (List LayoutItem)
  | [], _, arr => some arr
  | idx :: rest, cw, arr =>
    let l0 := arr.getD idx default
    let l2 := boundClamp cols l0
    if l2.static = false then
      correctBoundsGo fuel cols rest (cw ++ [idx]) (arr.set idx l2)
    else
      match correctBoundsPush fuel cw (arr.set idx l2) l2 with
      | none => none
      | some l3 => correctBoundsGo fuel cols rest cw (arr.set idx l3)

/-- `correctBounds(layout, bounds)` from `utils.js`, with `bounds.cols = cols`.
`collidesWith` starts as (the indices of) the static items. -/
def correctBounds (fuel : Nat) (layout : List LayoutItem) (cols : Int) :
    Option (List LayoutItem) :=
  let staticIdx := (List.range layout.length).filter
    (fun k => (layout.getD k default).static)
  correctBoundsGo fuel cols (List.range layout.length) staticIdx layout

/-! ## The move engine

`moveElement` / `moveElementAwayFromCollision` mutate item objects shared by
every array in flight, so the embedding tracks items by id: a mutation is
`updateById`, and the cascade reads each item's current value out of the
current layout before using it. -/

/-- Commit the in-place mutation of the item object with id `l.i`: every
occurrence in the array now shows the new value (the JS arrays hold references
to the one mutated object). -/
def updateById (layout : List LayoutItem) (l : LayoutItem) : List LayoutItem :=
  layout.map (fun it => if it.i = l.i then l else it)

mutual

/-- `moveElement(layout, l, x, y, isUserAction, preventCollision, compactType,
cols, allowOverlap)` from `utils.js`.  `x`/`y` are `none` when the JS argument
is `undefined`. -/
def moveElement (fuel : Nat) (layout : List LayoutItem) (l : LayoutItem)
    (x y : Option Int) (isUserAction preventCollision : Bool)
    (compactType : CompactType) (cols : Int) (allowOverlap : Bool) :
    Option (List LayoutItem) :=
  if l.static ∧ l.isDraggable ≠ some true then some layout
  else if y = some l.y ∧ x = some l.x then some layout
  else
    match fuel with
    | 0 => none
    | f + 1 =>
      let oldX := l.x
      let oldY := l.y
      let l1 := { l with x := x.getD l.x, y := y.getD l.y, moved := true }
      let layout1 := updateById layout l1
      let sorted0 := sortLayoutItems layout1 compactType
      let movingUp : Bool :=
        if compactType = CompactType.vertical ∧ y.isSome then
          decide (oldY ≥ y.getD 0)
        else if compactType = CompactType.horizontal ∧ x.isSome then
          decide (oldX ≥ x.getD 0)
        else false
      let sorted1 := if movingUp then sorted0.reverse else sorted0
      let noCompactTypeMovingUp : Bool :=
        if compactType = CompactType.null ∧ y.isSome then decide (oldY ≥ y.getD 0)
        else false
      let collisions := getAllCollisions sorted1 l1
      let hasCollisions := collisions ≠ []
      if hasCollisions ∧ allowOverlap then some (cloneLayout layout1)
      else if hasCollisions ∧ preventCollision then
        some (updateById layout1 { l1 with x := oldX, y := oldY, moved := false })
      else
        moveCollisionsLoop f layout1 l1.i (collisions.map (fun c => c.i))
          isUserAction compactType cols noCompactTypeMovingUp
termination_by (fuel, 0)

/-- The collision `for` loop of `moveElement`: each collider (by id, read at
its current value) is skipped if already `moved`, otherwise the non-static
side of the pair is displaced and the returned layout threads on. -/
def moveCollisionsLoop (fuel : Nat) (layout : List LayoutItem) (lId : String)
    (cids : List String) (isUserAction : Bool) (compactType : CompactType)
    (cols : Int) (noCompactTypeMovingUp : Bool) : Option (List LayoutItem) :=
  match cids with
  | [] => some layout
  | cid :: rest =>
    match getLayoutItem layout cid with
    | none => none
    | some collision =>
      if collision.moved then
        moveCollisionsLoop fuel layout lId rest isUserAction compactType cols
          noCompactTypeMovingUp
      else
        let next :=
          if collision.static then
            moveElementAwayFromCollision fuel layout collision.i lId isUserAction
              compactType cols noCompactTypeMovingUp
          else
            moveElementAwayFromCollision fuel layout lId collision.i isUserAction
              compactType cols noCompactTypeMovingUp
        match next with
        | none => none
        | some layout2 =>
          moveCollisionsLoop fuel layout2 lId rest isUserAction compactType cols
            noCompactTypeMovingUp
termination_by (fuel, cids.length + 3)

/-- `moveElementAwayFromCollision(layout, collidesWith, itemToMove,
isUserAction, compactType, cols, noCompactTypeMovingUp)` from `utils.js`,
with the two items tracked by id and read at their current values. -/
def moveElementAwayFromCollision (fuel : Nat) (layout : List LayoutItem)
    (cwId tmId : String) (isUserAction : Bool) (compactType : CompactType)
    (cols : Int) (noCompactTypeMovingUp : Bool) : Option (List LayoutItem) :=
  match fuel with
  | 0 => none
  | f + 1 =>
    match getLayoutItem layout cwId, getLayoutItem layout tmId with
    | some collidesWith, some itemToMove =>
      let compactH := compactType = CompactType.horizontal
      let compactV := compactType = CompactType.vertical
      let preventCollision := collidesWith.static
      if isUserAction then
        let fakeItem : LayoutItem :=
          if compactType = CompactType.null ∧ noCompactTypeMovingUp = false then
            { i := "-1", x := itemToMove.x,
              y := max (collidesWith.y - itemToMove.h) 0,
              w := itemToMove.w, h := itemToMove.h }
          else
            { i := "-1",
              x := if compactH then max (collidesWith.x - itemToMove.w) 0
                   else itemToMove.x,
              y := if compactV then max (collidesWith.y - itemToMove.h) 0
                   else itemToMove.y,
              w := itemToMove.w, h := itemToMove.h }
        let firstCollision := getFirstCollision layout fakeItem
        let collisionNorth : Bool :=
          match firstCollision with
          | some fc => decide (fc.y + fc.h > collidesWith.y)
          | none => false
        let collisionWest : Bool :=
          match firstCollision with
          | some fc => decide (collidesWith.x + collidesWith.w > fc.x)
          | none => false
        if firstCollision = none then
          if compactType = CompactType.null ∧ noCompactTypeMovingUp = false then
            moveElement f layout itemToMove none (some fakeItem.y) false
              preventCollision compactType cols false
          else
            moveElement f layout itemToMove
              (if compactH then some fakeItem.x else none)
              (if compactV then some fakeItem.y else none)
              false preventCollision compactType cols false
        else if collisionNorth ∧ compactV then
          moveElement f layout itemToMove none (some (collidesWith.y + 1)) false
            preventCollision compactType cols false
        else if collisionNorth ∧ compactType = CompactType.null then
          if noCompactTypeMovingUp then
            some (sortLayoutItemsByRowCol
              (updateById layout { itemToMove with y := collidesWith.y + collidesWith.h }))
          else
            match moveElement f layout itemToMove none (some (itemToMove.y + 1))
                false preventCollision compactType cols false with
            | none => none
            | some layout2 =>
              -- the JS call discards the returned array but keeps the item
              -- mutations, which the caller's array shares; merge them by id
              some (sortLayoutItemsByRowCol
                (layout.map (fun it => (getLayoutItem layout2 it.i).getD it)))
        else if collisionWest ∧ compactH then
          moveElement f layout collidesWith (some itemToMove.x) none false
            preventCollision compactType cols false
        else
          moveAwayFallback f layout itemToMove false preventCollision compactType cols
      else
        moveAwayFallback f layout itemToMove isUserAction preventCollision
          compactType cols
    | _, _ => none
termination_by (fuel, 1)

/-- The tail of `moveElementAwayFromCollision`: push `itemToMove` one unit
along the active compaction axis, or return the layout unchanged when no axis
is active. -/
def moveAwayFallback (fuel : Nat) (layout : List LayoutItem)
    (itemToMove : LayoutItem) (isUserAction preventCollision : Bool)
    (compactType : CompactType) (cols : Int) : Option (List LayoutItem) :=
  let compactH := compactType = CompactType.horizontal
  let compactV := compactType = CompactType.vertical
  let newX : Option Int := if compactH then some (itemToMove.x + 1) else none
  let newY : Option Int := if compactV then some (itemToMove.y + 1) else none
  if newX = none ∧ newY = none then some layout
  else
    moveElement fuel layout itemToMove
      (if compactH then some (itemToMove.x + 1) else none)
      (if compactV then some (itemToMove.y + 1) else none)
      isUserAction preventCollision compactType cols false
termination_by (fuel, 2)

end

/-! ## Coordinate converter (the unnamed source file)

Pixel arithmetic is exact-rational; JavaScript's `Math.round` (round half
toward positive infinity) is `⌊q + 1/2⌋`. -/

/-- JavaScript's `Math.round`. -/
def jsRound (q : ℚ) : Int := ⌊q + 1 / 2⌋

/-- The `positionParams` record consumed by the converter. -/
structure PositionParams where
  margin : ℚ × ℚ
  containerPadding : ℚ × ℚ
  containerWidth : ℚ
  cols : Int
  rowHeight : ℚ
  maxRows : Int
deriving Repr, DecidableEq

/-- `calcGridColWidth(positionParams)`. -/
def calcGridColWidth (positionParams : PositionParams) : ℚ :=
  (positionParams.containerWidth
      - positionParams.margin.1 * ((positionParams.cols : ℚ) - 1)
      - positionParams.containerPadding.1 * 2) / (positionParams.cols : ℚ)

/-- `calcGridItemWHPx(gridUnits, colOrRowSize, marginPx)`.  The JS
`Number.isFinite` guard is vacuous in the exact-rational model (every `ℚ` is
finite). -/
def calcGridItemWHPx (gridUnits : Int) (colOrRowSize marginPx : ℚ) : Int :=
  jsRound (colOrRowSize * (gridUnits : ℚ) + (max 0 (gridUnits - 1) : Int) * marginPx)

/-- The pixel rectangle returned by `calcGridItemPosition`. -/
structure Position where
  left : Int
  top : Int
  width : Int
  height : Int
deriving Repr, DecidableEq

/-- An active resize override (`state.resizing`): exact pixel width/height and
optional pixel top/left. -/
structure ResizingState where
  width : ℚ
  height : ℚ
  top : Option ℚ := none
  left : Option ℚ := none
deriving Repr, DecidableEq

/-- An active drag override (`state.dragging`): exact pixel top/left. -/
structure DraggingState where
  top : ℚ
  left : ℚ
deriving Repr, DecidableEq

/-- The optional `state` argument of `calcGridItemPosition`. -/
structure GridItemState where
  dragging : Option DraggingState := none
  resizing : Option ResizingState := none
deriving Repr, DecidableEq

/-- `calcGridItemPosition(positionParams, x, y, w, h, state)`. -/
def calcGridItemPosition (positionParams : PositionParams) (x y w h : Int)
    (state : Option GridItemState := none) : Position :=
  let margin := positionParams.margin
  let containerPadding := positionParams.containerPadding
  let rowHeight := positionParams.rowHeight
  let colWidth := calcGridColWidth positionParams
  let resizing := state.bind (fun st => st.resizing)
  let dragging := state.bind (fun st => st.dragging)
  let width :=
    match resizing with
    | some r => jsRound r.width
    | none => calcGridItemWHPx w colWidth margin.1
  let height :=
    match resizing with
    | some r => jsRound r.height
    | none => calcGridItemWHPx h rowHeight margin.2
  let defTop := jsRound ((rowHeight + margin.2) * (y : ℚ) + containerPadding.2)
  let defLeft := jsRound ((colWidth + margin.1) * (x : ℚ) + containerPadding.1)
  let tl :=
    match dragging with
    | some d => (jsRound d.top, jsRound d.left)
    | none =>
      match resizing with
      | some r =>
        match r.top, r.left with
        | some t, some lf => (jsRound t, jsRound lf)
        | _, _ => (defTop, defLeft)
      | none => (defTop, defLeft)
  { left := tl.2, top := tl.1, width := width, height := height }

/-- `clamp(num, lowerBound, upperBound)`. -/
def clamp (num lowerBound upperBound : Int) : Int :=
  max (min num upperBound) lowerBound

/-- `calcXY(positionParams, top, left, w, h)`: pixels back to grid units, then
capped into the grid. -/
def calcXY (positionParams : PositionParams) (top left : ℚ) (w h : Int) :
    Int × Int :=
  let margin := positionParams.margin
  let cols := positionParams.cols
  let rowHeight := positionParams.rowHeight
  let maxRows := positionParams.maxRows
  let containerPadding := positionParams.containerPadding
  let colWidth := calcGridColWidth positionParams
  let x := jsRound ((left - containerPadding.1) / (colWidth + margin.1))
  let y := jsRound ((top - containerPadding.2) / (rowHeight + margin.2))
  (clamp x 0 (cols - w), clamp y 0 (maxRows - h))

/-! ## Resize direction resolver -/

/-- `constrainWidth(left, currentWidth, newWidth, containerWidth)`. -/
def constrainWidth (left currentWidth newWidth containerWidth : Int) : Int :=
  if left + newWidth > containerWidth then currentWidth else newWidth

/-- `constrainHeight(top, currentHeight, newHeight)`. -/
def constrainHeight (top currentHeight newHeight : Int) : Int :=
  if top < 0 then currentHeight else newHeight

/-- `constrainLeft(left)`. -/
def constrainLeft (left : Int) : Int := max 0 left

/-- `constrainTop(top)`. -/
def constrainTop (top : Int) : Int := max 0 top

/-- `resizeNorth(currentSize, {left, height, width}, _containerWidth)`. -/
def resizeNorth (currentSize newSize : Position) (_containerWidth : Int) :
    Position :=
  let top := currentSize.top - (newSize.height - currentSize.height)
  { left := newSize.left, width := newSize.width,
    height := constrainHeight top currentSize.height newSize.height,
    top := constrainTop top }

/-- `resizeEast(currentSize, {top, left, height, width}, containerWidth)`. -/
def resizeEast (currentSize newSize : Position) (containerWidth : Int) :
    Position :=
  { top := newSize.top, height := newSize.height,
    width := constrainWidth currentSize.left currentSize.width newSize.width
      containerWidth,
    left := constrainLeft newSize.left }

/-- `resizeWest(currentSize, {top, height, width}, containerWidth)`. -/
def resizeWest (currentSize newSize : Position) (containerWidth : Int) :
    Position :=
  let left := currentSize.left - (newSize.width - currentSize.width)
  { height := newSize.height,
    width :=
      if left < 0 then currentSize.width
      else constrainWidth currentSize.left currentSize.width newSize.width
        containerWidth,
    top := constrainTop newSize.top,
    left := constrainLeft left }

/-- `resizeSouth(currentSize, {top, left, height, width}, containerWidth)`. -/
def resizeSouth (currentSize newSize : Position) (_containerWidth : Int) :
    Position :=
  { width := newSize.width, left := newSize.left,
    height := constrainHeight newSize.top currentSize.height newSize.height,
    top := constrainTop newSize.top }

/-- `resizeNorthEast = north(current, east(...), cw)`. -/
def resizeNorthEast (currentSize newSize : Position) (containerWidth : Int) :
    Position :=
  resizeNorth currentSize (resizeEast currentSize newSize containerWidth)
    containerWidth

/-- `resizeNorthWest = north(current, west(...), cw)`. -/
def resizeNorthWest (currentSize newSize : Position) (containerWidth : Int) :
    Position :=
  resizeNorth currentSize (resizeWest currentSize newSize containerWidth)
    containerWidth

/-- `resizeSouthEast = south(current, east(...), cw)`. -/
def resizeSouthEast (currentSize newSize : Position) (containerWidth : Int) :
    Position :=
  resizeSouth currentSize (resizeEast currentSize newSize containerWidth)
    containerWidth

/-- `resizeSouthWest = south(current, west(...), cw)`. -/
def resizeSouthWest (currentSize newSize : Position) (containerWidth : Int) :
    Position :=
  resizeSouth currentSize (resizeWest currentSize newSize containerWidth)
    containerWidth

/-- The eight resize handles. -/
inductive ResizeHandle where
  | n | ne | e | se | s | sw | w | nw
deriving Repr, DecidableEq

/-- `ordinalResizeHandlerMap`. -/
def ordinalResizeHandlerMap :
    ResizeHandle → Position → Position → Int → Position
  | .n => resizeNorth
  | .ne => resizeNorthEast
  | .e => resizeEast
  | .se => resizeSouthEast
  | .s => resizeSouth
  | .sw => resizeSouthWest
  | .w => resizeWest
  | .nw => resizeNorthWest

/-- A possibly partial proposed rectangle (the JS `newSize`, spread over
`currentSize` before being handed to the handler). -/
structure PartialPosition where
  left : Option Int := none
  top : Option Int := none
  width : Option Int := none
  height : Option Int := none
deriving Repr, DecidableEq

/-- `{ ...currentSize, ...newSize }`. -/
def mergePosition (currentSize : Position) (newSize : PartialPosition) :
    Position :=
  { left := newSize.left.getD currentSize.left,
    top := newSize.top.getD currentSize.top,
    width := newSize.width.getD currentSize.width,
    height := newSize.height.getD currentSize.height }

/-- `resizeItemInDirection(direction, currentSize, newSize, containerWidth)`.
With the handle set modelled as a closed inductive, a handler always exists
(the JS fallback for an unknown handle string is unreachable). -/
def resizeItemInDirection (direction : ResizeHandle) (currentSize : Position)
    (newSize : PartialPosition) (containerWidth : Int) : Position :=
  ordinalResizeHandlerMap direction currentSize
    (mergePosition currentSize newSize) containerWidth

/-! ## Concrete inputs used by witnesses and counterexamples -/

/-- Grid parameters whose column step is below one pixel (1/3 px). -/
def narrowParams : PositionParams :=
  { margin := (0, 0), containerPadding := (0, 0), containerWidth := 1,
    cols := 3, rowHeight := 30, maxRows := 100 }

/-- The spec's Scenario A grid parameters. -/
def prW : PositionParams :=
  { margin := (10, 10), containerPadding := (10, 10), containerWidth := 1200,
    cols := 12, rowHeight := 30, maxRows := 100 }

/-- The input items of the `correctBounds` witness: one item overflowing the
right edge, one static item overflowing the left edge. -/
def cbU : LayoutItem := { i := "u", x := 11, y := 0, w := 3, h := 1 }

/-- See `cbU`. -/
def cbV : LayoutItem := { i := "v", x := -2, y := 0, w := 2, h := 1, static := true }

/-- The per-item relation established by `correctBounds`: `x` and `w` are the
clamped values, id, `h` and `static` survive, non-static items keep `y`,
static items only move down, and the result lies in `[0, cols]`. -/
def BoundsRel (cols : Int) (l0 l3 : LayoutItem) : Prop :=
  l3.i = l0.i ∧ l3.h = l0.h ∧ l3.static = l0.static ∧
    l3.x = (boundClamp cols l0).x ∧ l3.w = (boundClamp cols l0).w ∧
    (l0.static = false → l3.y = l0.y) ∧ (l0.static = true → l0.y ≤ l3.y) ∧
    0 ≤ l3.x ∧ l3.x + l3.w ≤ cols

/-- Concrete items for the move-engine theorems: an already-`moved` item at
the same spot as `cexB`, and a static item. -/
def cexA : LayoutItem := { i := "a", x := 1, y := 0, w := 1, h := 1, moved := true }

/-- See `cexA`. -/
def cexB : LayoutItem := { i := "b", x := 1, y := 0, w := 1, h := 1 }

/-- See `cexA`. -/
def cexS : LayoutItem := { i := "s", x := 0, y := 0, w := 1, h := 1, static := true }

/-- Two side-by-side unit items for the move-engine witnesses. -/
def wA : LayoutItem := { i := "a", x := 0, y := 0, w := 1, h := 1 }

/-- See `wA`. -/
def wB : LayoutItem := { i := "b", x := 1, y := 0, w := 1, h := 1 }

/-- The fields of an item that the compactor never changes. -/
def FieldsEq (a b : LayoutItem) : Prop :=
  a.i = b.i ∧ a.w = b.w ∧ a.h = b.h ∧ a.static = b.static ∧
    a.moved = b.moved ∧ a.isDraggable = b.isDraggable

/-- The per-index fields that C10 claims `compact` preserves, plus the cleared
`moved` flag. -/
def FrameClaim (o li : LayoutItem) : Prop :=
  o.i = li.i ∧ o.w = li.w ∧ o.h = li.h ∧ o.moved = false

/-! ## C1: the no-overlap invariant of `compact` -/

/-- All coordinates and sizes of an item are nonnegative. -/
abbrev ItemNonneg (l : LayoutItem) : Prop :=
  0 ≤ l.x ∧ 0 ≤ l.y ∧ 0 ≤ l.w ∧ 0 ≤ l.h

/-- Every array entry and the clone of a compaction state are nonnegative. -/
def StNonneg (st : CState) : Prop :=
  (∀ j, ItemNonneg (st.arr.getD j default)) ∧ ItemNonneg st.cur

/-- Compatibility of two placed items: unless both are static they do not
overlap (in either argument order of `collides`). -/
def POk (a b : LayoutItem) : Prop :=
  (a.static = false ∨ b.static = false) →
    collides a b = false ∧ collides b a = false

/-- What a filled output slot of `compact` can hold: a static input item with
its `moved` flag cleared, or a non-static item recorded in the running
`compareWith` list. -/
def OutOk (layout cw : List LayoutItem) (o : LayoutItem) : Prop :=
  (o.static = true ∧
    ∃ li ∈ layout, li.static = true ∧ o = { li with moved := false }) ∨
  (o.static = false ∧ o ∈ cw)

/-- A non-static item starting above the grid (`y = -1`): the final
`Math.max(0, l.y)` clamp of `compactItem` pushes it back down into row 0
after all collision checks have already run. -/
def cexN : LayoutItem := { i := "n", x := 0, y := -1, w := 1, h := 1 }

/-- Two overlapping static items: `compact` leaves them in place, so the
output keeps a colliding static-static pair. -/
def wS1 : LayoutItem := { i := "s1", x := 0, y := 0, w := 2, h := 1, static := true }

/-- See `wS1`. -/
def wS2 : LayoutItem := { i := "s2", x := 1, y := 0, w := 2, h := 1, static := true }

/-- What one `compact` pass does to an item when the collision loop never
moves it: statics are copied with `moved` cleared; other items additionally
get the final `Math.max(0, …)` clamps.  With compactType `null` and
`allowOverlap` true this is the whole per-item behaviour. -/
def nullStep (l : LayoutItem) : LayoutItem :=
  if l.static then { l with moved := false }
  else { l with moved := false, y := max l.y 0, x := max l.x 0 }

/-- The six fields identifying an item geometrically (plus staticness), as
preserved when a slot copy differs only in `moved`. -/
def GeomEqS (o c : LayoutItem) : Prop :=
  o.i = c.i ∧ o.x = c.x ∧ o.y = c.y ∧ o.w = c.w ∧ o.h = c.h ∧
    o.static = c.static

/-- Vertical placement fact for a non-static compacted item: it rests on the
floor or immediately below a horizontally overlapping placed item. -/
def VBlocked (cw : List LayoutItem) (o : LayoutItem) : Prop :=
  o.y = 0 ∨ ∃ c ∈ cw, c.i ≠ o.i ∧ c.y + c.h = o.y ∧ o.x < c.x + c.w ∧
    c.x < o.x + o.w

/-- Horizontal placement fact for a non-static compacted item: it sits in
column 0 or flush right of a vertically overlapping placed item, and in the
latter case within the grid width. -/
def HBlocked (cols : Int) (cw : List LayoutItem) (o : LayoutItem) : Prop :=
  o.x = 0 ∨ ∃ c ∈ cw, c.i ≠ o.i ∧ c.x + c.w = o.x ∧ o.y < c.y + c.h ∧
    c.y < o.y + o.h ∧ o.x + o.w ≤ cols

/-- During `compactGo`, a `compareWith` member is either already written to
an output slot or is a static entry still waiting at an index of the
remaining order. -/
def CwPresent (order : List Nat) (arr : List LayoutItem)
    (out : List (Option LayoutItem)) (c : LayoutItem) : Prop :=
  (∃ j o, out.getD j none = some o ∧ GeomEqS o c) ∨
  (∃ j ∈ order, GeomEqS (arr.getD j default) c ∧ c.static = true)

/-! ## Basic lemmas about collision and geometry -/

theorem getD_set_self {α : Type _} (l : List α) (i : Nat) (v d : α)
    (h : i < l.length) : (l.set i v).getD i d = v := by
  simp [List.getD_eq_getElem?_getD, List.getElem?_set_self, h]

theorem getD_set_ne {α : Type _} (l : List α) {i j : Nat} (v d : α)
    (h : i ≠ j) : (l.set i v).getD j d = l.getD j d := by
  simp [List.getD_eq_getElem?_getD, List.getElem?_set_ne h]

theorem collides_iff (a b : LayoutItem) :
    collides a b = true ↔
      a.i ≠ b.i ∧ b.x < a.x + a.w ∧ a.x < b.x + b.w ∧ b.y < a.y + a.h ∧
        a.y < b.y + b.h := by
  unfold collides
  split_ifs with h1 h2 h3 h4 h5 <;> simp_all

theorem collides_eq_false_iff (a b : LayoutItem) :
    collides a b = false ↔
      a.i = b.i ∨ a.x + a.w ≤ b.x ∨ b.x + b.w ≤ a.x ∨ a.y + a.h ≤ b.y ∨
        b.y + b.h ≤ a.y := by
  rw [← Bool.not_eq_true, collides_iff]
  constructor
  · intro h
    by_cases hi : a.i = b.i
    · exact Or.inl hi
    · simp only [ne_eq, hi, not_false_iff, true_and] at h
      omega
  · rintro (h | h | h | h | h) ⟨h1, h2, h3, h4, h5⟩ <;> first
      | exact h1 h
      | omega

theorem collides_symm (a b : LayoutItem) : collides a b = collides b a := by
  rw [Bool.eq_iff_iff, collides_iff, collides_iff]
  constructor <;> rintro ⟨h1, h2, h3, h4, h5⟩ <;>
    exact ⟨fun e => h1 e.symm, by omega, by omega, by omega, by omega⟩

theorem collides_ne_of_true {a b : LayoutItem} (h : collides a b = true) :
    a.i ≠ b.i :=
  ((collides_iff a b).mp h).1

theorem collides_self (a : LayoutItem) : collides a a = false := by
  unfold collides
  simp

/-- `collides` only reads `i, x, y, w, h`. -/
theorem collides_of_fields {a a' b b' : LayoutItem}
    (ha : a.i = a'.i ∧ a.x = a'.x ∧ a.y = a'.y ∧ a.w = a'.w ∧ a.h = a'.h)
    (hb : b.i = b'.i ∧ b.x = b'.x ∧ b.y = b'.y ∧ b.w = b'.w ∧ b.h = b'.h) :
    collides a b = collides a' b' := by
  obtain ⟨h1, h2, h3, h4, h5⟩ := ha
  obtain ⟨g1, g2, g3, g4, g5⟩ := hb
  unfold collides
  rw [h1, h2, h3, h4, h5, g1, g2, g3, g4, g5]

theorem getFirstCollision_eq_none_iff (layout : List LayoutItem)
    (l : LayoutItem) :
    getFirstCollision layout l = none ↔ ∀ c ∈ layout, collides c l = false := by
  unfold getFirstCollision
  rw [List.find?_eq_none]
  simp

theorem getFirstCollision_eq_some {layout : List LayoutItem} {l c : LayoutItem}
    (h : getFirstCollision layout l = some c) :
    c ∈ layout ∧ collides c l = true := by
  unfold getFirstCollision at h
  exact ⟨List.mem_of_find?_eq_some h, by simpa using List.find?_some h⟩

theorem cloneLayoutItem_eq (l : LayoutItem) : cloneLayoutItem l = l := rfl

theorem cloneLayout_eq (layout : List LayoutItem) : cloneLayout layout = layout := by
  unfold cloneLayout
  have h : cloneLayoutItem = id := funext fun l => rfl
  rw [h, List.map_id]

theorem bottom_foldl_ge_acc (l : List LayoutItem) (acc : Int) :
    acc ≤ l.foldl (fun max l => if l.y + l.h > max then l.y + l.h else max) acc := by
  induction l generalizing acc with
  | nil => exact le_refl _
  | cons c t ih =>
    refine le_trans ?_ (ih (if c.y + c.h > acc then c.y + c.h else acc))
    split <;> omega

theorem bottom_nonneg (l : List LayoutItem) : 0 ≤ bottom l :=
  bottom_foldl_ge_acc l 0

theorem bottom_foldl_mem {c : LayoutItem} {l : List LayoutItem} (hc : c ∈ l)
    (acc : Int) :
    c.y + c.h ≤
      l.foldl (fun max l => if l.y + l.h > max then l.y + l.h else max) acc := by
  induction l generalizing acc with
  | nil => cases hc
  | cons d t ih =>
    rcases List.mem_cons.mp hc with h | h
    · subst h
      refine le_trans ?_ (bottom_foldl_ge_acc t _)
      show c.y + c.h ≤ if c.y + c.h > acc then c.y + c.h else acc
      split <;> omega
    · exact ih h _

theorem le_bottom_of_mem {c : LayoutItem} {l : List LayoutItem} (hc : c ∈ l) :
    c.y + c.h ≤ bottom l :=
  bottom_foldl_mem hc 0

/-! ## C9: the north-west resize scenario -/

/-- C9: for resize handle `"nw"` with current rect
`{top:100, left:100, width:200, height:150}`, proposed rect
`{top:80, left:80, width:220, height:170}` and `containerWidth = 1000`,
`resizeItemInDirection` composes the west primitive and then the north
primitive — the second primitive receiving the first's output as the proposed
rectangle — and returns exactly `{left:80, width:220, top:80, height:170}`. -/
theorem resize_nw_scenario :
    (∀ (cur : Position) (new : PartialPosition) (cw : Int),
        resizeItemInDirection ResizeHandle.nw cur new cw =
          resizeNorth cur (resizeWest cur (mergePosition cur new) cw) cw) ∧
      resizeItemInDirection ResizeHandle.nw
          { left := 100, top := 100, width := 200, height := 150 }
          { left := some 80, top := some 80, width := some 220, height := some 170 }
          1000 =
        { left := 80, top := 80, width := 220, height := 170 } := by
  exact ⟨fun cur new cw => rfl, by decide⟩

/-! ## C7: tie behaviour of the two sort comparators -/

/-- C7 (counterexample): the claim states that both comparators return 0 on
equal positions; the col/row (horizontal) comparator returns -1, not 0, on two
items at the same position. -/
theorem sort_comparator_ties_counterexample :
    (⟨"a", 2, 3, 1, 1, false, false, none⟩ : LayoutItem).x =
        (⟨"b", 2, 3, 1, 1, false, false, none⟩ : LayoutItem).x ∧
      (⟨"a", 2, 3, 1, 1, false, false, none⟩ : LayoutItem).y =
        (⟨"b", 2, 3, 1, 1, false, false, none⟩ : LayoutItem).y ∧
      cmpColRow ⟨"a", 2, 3, 1, 1, false, false, none⟩
          ⟨"b", 2, 3, 1, 1, false, false, none⟩ ≠ 0 := by
  refine ⟨rfl, rfl, ?_⟩
  decide

/-- C7 (amended): on two items with equal positions on both axes the vertical
(row/col) comparator returns 0, while the horizontal (col/row) comparator
returns -1 — which, for a stable left-biased sort, likewise keeps the two
items in their relative input order. -/
theorem sort_comparator_ties (a b : LayoutItem) (hy : a.y = b.y)
    (hx : a.x = b.x) : cmpRowCol a b = 0 ∧ cmpColRow a b = -1 := by
  unfold cmpRowCol cmpColRow
  rw [hx, hy]
  simp

/-- Witness for `sort_comparator_ties` at two concrete equal-position items. -/
theorem sort_comparator_ties_witness :
    cmpRowCol ⟨"a", 2, 3, 1, 1, false, false, none⟩
          ⟨"b", 2, 3, 1, 1, false, false, none⟩ = 0 ∧
      cmpColRow ⟨"a", 2, 3, 1, 1, false, false, none⟩
          ⟨"b", 2, 3, 1, 1, false, false, none⟩ = -1 :=
  sort_comparator_ties _ _ rfl rfl

/-! ## C3: the pixel/grid round trip -/

theorem calcGridItemPosition_none_top (pr : PositionParams) (x y w h : Int) :
    (calcGridItemPosition pr x y w h none).top =
      jsRound ((pr.rowHeight + pr.margin.2) * (y : ℚ) + pr.containerPadding.2) := rfl

theorem calcGridItemPosition_none_left (pr : PositionParams) (x y w h : Int) :
    (calcGridItemPosition pr x y w h none).left =
      jsRound ((calcGridColWidth pr + pr.margin.1) * (x : ℚ) + pr.containerPadding.1) := rfl

theorem calcXY_eq (pr : PositionParams) (top left : ℚ) (w h : Int) :
    calcXY pr top left w h =
      (clamp (jsRound ((left - pr.containerPadding.1) / (calcGridColWidth pr + pr.margin.1))) 0 (pr.cols - w),
       clamp (jsRound ((top - pr.containerPadding.2) / (pr.rowHeight + pr.margin.2))) 0 (pr.maxRows - h)) := rfl

theorem clamp_eq_self {n lo hi : Int} (h1 : lo ≤ n) (h2 : n ≤ hi) :
    clamp n lo hi = n := by
  unfold clamp
  rw [min_eq_left h2, max_eq_left h1]

/-- One-axis round trip: for step `A > 1`, rounding `A·n + p` to a pixel and
back recovers `n`. -/
theorem round_div_round (A p : ℚ) (n : Int) (hA : 1 < A) :
    jsRound ((((jsRound (A * n + p) : ℤ) : ℚ) - p) / A) = n := by
  unfold jsRound
  set q := A * (n : ℚ) + p + 1 / 2 with hq
  have h0 : 0 ≤ Int.fract q := Int.fract_nonneg q
  have h1 : Int.fract q < 1 := Int.fract_lt_one q
  have hA0 : (0 : ℚ) < A := lt_trans one_pos hA
  have hL : ((⌊q⌋ : ℤ) : ℚ) = A * (n : ℚ) + p + 1 / 2 - Int.fract q := by
    rw [← Int.self_sub_fract q, hq]
  have key : (((⌊q⌋ : ℤ) : ℚ) - p) / A + 1 / 2 =
      (n : ℚ) + ((1 / 2 - Int.fract q) / A + 1 / 2) := by
    rw [hL]
    field_simp
    ring
  rw [key, Int.floor_int_add]
  have h3 : (1 / 2 - Int.fract q) / A < 1 / 2 := by
    rw [div_lt_iff₀ hA0]
    nlinarith
  have h4 : -(1 / 2 : ℚ) ≤ (1 / 2 - Int.fract q) / A := by
    rw [le_div_iff₀ hA0]
    nlinarith
  have hr0 : ⌊(1 / 2 - Int.fract q) / A + 1 / 2⌋ = 0 := by
    rw [Int.floor_eq_zero_iff, Set.mem_Ico]
    constructor <;> linarith

  rw [hr0, add_zero]

/-- C3 (amended): the pixel/grid round trip
`calcXY (calcGridItemPosition params x y w h) w h = (x, y)` holds for every
in-bounds `(x, y, w, h)` provided each grid step exceeds one pixel:
`1 < colWidth + marginX` and `1 < rowHeight + marginY` (the counterexample
shows it fails when a grid step is at most one pixel, where rounding loses
the position). -/
theorem calc_roundtrip (pr : PositionParams) (x y w h : Int)
    (hA : 1 < calcGridColWidth pr + pr.margin.1)
    (hB : 1 < pr.rowHeight + pr.margin.2)
    (hx0 : 0 ≤ x) (hxw : x + w ≤ pr.cols)
    (hy0 : 0 ≤ y) (hyh : y + h ≤ pr.maxRows) :
    calcXY pr ((calcGridItemPosition pr x y w h none).top : ℚ)
      ((calcGridItemPosition pr x y w h none).left : ℚ) w h = (x, y) := by
  rw [calcGridItemPosition_none_top, calcGridItemPosition_none_left, calcXY_eq,
    round_div_round _ _ _ hA, round_div_round _ _ _ hB,
    clamp_eq_self hx0 (by omega), clamp_eq_self hy0 (by omega)]

/-- Witness for `calc_roundtrip` at the spec's own Scenario A parameters. -/
theorem calc_roundtrip_witness :
    calcXY prW ((calcGridItemPosition prW 3 2 2 2 none).top : ℚ)
      ((calcGridItemPosition prW 3 2 2 2 none).left : ℚ) 2 2 = (3, 2) :=
  calc_roundtrip prW 3 2 2 2 (by norm_num [calcGridColWidth, prW])
    (by norm_num [prW]) (by norm_num) (by norm_num [prW]) (by norm_num)
    (by norm_num [prW])

/-- C3 (counterexample): with margin 0, padding 0, containerWidth 1 and
cols 3 the column step is 1/3 of a pixel; the in-bounds position `(1, 0)`
with `w = h = 1` maps to `left = round(1/3) = 0` pixels, from which `calcXY`
recovers `x = 0`, not `1` — the round trip fails as stated. -/
theorem calc_roundtrip_counterexample :
    (0 ≤ (1 : Int) ∧ 1 + 1 ≤ narrowParams.cols ∧ 0 ≤ (0 : Int) ∧
        0 + 1 ≤ narrowParams.maxRows) ∧
      calcXY narrowParams ((calcGridItemPosition narrowParams 1 0 1 1 none).top : ℚ)
          ((calcGridItemPosition narrowParams 1 0 1 1 none).left : ℚ) 1 1 ≠
        ((1 : Int), (0 : Int)) := by
  refine ⟨by norm_num [narrowParams], ?_⟩
  rw [calcGridItemPosition_none_top, calcGridItemPosition_none_left, calcXY_eq]
  norm_num [narrowParams, calcGridColWidth, jsRound, clamp, Prod.ext_iff]

/-! ## C5: correctBounds -/

theorem boundClamp_fields (cols : Int) (l : LayoutItem) :
    (boundClamp cols l).i = l.i ∧ (boundClamp cols l).y = l.y ∧
      (boundClamp cols l).h = l.h ∧ (boundClamp cols l).static = l.static ∧
      (boundClamp cols l).moved = l.moved := by
  unfold boundClamp
  dsimp only
  split_ifs <;> simp

theorem boundClamp_bounds (cols : Int) (l : LayoutItem) :
    0 ≤ (boundClamp cols l).x ∧
      (boundClamp cols l).x + (boundClamp cols l).w ≤ cols := by
  unfold boundClamp
  dsimp only
  split_ifs <;> simp_all

/-- `correctBoundsPush` only pushes the item down: every other field is kept
and `y` only grows. -/
theorem correctBoundsPush_spec (fuel : Nat) (cw : List Nat)
    (arr : List LayoutItem) (l l3 : LayoutItem)
    (h : correctBoundsPush fuel cw arr l = some l3) :
    l3.i = l.i ∧ l3.x = l.x ∧ l3.w = l.w ∧ l3.h = l.h ∧
      l3.static = l.static ∧ l.y ≤ l3.y := by
  induction fuel generalizing l with
  | zero =>
    unfold correctBoundsPush at h
    split at h
    · cases h
      exact ⟨rfl, rfl, rfl, rfl, rfl, le_refl _⟩
    · exact Option.noConfusion h
    · rename_i fx hfind heq
      omega
  | succ f ih =>
    unfold correctBoundsPush at h
    split at h
    · cases h
      exact ⟨rfl, rfl, rfl, rfl, rfl, le_refl _⟩
    · exact Option.noConfusion h
    · rename_i fx hfind heq
      have hfx : fx = f := by omega
      subst hfx
      obtain ⟨a, b, c, d, e, g⟩ := ih _ h
      simp only at g
      exact ⟨a, b, c, d, e, by omega⟩

/-- Loop invariant of `correctBoundsGo`: each pending index is transformed by
`BoundsRel`, every other entry is untouched. -/
theorem correctBoundsGo_spec (fuel : Nat) (cols : Int) :
    ∀ (pending cw : List Nat) (arr arr2 : List LayoutItem),
      pending.Nodup → (∀ j ∈ pending, j < arr.length) →
      correctBoundsGo fuel cols pending cw arr = some arr2 →
      arr2.length = arr.length ∧
        (∀ j, j ∉ pending → arr2.getD j default = arr.getD j default) ∧
        (∀ j ∈ pending, BoundsRel cols (arr.getD j default) (arr2.getD j default)) := by
  intro pending
  induction pending with
  | nil =>
    intro cw arr arr2 _ _ h
    cases h
    exact ⟨rfl, fun j _ => rfl, fun j hj => absurd hj (List.not_mem_nil j)⟩
  | cons idx rest ih =>
    intro cw arr arr2 hnd hlt h
    have hidx : idx < arr.length := hlt idx (List.mem_cons_self idx rest)
    have hndr := (List.nodup_cons.mp hnd).2
    have hnin := (List.nodup_cons.mp hnd).1
    unfold correctBoundsGo at h
    dsimp only at h
    have hflds := boundClamp_fields cols (arr.getD idx default)
    by_cases hs : (boundClamp cols (arr.getD idx default)).static = false
    · rw [if_pos hs] at h
      obtain ⟨hlen, hout, hin⟩ := ih (cw ++ [idx])
        (arr.set idx (boundClamp cols (arr.getD idx default))) arr2 hndr
        (fun j hj => by
          rw [List.length_set]
          exact hlt j (List.mem_cons_of_mem idx hj)) h
      refine ⟨by rw [hlen, List.length_set], ?_, ?_⟩
      · intro j hj
        have hj1 : j ≠ idx := fun e => hj (e ▸ List.mem_cons_self idx rest)
        have hj2 : j ∉ rest := fun e => hj (List.mem_cons_of_mem idx e)
        rw [hout j hj2, getD_set_ne _ _ _ (fun e => hj1 e.symm)]
      · intro j hj
        rcases List.mem_cons.mp hj with rfl | hj2
        · rw [hout j hnin, getD_set_self _ _ _ _ hidx]
          have hb := boundClamp_bounds cols (arr.getD j default)
          refine ⟨hflds.1, hflds.2.2.1, hflds.2.2.2.1, rfl, rfl, ?_, ?_, hb.1, hb.2⟩
          · intro _
            exact hflds.2.1
          · intro hst
            rw [hflds.2.2.2.1, hst] at hs
            exact Bool.noConfusion hs
        · have hj1 : j ≠ idx := fun e => hnin (e ▸ hj2)
          have hr := hin j hj2
          rwa [getD_set_ne _ _ _ (fun e => hj1 e.symm)] at hr
    · rw [if_neg hs] at h
      have hbs : (boundClamp cols (arr.getD idx default)).static = true := by
        rcases Bool.eq_false_or_eq_true
            ((boundClamp cols (arr.getD idx default)).static) with h1 | h1
        · exact h1
        · exact absurd h1 hs
      have hst : (arr.getD idx default).static = true := by
        rw [← hflds.2.2.2.1]
        exact hbs
      rcases hp : correctBoundsPush fuel cw
          (arr.set idx (boundClamp cols (arr.getD idx default)))
          (boundClamp cols (arr.getD idx default)) with _ | l3
      · rw [hp] at h
        exact Option.noConfusion h
      · rw [hp] at h
        obtain ⟨pa, pb, pc, pd, pe, pf⟩ := correctBoundsPush_spec _ _ _ _ _ hp
        obtain ⟨hlen, hout, hin⟩ := ih cw (arr.set idx l3) arr2 hndr
          (fun j hj => by
            rw [List.length_set]
            exact hlt j (List.mem_cons_of_mem idx hj)) h
        refine ⟨by rw [hlen, List.length_set], ?_, ?_⟩
        · intro j hj
          have hj1 : j ≠ idx := fun e => hj (e ▸ List.mem_cons_self idx rest)
          have hj2 : j ∉ rest := fun e => hj (List.mem_cons_of_mem idx e)
          rw [hout j hj2, getD_set_ne _ _ _ (fun e => hj1 e.symm)]
        · intro j hj
          rcases List.mem_cons.mp hj with rfl | hj2
          · rw [hout j hnin, getD_set_self _ _ _ _ hidx]
            have hb := boundClamp_bounds cols (arr.getD j default)
            refine ⟨pa.trans hflds.1, pd.trans hflds.2.2.1,
              pe.trans hflds.2.2.2.1, pb, pc, ?_, ?_, ?_, ?_⟩
            · intro hnst
              rw [hnst] at hst
              exact Bool.noConfusion hst
            · intro _
              calc (arr.getD j default).y = (boundClamp cols (arr.getD j default)).y :=
                    hflds.2.1.symm
                _ ≤ l3.y := pf
            · rw [pb]
              exact hb.1
            · rw [pb, pc]
              exact hb.2
          · have hj1 : j ≠ idx := fun e => hnin (e ▸ hj2)
            have hr := hin j hj2
            rwa [getD_set_ne _ _ _ (fun e => hj1 e.symm)] at hr

/-- C5: `correctBounds` clamps every item into the column bounds — if
`x + w > cols` then `x` becomes `cols − w`, then if `x < 0` then `x` becomes 0
and `w` becomes `cols` — pushes only static items, only downwards and never
horizontally, and afterwards every item satisfies `0 ≤ x` and `x + w ≤ cols`. -/
theorem correctBounds_spec (fuel : Nat) (layout : List LayoutItem) (cols : Int)
    (out : List LayoutItem) (h : correctBounds fuel layout cols = some out) :
    out.length = layout.length ∧
      (∀ l ∈ out, 0 ≤ l.x ∧ l.x + l.w ≤ cols) ∧
      (∀ j, j < layout.length →
        BoundsRel cols (layout.getD j default) (out.getD j default)) := by
  unfold correctBounds at h
  obtain ⟨hlen, _, hin⟩ := correctBoundsGo_spec fuel cols
    (List.range layout.length) _ layout out (List.nodup_range _)
    (fun j hj => List.mem_range.mp hj) h
  refine ⟨hlen, ?_, fun j hj => hin j (List.mem_range.mpr hj)⟩
  intro l hl
  obtain ⟨i, hi, rfl⟩ := List.getElem_of_mem hl
  have he : out.getD i default = out[i] := List.getD_eq_getElem out default hi
  have hb := hin i (List.mem_range.mpr (by omega))
  rw [he] at hb
  exact ⟨hb.2.2.2.2.2.2.2.1, hb.2.2.2.2.2.2.2.2⟩

/-- Witness for `correctBounds_spec` at a concrete two-item layout. -/
theorem correctBounds_spec_witness :
    correctBounds 50 [cbU, cbV] 12 =
        some [{ cbU with x := 9 }, { cbV with x := 0, y := 1, w := 12 }] ∧
      ∀ l ∈ [{ cbU with x := 9 }, { cbV with x := 0, y := 1, w := 12 }],
        0 ≤ l.x ∧ l.x + l.w ≤ 12 :=
  ⟨rfl, (correctBounds_spec 50 [cbU, cbV] 12 _ rfl).2.1⟩

/-! ## C2 and C6: the two short-circuit paths of moveElement -/

theorem getD_map (f : LayoutItem → LayoutItem) (L : List LayoutItem) (j : Nat)
    (d : LayoutItem) (hj : j < L.length) :
    (L.map f).getD j d = f (L.getD j d) := by
  rw [List.getD_eq_getElem _ _ (by simpa using hj), List.getD_eq_getElem _ _ hj,
    List.getElem_map]

theorem sortLayoutItems_perm (L : List LayoutItem) (ct : CompactType) :
    (sortLayoutItems L ct).Perm L := by
  cases ct <;>
    unfold sortLayoutItems sortLayoutItemsByRowCol sortLayoutItemsByColRow <;>
    first
      | exact List.perm_insertionSort _ _
      | exact List.Perm.refl _

theorem sorted_collisions_perm (L : List LayoutItem) (ct : CompactType)
    (b : Bool) (l1 : LayoutItem) :
    (getAllCollisions
        (if b then (sortLayoutItems L ct).reverse else sortLayoutItems L ct)
        l1).Perm
      (getAllCollisions L l1) := by
  unfold getAllCollisions
  refine List.Perm.filter _ ?_
  cases b
  · simpa using sortLayoutItems_perm L ct
  · simpa using (List.reverse_perm _).trans (sortLayoutItems_perm L ct)

theorem sorted_collisions_ne_nil (L : List LayoutItem) (ct : CompactType)
    (b : Bool) (l1 : LayoutItem) (h : getAllCollisions L l1 ≠ []) :
    getAllCollisions
        (if b then (sortLayoutItems L ct).reverse else sortLayoutItems L ct)
        l1 ≠ [] := by
  intro he
  have hp := sorted_collisions_perm L ct b l1
  rw [he] at hp
  exact h hp.symm.eq_nil

theorem updateById_twice (L : List LayoutItem) (a b : LayoutItem)
    (hab : a.i = b.i) : updateById (updateById L a) b = updateById L b := by
  unfold updateById
  rw [List.map_map]
  refine List.map_congr_left ?_
  intro it _
  simp only [Function.comp]
  by_cases h : it.i = a.i
  · rw [if_pos h, if_pos hab, if_pos (h.trans hab)]
  · rw [if_neg h]

theorem updateById_revert (L : List LayoutItem) (l : LayoutItem) (tx ty : Int) :
    updateById (updateById L { l with x := tx, y := ty, moved := true })
        { l with moved := false } =
      updateById L { l with moved := false } :=
  updateById_twice _ _ _ rfl

/-- In a layout with pairwise distinct ids, the entry carrying `l`'s id is `l`
itself. -/
theorem getD_eq_of_id (layout : List LayoutItem) (l : LayoutItem) (j : Nat)
    (hNd : (layout.map (fun it => it.i)).Nodup) (hIn : l ∈ layout)
    (hj : j < layout.length) (hid : (layout.getD j default).i = l.i) :
    layout.getD j default = l := by
  obtain ⟨k, hk, hkl⟩ := List.getElem_of_mem hIn
  rw [List.getD_eq_getElem _ _ hj] at hid ⊢
  have hjm : j < (layout.map (fun it => it.i)).length := by simpa using hj
  have hkm : k < (layout.map (fun it => it.i)).length := by simpa using hk
  have hmj : (layout.map (fun it => it.i)).get ⟨j, hjm⟩ = l.i := by
    simpa [List.getElem_map] using hid
  have hmk : (layout.map (fun it => it.i)).get ⟨k, hkm⟩ = l.i := by
    simpa [List.getElem_map] using congrArg (fun it => it.i) hkl
  have hjk : j = k := by
    have h2 : (layout.map (fun it => it.i)).get ⟨j, hjm⟩ =
        (layout.map (fun it => it.i)).get ⟨k, hkm⟩ := by rw [hmj, hmk]
    exact (List.Nodup.getElem_inj_iff hNd).mp h2
  subst hjk
  exact hkl

/-- C2 (amended): when the moved item is movable (non-static or explicitly
draggable) and the target differs from its current position, `moveElement`
with `preventCollision = true`, `allowOverlap = false` and a colliding target
returns the layout with the moved item's `x`,`y` reverted to their pre-call
values and its `moved` flag false, every other item exactly as before.  (The
counterexample shows the claim as stated fails on the short-circuit paths,
where nothing is reverted and `moved` is not cleared.) -/
theorem moveElement_preventCollision_reverts (layout : List LayoutItem)
    (l : LayoutItem) (tx ty : Int) (isUserAction : Bool) (ct : CompactType)
    (cols : Int) (f : Nat)
    (hMov : ¬(l.static = true ∧ l.isDraggable ≠ some true))
    (hDiff : ¬(ty = l.y ∧ tx = l.x))
    (hCol : getAllCollisions
        (updateById layout { l with x := tx, y := ty, moved := true })
        { l with x := tx, y := ty, moved := true } ≠ []) :
    moveElement (f + 1) layout l (some tx) (some ty) isUserAction true ct cols
        false =
      some (updateById layout { l with moved := false }) := by
  unfold moveElement
  rw [if_neg (by simpa using hMov), if_neg (by simpa using hDiff)]
  dsimp only
  simp only [Option.getD_some, Bool.false_eq_true, and_false, if_false,
    eq_self_iff_true, and_true]
  rw [if_pos (sorted_collisions_ne_nil _ _ _ _ hCol), updateById_revert]

/-- Witness for `moveElement_preventCollision_reverts` at a concrete layout:
moving `wA` onto `wB` with collision prevention returns `wA` reverted. -/
theorem moveElement_preventCollision_reverts_witness :
    moveElement 20 [wA, wB] wA (some 1) (some 0) true true
        CompactType.vertical 12 false =
      some (updateById [wA, wB] { wA with moved := false }) :=
  moveElement_preventCollision_reverts [wA, wB] wA 1 0 true
    CompactType.vertical 12 19 (by decide) (by decide) (by decide)

/-- C2 (counterexample): with the target equal to the item's current (and
colliding) position, `moveElement` short-circuits and returns the layout
unchanged, so the `moved` flag of the item — `true` on entry — is *not*
cleared before returning, contradicting the claim. -/
theorem moveElement_preventCollision_counterexample :
    getAllCollisions
        (updateById [cexA, cexB] { cexA with x := 1, y := 0, moved := true })
        { cexA with x := 1, y := 0, moved := true } ≠ [] ∧
      moveElement 5 [cexA, cexB] cexA (some 1) (some 0) true true
          CompactType.vertical 12 false = some [cexA, cexB] ∧
      cexA.moved = true := by
  refine ⟨by decide, ?_, rfl⟩
  unfold moveElement
  rw [if_neg (by decide), if_pos (by decide)]

/-- C6 (amended): when the moved item is movable (non-static or explicitly
draggable), `moveElement` with `allowOverlap = true` and a colliding target
leaves the moved item exactly at the requested target coordinates and every
other item (in a layout with distinct ids) exactly at its pre-call value,
with no cascading displacement.  (The counterexample shows the claim as
stated fails for a static item, which is returned unmoved.) -/
theorem moveElement_allowOverlap_exact (layout : List LayoutItem)
    (l : LayoutItem) (tx ty : Int) (isUserAction preventCollision : Bool)
    (ct : CompactType) (cols : Int) (f : Nat)
    (hMov : ¬(l.static = true ∧ l.isDraggable ≠ some true))
    (hIn : l ∈ layout) (hNd : (layout.map (fun it => it.i)).Nodup)
    (hCol : getAllCollisions
        (updateById layout { l with x := tx, y := ty, moved := true })
        { l with x := tx, y := ty, moved := true } ≠ []) :
    ∃ out, moveElement (f + 1) layout l (some tx) (some ty) isUserAction
        preventCollision ct cols true = some out ∧
      out.length = layout.length ∧
      (∀ j, j < layout.length → (layout.getD j default).i ≠ l.i →
        out.getD j default = layout.getD j default) ∧
      (∀ j, j < layout.length → (layout.getD j default).i = l.i →
        (out.getD j default).x = tx ∧ (out.getD j default).y = ty ∧
          (out.getD j default).w = l.w ∧ (out.getD j default).h = l.h ∧
          (out.getD j default).i = l.i) := by
  by_cases hsame : (some ty = some l.y ∧ some tx = some l.x)
  · have hty : ty = l.y := by simpa using hsame.1
    have htx : tx = l.x := by simpa using hsame.2
    refine ⟨layout, ?_, rfl, fun j hj hne => rfl, fun j hj hid => ?_⟩
    · unfold moveElement
      rw [if_neg (by simpa using hMov), if_pos hsame]
    · have he := getD_eq_of_id layout l j hNd hIn hj hid
      rw [he]
      exact ⟨htx.symm, hty.symm, rfl, rfl, rfl⟩
  · refine ⟨updateById layout { l with x := tx, y := ty, moved := true },
      ?_, ?_, ?_, ?_⟩
    · unfold moveElement
      rw [if_neg (by simpa using hMov), if_neg hsame]
      dsimp only
      simp only [Option.getD_some, eq_self_iff_true, and_true]
      rw [if_pos (sorted_collisions_ne_nil _ _ _ _ hCol), cloneLayout_eq]
    · simp [updateById]
    · intro j hj hne
      unfold updateById
      rw [getD_map _ _ _ _ hj]
      dsimp only
      rw [if_neg hne]
    · intro j hj hid
      unfold updateById
      rw [getD_map _ _ _ _ hj]
      dsimp only
      rw [if_pos hid]
      exact ⟨rfl, rfl, rfl, rfl, rfl⟩

/-- Witness for `moveElement_allowOverlap_exact`: moving `wA` onto `wB` with
overlap allowed drops it exactly there and leaves `wB` alone. -/
theorem moveElement_allowOverlap_exact_witness :
    ∃ out, moveElement 20 [wA, wB] wA (some 1) (some 0) true false
        CompactType.vertical 12 true = some out ∧
      out.length = ([wA, wB] : List LayoutItem).length ∧
      (∀ j, j < ([wA, wB] : List LayoutItem).length →
        (([wA, wB] : List LayoutItem).getD j default).i ≠ wA.i →
        out.getD j default = ([wA, wB] : List LayoutItem).getD j default) ∧
      (∀ j, j < ([wA, wB] : List LayoutItem).length →
        (([wA, wB] : List LayoutItem).getD j default).i = wA.i →
        (out.getD j default).x = 1 ∧ (out.getD j default).y = 0 ∧
          (out.getD j default).w = wA.w ∧ (out.getD j default).h = wA.h ∧
          (out.getD j default).i = wA.i) :=
  moveElement_allowOverlap_exact [wA, wB] wA 1 0 true false
    CompactType.vertical 12 19 (by decide) (by decide) (by decide) (by decide)

/-- C6 (counterexample): a static item (without `isDraggable = true`) aimed at
a colliding target is returned unmoved by `moveElement`, not placed at the
requested coordinates. -/
theorem moveElement_allowOverlap_counterexample :
    getAllCollisions
        (updateById [cexS, cexB] { cexS with x := 1, y := 0, moved := true })
        { cexS with x := 1, y := 0, moved := true } ≠ [] ∧
      moveElement 5 [cexS, cexB] cexS (some 1) (some 0) true false
          CompactType.vertical 12 true = some [cexS, cexB] ∧
      cexS.x ≠ 1 := by
  refine ⟨by decide, ?_, by decide⟩
  unfold moveElement
  rw [if_pos (by decide)]

/-! ## C8: the displacement and scan-stop rules of resolveCompactionCollision -/

theorem getAxis_setAxis (l : LayoutItem) (a : Axis) (v : Int) :
    getAxis (setAxis l a v) a = v := by
  cases a <;> rfl

theorem targetSet_arr_length (st : CState) (t : RTarget) (v : LayoutItem) :
    (targetSet st t v).arr.length = st.arr.length := by
  cases t <;> simp [targetSet, List.length_set]

theorem targetGet_targetSet (st : CState) (t : RTarget) (v : LayoutItem)
    (h : TargetOk st t) : targetGet (targetSet st t v) t = v := by
  cases t with
  | cur => rfl
  | idx k => exact getD_set_self _ _ _ _ h

theorem scan_arr_length (dive : CState → Nat → Int → Option CState)
    (hd : ∀ s k m s2, dive s k m = some s2 → s2.arr.length = s.arr.length)
    (t : RTarget) (mv : Int) (a : Axis) :
    ∀ (ps : List Nat) (st st2 : CState),
      resolveCollisionScan dive t mv a st ps = some st2 →
      st2.arr.length = st.arr.length := by
  intro ps
  induction ps with
  | nil =>
    intro st st2 h
    cases h
    rfl
  | cons k rest ih =>
    intro st st2 h
    unfold resolveCollisionScan at h
    dsimp only at h
    split_ifs at h with h1 h2 h3
    · exact ih st st2 h
    · cases h
      rfl
    · rcases hdv : dive st k (mv + getSize (targetGet st t) a) with _ | s2
      · rw [hdv] at h
        exact Option.noConfusion h
      · rw [hdv] at h
        rw [ih s2 st2 h, hd st k _ s2 hdv]
    · exact ih st st2 h

theorem rcc_arr_length :
    ∀ (f : Nat) (order : List Nat) (a : Axis) (st : CState) (t : RTarget)
      (m : Int) (st2 : CState),
      resolveCompactionCollision f order a st t m = some st2 →
      st2.arr.length = st.arr.length := by
  intro f
  induction f with
  | zero =>
    intro order a st t m st2 h
    exact Option.noConfusion h
  | succ f ih =>
    intro order a st t m st2 h
    unfold resolveCompactionCollision at h
    dsimp only at h
    split at h
    · exact Option.noConfusion h
    · rename_i st3 heq
      cases h
      rw [targetSet_arr_length]
      rw [scan_arr_length _ (fun s k m s2 hh => ih order a s (.idx k) m s2 hh)
        _ _ _ _ _ _ heq, targetSet_arr_length]

theorem rcc_sets_target :
    ∀ (f : Nat) (order : List Nat) (a : Axis) (st : CState) (t : RTarget)
      (m : Int) (st2 : CState), TargetOk st t →
      resolveCompactionCollision f order a st t m = some st2 →
      getAxis (targetGet st2 t) a = m := by
  intro f
  cases f with
  | zero =>
    intro order a st t m st2 _ h
    exact Option.noConfusion h
  | succ f =>
    intro order a st t m st2 hok h
    unfold resolveCompactionCollision at h
    dsimp only at h
    split at h
    · exact Option.noConfusion h
    · rename_i st3 heq
      cases h
      have hlen : st3.arr.length = st.arr.length := by
        rw [scan_arr_length _
          (fun s k m s2 hh => rcc_arr_length f order a s (.idx k) m s2 hh)
          _ _ _ _ _ _ heq, targetSet_arr_length]
      have hok3 : TargetOk st3 t := by
        cases t with
        | cur => trivial
        | idx k =>
          show k < st3.arr.length
          rw [hlen]
          exact hok
      rw [targetGet_targetSet _ _ _ hok3, getAxis_setAxis]

theorem scan_congr_y (d1 d2 : CState → Nat → Int → Option CState)
    (hd : ∀ s k m, d1 s k m = d2 s k m) (t : RTarget) (mv : Int) :
    ∀ (ps : List Nat) (st : CState),
      resolveCollisionScan d1 t mv Axis.y st ps =
        claimResolveCollisionScan d2 t mv Axis.y st ps := by
  intro ps
  induction ps with
  | nil => intro st; rfl
  | cons k rest ih =>
    intro st
    unfold resolveCollisionScan claimResolveCollisionScan
    dsimp only
    have hpast : (claimScanPast Axis.y (targetGet st t) (st.arr.getD k default) = true) ↔
        ((st.arr.getD k default).y > (targetGet st t).y + (targetGet st t).h) := by
      simp [claimScanPast]
    by_cases h1 : (st.arr.getD k default).static = true
    · rw [if_pos h1, if_pos h1]
      exact ih st
    · rw [if_neg h1, if_neg h1]
      by_cases h2 : (st.arr.getD k default).y > (targetGet st t).y + (targetGet st t).h
      · rw [if_pos h2, if_pos (hpast.mpr h2)]
      · rw [if_neg h2, if_neg (fun hh => h2 (hpast.mp hh))]
        by_cases h3 : collides (targetGet st t) (st.arr.getD k default) = true
        · rw [if_pos h3, if_pos h3, hd]
          rcases d2 st k (mv + getSize (targetGet st t) Axis.y) with _ | s2
          · rfl
          · exact ih s2
        · rw [if_neg h3, if_neg h3]
          exact ih st

theorem rcc_eq_claim_y :
    ∀ (f : Nat) (order : List Nat) (st : CState) (t : RTarget) (m : Int),
      resolveCompactionCollision f order Axis.y st t m =
        claimResolveCompactionCollision f order Axis.y st t m := by
  intro f
  induction f with
  | zero => intro order st t m; rfl
  | succ f ih =>
    intro order st t m
    unfold resolveCompactionCollision claimResolveCompactionCollision
    dsimp only
    rw [scan_congr_y _ _ (fun s k m => ih order s (.idx k) m) t m]

/-- C8 (counterexample): with horizontal axis the code's scan stops at a
later item with large `y` (the stop test reads `y`, not the compaction axis)
and never reaches a genuinely colliding item further on; the claim's
axis-based stop rule pushes that item.  The two disagree on a concrete
three-item state. -/
theorem resolveCompaction_scan_counterexample :
    resolveCompactionCollision 9 [0, 1, 2] Axis.x ⟨[rI, rJ, rK], rI⟩
        RTarget.cur 3 ≠
      claimResolveCompactionCollision 9 [0, 1, 2] Axis.x ⟨[rI, rJ, rK], rI⟩
        RTarget.cur 3 := by
  decide


/-- C8 (amended): `resolveCompactionCollision` leaves the moved item exactly
at `moveToCoord` on the given axis — so a collision in `compactItem`
displaces the item to immediately after the collider
(`collidesWith.x + collidesWith.w` horizontally,
`collidesWith.y + collidesWith.h` vertically).  The recursive scan of
later-sorted items, however, always stops once a later item's `y` exceeds the
moved item's `y + h`, even for horizontal compaction; for the vertical axis
this coincides with the claim's axis-based stop rule, and the code agrees
everywhere with the claim's version `claimResolveCompactionCollision`. -/
theorem resolveCompaction_displacement :
    (∀ (f : Nat) (order : List Nat) (a : Axis) (st : CState) (t : RTarget)
        (m : Int) (st2 : CState), TargetOk st t →
        resolveCompactionCollision f order a st t m = some st2 →
        getAxis (targetGet st2 t) a = m) ∧
      (∀ (f : Nat) (order : List Nat) (st : CState) (t : RTarget) (m : Int),
        resolveCompactionCollision f order Axis.y st t m =
          claimResolveCompactionCollision f order Axis.y st t m) :=
  ⟨rcc_sets_target, rcc_eq_claim_y⟩

/-- Witness for `resolveCompaction_displacement` at a concrete one-item
state. -/
theorem resolveCompaction_displacement_witness :
    getAxis (targetGet ⟨[rI], { rI with y := 7 }⟩ RTarget.cur) Axis.y = 7 ∧
      resolveCompactionCollision 5 [0] Axis.y ⟨[rI], rI⟩ RTarget.cur 7 =
        claimResolveCompactionCollision 5 [0] Axis.y ⟨[rI], rI⟩ RTarget.cur 7 :=
  ⟨resolveCompaction_displacement.1 5 [0] Axis.y ⟨[rI], rI⟩ RTarget.cur 7
      ⟨[rI], { rI with y := 7 }⟩ trivial (by decide),
    resolveCompaction_displacement.2 5 [0] ⟨[rI], rI⟩ RTarget.cur 7⟩

/-! ## C10: the frame property of compact -/


theorem FieldsEq.refl (a : LayoutItem) : FieldsEq a a :=
  ⟨rfl, rfl, rfl, rfl, rfl, rfl⟩

theorem FieldsEq.trans {a b c : LayoutItem} (h1 : FieldsEq a b)
    (h2 : FieldsEq b c) : FieldsEq a c :=
  ⟨h1.1.trans h2.1, h1.2.1.trans h2.2.1, h1.2.2.1.trans h2.2.2.1,
    h1.2.2.2.1.trans h2.2.2.2.1, h1.2.2.2.2.1.trans h2.2.2.2.2.1,
    h1.2.2.2.2.2.trans h2.2.2.2.2.2⟩

theorem fieldsEq_setAxis (l : LayoutItem) (a : Axis) (v : Int) :
    FieldsEq (setAxis l a v) l := by
  cases a <;> exact ⟨rfl, rfl, rfl, rfl, rfl, rfl⟩

/-- Setting one array entry to a `FieldsEq` value keeps every entry
`FieldsEq`. -/
theorem fieldsEq_set (arr : List LayoutItem) (k : Nat) (v : LayoutItem)
    (hv : FieldsEq v (arr.getD k default)) (j : Nat) :
    FieldsEq ((arr.set k v).getD j default) (arr.getD j default) := by
  by_cases hjk : j = k
  · subst hjk
    by_cases hlt : j < arr.length
    · rw [getD_set_self _ _ _ _ hlt]
      exact hv
    · rw [List.set_eq_of_length_le (le_of_not_lt hlt)]
      exact FieldsEq.refl _
  · rw [getD_set_ne _ _ _ (fun e => hjk e.symm)]
    exact FieldsEq.refl _

/-- Preservation facts for the two kinds of state mutation in
`resolveCompactionCollision`: array length, all non-positional fields of
every entry, and — for `.idx` targets — the clone `cur` itself. -/
theorem rcc_preserve :
    ∀ (f : Nat) (order : List Nat) (a : Axis) (st : CState) (t : RTarget)
      (m : Int) (st2 : CState),
      resolveCompactionCollision f order a st t m = some st2 →
      (st2.arr.length = st.arr.length ∧
        (∀ j, FieldsEq (st2.arr.getD j default) (st.arr.getD j default))) ∧
        FieldsEq st2.cur st.cur ∧ (∀ k, t = RTarget.idx k → st2.cur = st.cur) := by
  intro f
  induction f with
  | zero =>
    intro order a st t m st2 h
    exact Option.noConfusion h
  | succ f ih =>
    intro order a st t m st2 h
    have hscan : ∀ (ps : List Nat) (s s2 : CState),
        resolveCollisionScan
          (fun st2 k m => resolveCompactionCollision f order a st2 (.idx k) m)
          t m a s ps = some s2 →
        (s2.arr.length = s.arr.length ∧
          (∀ j, FieldsEq (s2.arr.getD j default) (s.arr.getD j default))) ∧
          s2.cur = s.cur := by
      intro ps
      induction ps with
      | nil =>
        intro s s2 hh
        cases hh
        exact ⟨⟨rfl, fun j => FieldsEq.refl _⟩, rfl⟩
      | cons k rest ihp =>
        intro s s2 hh
        unfold resolveCollisionScan at hh
        dsimp only at hh
        split_ifs at hh with h1 h2 h3
        · exact ihp s s2 hh
        · cases hh
          exact ⟨⟨rfl, fun j => FieldsEq.refl _⟩, rfl⟩
        · rcases hdv : resolveCompactionCollision f order a s (.idx k)
              (m + getSize (targetGet s t) a) with _ | s3
          · rw [hdv] at hh
            exact Option.noConfusion hh
          · rw [hdv] at hh
            obtain ⟨⟨hl1, hf1⟩, _, hcur1⟩ := ih order a s (.idx k) _ s3 hdv
            obtain ⟨⟨hl2, hf2⟩, hcur2⟩ := ihp s3 s2 hh
            exact ⟨⟨hl2.trans hl1, fun j => (hf2 j).trans (hf1 j)⟩,
              hcur2.trans (hcur1 k rfl)⟩
        · exact ihp s s2 hh
    unfold resolveCompactionCollision at h
    dsimp only at h
    split at h
    · exact Option.noConfusion h
    · rename_i st3 heq
      cases h
      obtain ⟨⟨hl, hf⟩, hcur⟩ := hscan _ _ _ heq
      cases t with
      | cur =>
        refine ⟨⟨?_, fun j => hf j⟩, ?_, fun k hk => RTarget.noConfusion hk⟩
        · rw [targetSet_arr_length, hl, targetSet_arr_length]
        · show FieldsEq (setAxis (targetGet st3 RTarget.cur) a m) st.cur
          refine (fieldsEq_setAxis _ _ _).trans ?_
          show FieldsEq st3.cur st.cur
          rw [hcur]
          exact fieldsEq_setAxis _ _ _
      | idx k =>
        have hcur0 : st3.cur = st.cur := hcur
        refine ⟨⟨?_, ?_⟩, ?_, fun k2 hk2 => hcur0⟩
        · rw [targetSet_arr_length, hl, targetSet_arr_length]
        · intro j
          refine (fieldsEq_set st3.arr k _ (fieldsEq_setAxis _ _ _) j).trans
            ((hf j).trans (fieldsEq_set st.arr k _ (fieldsEq_setAxis _ _ _) j))
        · show FieldsEq st3.cur st.cur
          rw [hcur0]
          exact FieldsEq.refl _


theorem pullLoop_preserve :
    ∀ (f : Nat) (cw : List LayoutItem) (a : Axis) (l l2 : LayoutItem),
      pullLoop f cw a l = some l2 → FieldsEq l2 l := by
  intro f
  induction f with
  | zero =>
    intro cw a l l2 h
    unfold pullLoop at h
    split at h
    · exact Option.noConfusion h
    · cases h
      exact FieldsEq.refl _
  | succ f ih =>
    intro cw a l l2 h
    unfold pullLoop at h
    split at h
    · exact (ih _ _ _ _ h).trans (fieldsEq_setAxis _ _ _)
    · cases h
      exact FieldsEq.refl _

/-- Preservation through the main collision loop of `compactItem`. -/
theorem compactItemLoop_preserve :
    ∀ (f : Nat) (order : List Nat) (cw : List LayoutItem) (ct : CompactType)
      (cols : Int) (ao : Bool) (st st2 : CState),
      compactItemLoop f order cw ct cols ao st = some st2 →
      (st2.arr.length = st.arr.length ∧
        (∀ j, FieldsEq (st2.arr.getD j default) (st.arr.getD j default))) ∧
        FieldsEq st2.cur st.cur := by
  intro f
  induction f with
  | zero =>
    intro order cw ct cols ao st st2 h
    unfold compactItemLoop at h
    split at h
    · cases h
      exact ⟨⟨rfl, fun j => FieldsEq.refl _⟩, FieldsEq.refl _⟩
    · split at h
      · cases h
        exact ⟨⟨rfl, fun j => FieldsEq.refl _⟩, FieldsEq.refl _⟩
      · exact Option.noConfusion h
  | succ f ih =>
    intro order cw ct cols ao st st2 h
    unfold compactItemLoop at h
    split at h
    · cases h
      exact ⟨⟨rfl, fun j => FieldsEq.refl _⟩, FieldsEq.refl _⟩
    · split at h
      · cases h
        exact ⟨⟨rfl, fun j => FieldsEq.refl _⟩, FieldsEq.refl _⟩
      · dsimp only at h
        split at h
        · exact Option.noConfusion h
        · rename_i st1 heq
          have hp1 : (st1.arr.length = st.arr.length ∧
              (∀ j, FieldsEq (st1.arr.getD j default) (st.arr.getD j default))) ∧
              FieldsEq st1.cur st.cur := by
            split at heq
            · have hr := rcc_preserve _ _ _ _ _ _ _ heq
              exact ⟨hr.1, hr.2.1⟩
            · have hr := rcc_preserve _ _ _ _ _ _ _ heq
              exact ⟨hr.1, hr.2.1⟩
          split at h
          · split at h
            · exact Option.noConfusion h
            · rename_i l2 heq2
              have hpl := pullLoop_preserve _ _ _ _ _ heq2
              have hfe1 : FieldsEq
                  { st1.cur with x := cols - st1.cur.w, y := st1.cur.y + 1 }
                  st1.cur := ⟨rfl, rfl, rfl, rfl, rfl, rfl⟩
              have hrec := ih order cw ct cols ao { st1 with cur := l2 } st2 h
              refine ⟨⟨hrec.1.1.trans hp1.1.1,
                fun j => (hrec.1.2 j).trans (hp1.1.2 j)⟩, ?_⟩
              exact hrec.2.trans ((hpl.trans hfe1).trans hp1.2)
          · have hrec := ih order cw ct cols ao st1 st2 h
            exact ⟨⟨hrec.1.1.trans hp1.1.1,
              fun j => (hrec.1.2 j).trans (hp1.1.2 j)⟩, hrec.2.trans hp1.2⟩

/-- Preservation through `compactItem`. -/
theorem compactItem_preserve (fuel : Nat) (order : List Nat)
    (cw : List LayoutItem) (ct : CompactType) (cols : Int) (ao : Bool)
    (st st2 : CState) (h : compactItem fuel order cw ct cols ao st = some st2) :
    (st2.arr.length = st.arr.length ∧
      (∀ j, FieldsEq (st2.arr.getD j default) (st.arr.getD j default))) ∧
      FieldsEq st2.cur st.cur := by
  unfold compactItem at h
  dsimp only at h
  split at h
  · exact Option.noConfusion h
  · rename_i l2 heq2
    split at h
    · exact Option.noConfusion h
    · rename_i st3 heq3
      cases h
      have hl2 : FieldsEq l2 st.cur := by
        split at heq2
        · exact (pullLoop_preserve _ _ _ _ _ heq2).trans
            ⟨rfl, rfl, rfl, rfl, rfl, rfl⟩
        · split at heq2
          · exact (pullLoop_preserve _ _ _ _ _ heq2).trans (FieldsEq.refl _)
          · cases heq2
            exact FieldsEq.refl _
      have hp := compactItemLoop_preserve _ _ _ _ _ _ _ _ heq3
      refine ⟨⟨hp.1.1, hp.1.2⟩, ?_⟩
      refine FieldsEq.trans ?_ ((hp.2.trans hl2))
      exact ⟨rfl, rfl, rfl, rfl, rfl, rfl⟩



theorem sortIndicesFor_perm (layout : List LayoutItem) (ct : CompactType) :
    (sortIndicesFor layout ct).Perm (List.range layout.length) := by
  cases ct <;> unfold sortIndicesFor <;>
    first
      | exact List.perm_insertionSort _ _
      | exact List.Perm.refl _

theorem getD_map2 {α β : Type _} (f : α → β) (L : List α) (j : Nat) (d : α)
    (d2 : β) (hj : j < L.length) : (L.map f).getD j d2 = f (L.getD j d) := by
  rw [List.getD_eq_getElem _ _ (by simpa using hj), List.getD_eq_getElem _ _ hj,
    List.getElem_map]

/-- Loop invariant of `compactGo` for the frame property: processed slots hold
an item with the original id, `w`, `h` and a cleared `moved` flag; untouched
slots keep their value. -/
theorem compactGo_frame (fuel : Nat) (fullOrder : List Nat) (ct : CompactType)
    (cols : Int) (ao : Bool) (layout : List LayoutItem) :
    ∀ (order : List Nat) (cw arr : List LayoutItem)
      (out out2 : List (Option LayoutItem)),
      (∀ j, FieldsEq (arr.getD j default) (layout.getD j default)) →
      (∀ j ∈ order, j < out.length) →
      compactGo fuel fullOrder ct cols ao order cw arr out = some out2 →
      out2.length = out.length ∧
        (∀ j, j ∉ order → out2.getD j none = out.getD j none) ∧
        (∀ j ∈ order, ∃ o, out2.getD j none = some o ∧
          FrameClaim o (layout.getD j default)) := by
  intro order
  induction order with
  | nil =>
    intro cw arr out out2 _ _ h
    cases h
    exact ⟨rfl, fun j _ => rfl, fun j hj => absurd hj (List.not_mem_nil j)⟩
  | cons idx rest ih =>
    intro cw arr out out2 harr hlt h
    have hidx : idx < out.length := hlt idx (List.mem_cons_self idx rest)
    unfold compactGo at h
    dsimp only at h
    split at h
    · -- static item
      obtain ⟨hlen, hout, hin⟩ := ih cw arr _ out2 harr
        (fun j hj => by
          rw [List.length_set]
          exact hlt j (List.mem_cons_of_mem idx hj)) h
      refine ⟨hlen.trans (by rw [List.length_set]), ?_, ?_⟩
      · intro j hj
        have hj1 : j ≠ idx := fun e => hj (e ▸ List.mem_cons_self idx rest)
        have hj2 : j ∉ rest := fun e => hj (List.mem_cons_of_mem idx e)
        rw [hout j hj2, getD_set_ne _ _ _ (fun e => hj1 e.symm)]
      · intro j hj
        by_cases hjr : j ∈ rest
        · exact hin j hjr
        · have hji : j = idx := by
            rcases List.mem_cons.mp hj with e | e
            · exact e
            · exact absurd e hjr
          subst hji
          rw [hout j hjr, getD_set_self _ _ _ _ hidx]
          refine ⟨_, rfl, ?_⟩
          have hf := harr j
          exact ⟨hf.1, hf.2.1, hf.2.2.1, rfl⟩
    · -- moving item
      split at h
      · exact Option.noConfusion h
      · rename_i st heq
        have hp := compactItem_preserve _ _ _ _ _ _ _ _ heq
        have harr2 : ∀ j, FieldsEq (st.arr.getD j default) (layout.getD j default) :=
          fun j => (hp.1.2 j).trans (harr j)
        obtain ⟨hlen, hout, hin⟩ := ih (cw ++ [{ st.cur with moved := false }])
          st.arr _ out2 harr2
          (fun j hj => by
            rw [List.length_set]
            exact hlt j (List.mem_cons_of_mem idx hj)) h
        refine ⟨hlen.trans (by rw [List.length_set]), ?_, ?_⟩
        · intro j hj
          have hj1 : j ≠ idx := fun e => hj (e ▸ List.mem_cons_self idx rest)
          have hj2 : j ∉ rest := fun e => hj (List.mem_cons_of_mem idx e)
          rw [hout j hj2, getD_set_ne _ _ _ (fun e => hj1 e.symm)]
        · intro j hj
          by_cases hjr : j ∈ rest
          · exact hin j hjr
          · have hji : j = idx := by
              rcases List.mem_cons.mp hj with e | e
              · exact e
              · exact absurd e hjr
            subst hji
            rw [hout j hjr, getD_set_self _ _ _ _ hidx]
            refine ⟨_, rfl, ?_⟩
            have hcur : FieldsEq st.cur (arr.getD j default) := hp.2
            have hf := harr j
            exact ⟨hcur.1.trans hf.1, hcur.2.1.trans hf.2.1,
              hcur.2.2.1.trans hf.2.2.1, rfl⟩

/-- C10: `compact` changes only `x`, `y` and `moved`: the output has the same
length as the input, the item at each index keeps its id, `w` and `h`, and
every output item's `moved` flag is false. -/
theorem compact_frame (fuel : Nat) (layout : List LayoutItem)
    (ct : CompactType) (cols : Int) (ao : Bool) (out : List LayoutItem)
    (h : compact fuel layout ct cols ao = some out) :
    out.length = layout.length ∧
      ∀ j, j < layout.length →
        FrameClaim (out.getD j default) (layout.getD j default) := by
  unfold compact at h
  dsimp only at h
  split at h
  · exact Option.noConfusion h
  · rename_i outOpt heq
    cases h
    obtain ⟨hlen, hout, hin⟩ := compactGo_frame fuel (sortIndicesFor layout ct)
      ct cols ao layout (sortIndicesFor layout ct) (getStatics layout) layout
      (List.replicate layout.length none) outOpt
      (fun j => FieldsEq.refl _)
      (fun j hj => by
        rw [List.length_replicate]
        exact List.mem_range.mp ((sortIndicesFor_perm layout ct).mem_iff.mp hj))
      heq
    constructor
    · rw [List.length_map, hlen, List.length_replicate]
    · intro j hj
      obtain ⟨o, ho, hoc⟩ := hin j
        ((sortIndicesFor_perm layout ct).mem_iff.mpr (List.mem_range.mpr hj))
      have hjo : j < outOpt.length := by
        rw [hlen, List.length_replicate]
        exact hj
      rw [getD_map2 (fun o => o.getD default) outOpt j none default hjo, ho]
      exact hoc

/-- Witness for `compact_frame` at a concrete two-item layout. -/
theorem compact_frame_witness :
    ([cexS, cexB] : List LayoutItem).length =
        ([cexS, cexB] : List LayoutItem).length ∧
      ∀ j, j < ([cexS, cexB] : List LayoutItem).length →
        FrameClaim (([cexS, cexB] : List LayoutItem).getD j default)
          (([cexS, cexB] : List LayoutItem).getD j default) :=
  compact_frame 30 [cexS, cexB] CompactType.vertical 12 false [cexS, cexB]
    (by decide)


/-! ### Nonnegativity through the compactor -/

theorem itemNonneg_default : ItemNonneg (default : LayoutItem) := by
  refine ⟨?_, ?_, ?_, ?_⟩ <;> exact le_refl 0

theorem getAxis_nonneg {l : LayoutItem} (h : ItemNonneg l) (a : Axis) :
    0 ≤ getAxis l a := by
  cases a
  · exact h.1
  · exact h.2.1

theorem getSize_nonneg {l : LayoutItem} (h : ItemNonneg l) (a : Axis) :
    0 ≤ getSize l a := by
  cases a
  · exact h.2.2.1
  · exact h.2.2.2

theorem itemNonneg_setAxis {l : LayoutItem} (h : ItemNonneg l) (a : Axis)
    {v : Int} (hv : 0 ≤ v) : ItemNonneg (setAxis l a v) := by
  cases a
  · exact ⟨hv, h.2.1, h.2.2.1, h.2.2.2⟩
  · exact ⟨h.1, hv, h.2.2.1, h.2.2.2⟩

theorem targetGet_nonneg {st : CState} (h : StNonneg st) (t : RTarget) :
    ItemNonneg (targetGet st t) := by
  cases t
  · exact h.2
  · exact h.1 _

theorem targetSet_nonneg {st : CState} (h : StNonneg st) (t : RTarget)
    {v : LayoutItem} (hv : ItemNonneg v) : StNonneg (targetSet st t v) := by
  cases t with
  | cur => exact ⟨h.1, hv⟩
  | idx k =>
    refine ⟨fun j => ?_, h.2⟩
    show ItemNonneg ((st.arr.set k v).getD j default)
    by_cases hjk : j = k
    · subst hjk
      by_cases hlt : j < st.arr.length
      · rw [getD_set_self _ _ _ _ hlt]
        exact hv
      · rw [List.set_eq_of_length_le (le_of_not_lt hlt)]
        exact h.1 j
    · rw [getD_set_ne _ _ _ (fun e => hjk e.symm)]
      exact h.1 j

/-- With a nonnegative `moveToCoord` and a nonnegative state,
`resolveCompactionCollision` keeps every coordinate nonnegative: the
transient `+1` bump only increases an already nonnegative value, recursive
pushes use `moveToCoord + size ≥ moveToCoord`, and the final write stores
`moveToCoord` itself. -/
theorem rcc_nonneg :
    ∀ (f : Nat) (order : List Nat) (a : Axis) (st : CState) (t : RTarget)
      (m : Int) (st2 : CState),
      0 ≤ m → StNonneg st →
      resolveCompactionCollision f order a st t m = some st2 →
      StNonneg st2 := by
  intro f
  induction f with
  | zero =>
    intro order a st t m st2 _ _ h
    exact Option.noConfusion h
  | succ f ih =>
    intro order a st t m st2 hm hst h
    have hscan : ∀ (ps : List Nat) (s s2 : CState),
        StNonneg s →
        resolveCollisionScan
          (fun st2 k m => resolveCompactionCollision f order a st2 (.idx k) m)
          t m a s ps = some s2 →
        StNonneg s2 := by
      intro ps
      induction ps with
      | nil =>
        intro s s2 hs hh
        cases hh
        exact hs
      | cons k rest ihp =>
        intro s s2 hs hh
        unfold resolveCollisionScan at hh
        dsimp only at hh
        split_ifs at hh with h1 h2 h3
        · exact ihp s s2 hs hh
        · cases hh
          exact hs
        · rcases hdv : resolveCompactionCollision f order a s (.idx k)
              (m + getSize (targetGet s t) a) with _ | s3
          · rw [hdv] at hh
            exact Option.noConfusion hh
          · rw [hdv] at hh
            have hm2 : 0 ≤ m + getSize (targetGet s t) a :=
              add_nonneg hm (getSize_nonneg (targetGet_nonneg hs t) a)
            exact ihp s3 s2 (ih order a s (.idx k) _ s3 hm2 hs hdv) hh
        · exact ihp s s2 hs hh
    unfold resolveCompactionCollision at h
    dsimp only at h
    split at h
    · exact Option.noConfusion h
    · rename_i st3 heq
      cases h
      have hbump : 0 ≤ getAxis (targetGet st t) a + 1 := by
        have := getAxis_nonneg (targetGet_nonneg hst t) a
        omega
      have hst1 : StNonneg (targetSet st t
          (setAxis (targetGet st t) a (getAxis (targetGet st t) a + 1))) :=
        targetSet_nonneg hst t
          (itemNonneg_setAxis (targetGet_nonneg hst t) a hbump)
      have hst3 : StNonneg st3 := hscan _ _ _ hst1 heq
      exact targetSet_nonneg hst3 t
        (itemNonneg_setAxis (targetGet_nonneg hst3 t) a hm)

/-- `resolveCompactionCollision` never writes to a static array entry: the
scan skips statics and every `.idx` target it dives into is non-static. -/
theorem rcc_static_fix :
    ∀ (f : Nat) (order : List Nat) (a : Axis) (st : CState) (t : RTarget)
      (m : Int) (st2 : CState),
      (∀ k, t = RTarget.idx k → (st.arr.getD k default).static = false) →
      resolveCompactionCollision f order a st t m = some st2 →
      ∀ j, (st.arr.getD j default).static = true →
        st2.arr.getD j default = st.arr.getD j default := by
  intro f
  induction f with
  | zero =>
    intro order a st t m st2 _ h
    exact Option.noConfusion h
  | succ f ih =>
    intro order a st t m st2 ht h
    have hscan : ∀ (ps : List Nat) (s s2 : CState),
        resolveCollisionScan
          (fun st2 k m => resolveCompactionCollision f order a st2 (.idx k) m)
          t m a s ps = some s2 →
        ∀ j, (s.arr.getD j default).static = true →
          s2.arr.getD j default = s.arr.getD j default := by
      intro ps
      induction ps with
      | nil =>
        intro s s2 hh
        cases hh
        exact fun j _ => rfl
      | cons k rest ihp =>
        intro s s2 hh
        unfold resolveCollisionScan at hh
        dsimp only at hh
        split_ifs at hh with h1 h2 h3
        · exact ihp s s2 hh
        · cases hh
          exact fun j _ => rfl
        · rcases hdv : resolveCompactionCollision f order a s (.idx k)
              (m + getSize (targetGet s t) a) with _ | s3
          · rw [hdv] at hh
            exact Option.noConfusion hh
          · rw [hdv] at hh
            intro j hj
            have h1f : (s.arr.getD k default).static = false := by
              simp only [Bool.not_eq_true] at h1
              exact h1
            have hknot : ∀ k2, RTarget.idx k = RTarget.idx k2 →
                (s.arr.getD k2 default).static = false := by
              intro k2 hk2
              cases hk2
              exact h1f
            have hfix := ih order a s (.idx k) _ s3 hknot hdv j hj
            have hj3 : (s3.arr.getD j default).static = true := by
              rw [hfix]
              exact hj
            rw [ihp s3 s2 hh j hj3, hfix]
        · exact ihp s s2 hh
    unfold resolveCompactionCollision at h
    dsimp only at h
    split at h
    · exact Option.noConfusion h
    · rename_i st3 heq
      cases h
      intro j hj
      cases t with
      | cur =>
        exact hscan _ _ _ heq j hj
      | idx k =>
        have hk : (st.arr.getD k default).static = false := ht k rfl
        have hjk : k ≠ j := by
          intro e
          rw [e, hj] at hk
          exact Bool.noConfusion hk
        have hset1 : ∀ v : LayoutItem,
            (st.arr.set k v).getD j default = st.arr.getD j default :=
          fun v => getD_set_ne _ _ _ hjk
        have hj1s : ((st.arr.set k (setAxis (targetGet st (RTarget.idx k)) a
            (getAxis (targetGet st (RTarget.idx k)) a + 1))).getD j
            default).static = true := by
          rw [hset1]
          exact hj
        have h3 := hscan _ _ _ heq j hj1s
        have h4 : (targetSet st3 (RTarget.idx k)
            (setAxis (targetGet st3 (RTarget.idx k)) a m)).arr.getD j default
            = st3.arr.getD j default := getD_set_ne _ _ _ hjk
        rw [h4, h3]
        exact hset1 _

/-- The pull loop keeps the item nonnegative (the decrement is guarded by
`> 0`) and can only stop where the guard fails. -/
theorem pullLoop_nonneg_exit :
    ∀ (f : Nat) (cw : List LayoutItem) (a : Axis) (l l2 : LayoutItem),
      ItemNonneg l → pullLoop f cw a l = some l2 →
      ItemNonneg l2 ∧
        ¬(getAxis l2 a > 0 ∧ getFirstCollision cw l2 = none) := by
  intro f
  induction f with
  | zero =>
    intro cw a l l2 hl h
    unfold pullLoop at h
    split at h
    · exact Option.noConfusion h
    · rename_i hcond
      cases h
      exact ⟨hl, hcond⟩
  | succ f ih =>
    intro cw a l l2 hl h
    unfold pullLoop at h
    split at h
    · rename_i hcond
      refine ih cw a _ l2 (itemNonneg_setAxis hl a ?_) h
      have := hcond.1
      omega
    · rename_i hcond
      cases h
      exact ⟨hl, hcond⟩


theorem compactItemLoop_static_fix :
    ∀ (f : Nat) (order : List Nat) (cw : List LayoutItem) (ct : CompactType)
      (cols : Int) (ao : Bool) (st st2 : CState),
      compactItemLoop f order cw ct cols ao st = some st2 →
      ∀ j, (st.arr.getD j default).static = true →
        st2.arr.getD j default = st.arr.getD j default := by
  intro f
  induction f with
  | zero =>
    intro order cw ct cols ao st st2 h
    unfold compactItemLoop at h
    split at h
    · cases h
      exact fun j _ => rfl
    · split at h
      · cases h
        exact fun j _ => rfl
      · exact Option.noConfusion h
  | succ f ih =>
    intro order cw ct cols ao st st2 h
    unfold compactItemLoop at h
    split at h
    · cases h
      exact fun j _ => rfl
    · split at h
      · cases h
        exact fun j _ => rfl
      · dsimp only at h
        split at h
        · exact Option.noConfusion h
        · rename_i st1 heq
          have hfix1 : ∀ j, (st.arr.getD j default).static = true →
              st1.arr.getD j default = st.arr.getD j default := by
            split at heq
            · exact rcc_static_fix _ _ _ _ _ _ _
                (fun k hk => RTarget.noConfusion hk) heq
            · exact rcc_static_fix _ _ _ _ _ _ _
                (fun k hk => RTarget.noConfusion hk) heq
          split at h
          · split at h
            · exact Option.noConfusion h
            · rename_i l2 heq2
              intro j hj
              have hj1 : (st1.arr.getD j default).static = true := by
                rw [hfix1 j hj]
                exact hj
              calc st2.arr.getD j default
                  = st1.arr.getD j default :=
                    ih order cw ct cols ao { st1 with cur := l2 } st2 h j hj1
                _ = st.arr.getD j default := hfix1 j hj
          · intro j hj
            have hj1 : (st1.arr.getD j default).static = true := by
              rw [hfix1 j hj]
              exact hj
            rw [ih order cw ct cols ao st1 st2 h j hj1, hfix1 j hj]

theorem compactItem_static_fix (fuel : Nat) (order : List Nat)
    (cw : List LayoutItem) (ct : CompactType) (cols : Int) (ao : Bool)
    (st st2 : CState) (h : compactItem fuel order cw ct cols ao st = some st2) :
    ∀ j, (st.arr.getD j default).static = true →
      st2.arr.getD j default = st.arr.getD j default := by
  unfold compactItem at h
  dsimp only at h
  split at h
  · exact Option.noConfusion h
  · rename_i l2 heq2
    split at h
    · exact Option.noConfusion h
    · rename_i st3 heq3
      cases h
      intro j hj
      exact compactItemLoop_static_fix _ _ _ _ _ _ _ _ heq3 j hj

/-- Unless `compactType` is `null` with `allowOverlap`, the collision loop of
`compactItem` can only stop on a collision-free position, and it keeps every
coordinate nonnegative (given nonnegative `compareWith` items and — for
horizontal compaction — an item no wider than the grid). -/
theorem compactItemLoop_post :
    ∀ (f : Nat) (order : List Nat) (cw : List LayoutItem) (ct : CompactType)
      (cols : Int) (ao : Bool) (st st2 : CState),
      ¬(ct = CompactType.null ∧ ao = true) →
      (∀ c ∈ cw, ItemNonneg c) →
      StNonneg st →
      (ct = CompactType.horizontal → st.cur.w ≤ cols) →
      compactItemLoop f order cw ct cols ao st = some st2 →
      StNonneg st2 ∧ getFirstCollision cw st2.cur = none := by
  intro f
  induction f with
  | zero =>
    intro order cw ct cols ao st st2 hao hcw hst hw h
    unfold compactItemLoop at h
    split at h
    · rename_i hnone
      cases h
      exact ⟨hst, hnone⟩
    · split at h
      · rename_i hcnd
        exact absurd hcnd hao
      · exact Option.noConfusion h
  | succ f ih =>
    intro order cw ct cols ao st st2 hao hcw hst hw h
    unfold compactItemLoop at h
    split at h
    · rename_i hnone
      cases h
      exact ⟨hst, hnone⟩
    · rename_i c hc
      split at h
      · rename_i hcnd
        exact absurd hcnd hao
      · dsimp only at h
        split at h
        · exact Option.noConfusion h
        · rename_i st1 heq
          obtain ⟨hcx, hcy, hcw2, hch⟩ := hcw c (getFirstCollision_eq_some hc).1
          have hst1 : StNonneg st1 := by
            split at heq
            · exact rcc_nonneg _ _ _ _ _ _ _ (by omega) hst heq
            · exact rcc_nonneg _ _ _ _ _ _ _ (by omega) hst heq
          have hw1 : ct = CompactType.horizontal → st1.cur.w ≤ cols := by
            intro hcth
            have hfe : FieldsEq st1.cur st.cur := by
              split at heq
              · exact (rcc_preserve _ _ _ _ _ _ _ heq).2.1
              · exact (rcc_preserve _ _ _ _ _ _ _ heq).2.1
            rw [hfe.2.1]
            exact hw hcth
          split at h
          · rename_i hwrap
            split at h
            · exact Option.noConfusion h
            · rename_i l2 heq2
              have hl1 : ItemNonneg { st1.cur with x := cols - st1.cur.w, y := st1.cur.y + 1 } := by
                refine ⟨?_, ?_, hst1.2.2.2.1, hst1.2.2.2.2⟩
                · have := hw1 hwrap.1
                  show 0 ≤ cols - st1.cur.w
                  omega
                · have := hst1.2.2.1
                  show 0 ≤ st1.cur.y + 1
                  omega
              obtain ⟨hl2n, _⟩ := pullLoop_nonneg_exit _ _ _ _ _ hl1 heq2
              have hfe2 : FieldsEq l2 st1.cur :=
                (pullLoop_preserve _ _ _ _ _ heq2).trans
                  ⟨rfl, rfl, rfl, rfl, rfl, rfl⟩
              exact ih order cw ct cols ao { st1 with cur := l2 } st2 hao hcw
                ⟨hst1.1, hl2n⟩
                (fun hcth => by
                  show l2.w ≤ cols
                  rw [hfe2.2.1]
                  exact hw1 hcth) h
          · exact ih order cw ct cols ao st1 st2 hao hcw hst1 hw1 h

/-- Unless `compactType` is `null` with `allowOverlap`, `compactItem` lands
its item on a collision-free position with all coordinates nonnegative. -/
theorem compactItem_post (fuel : Nat) (order : List Nat)
    (cw : List LayoutItem) (ct : CompactType) (cols : Int) (ao : Bool)
    (st st2 : CState)
    (hao : ¬(ct = CompactType.null ∧ ao = true))
    (hcw : ∀ c ∈ cw, ItemNonneg c)
    (hst : StNonneg st)
    (hw : ct = CompactType.horizontal → st.cur.w ≤ cols)
    (h : compactItem fuel order cw ct cols ao st = some st2) :
    StNonneg st2 ∧ getFirstCollision cw st2.cur = none := by
  unfold compactItem at h
  dsimp only at h
  split at h
  · exact Option.noConfusion h
  · rename_i l2 heq2
    split at h
    · exact Option.noConfusion h
    · rename_i st3 heq3
      cases h
      have hl2n : ItemNonneg l2 := by
        split at heq2
        · have hclamp : ItemNonneg { st.cur with y := min (bottom cw) st.cur.y } :=
            ⟨hst.2.1, le_min (bottom_nonneg cw) hst.2.2.1, hst.2.2.2.1,
              hst.2.2.2.2⟩
          exact (pullLoop_nonneg_exit _ _ _ _ _ hclamp heq2).1
        · split at heq2
          · exact (pullLoop_nonneg_exit _ _ _ _ _ hst.2 heq2).1
          · cases heq2
            exact hst.2
      have hfe : FieldsEq l2 st.cur := by
        split at heq2
        · exact (pullLoop_preserve _ _ _ _ _ heq2).trans
            ⟨rfl, rfl, rfl, rfl, rfl, rfl⟩
        · split at heq2
          · exact (pullLoop_preserve _ _ _ _ _ heq2).trans (FieldsEq.refl _)
          · cases heq2
            exact FieldsEq.refl _
      obtain ⟨hst3, hnone⟩ := compactItemLoop_post fuel order cw ct cols ao
        { st with cur := l2 } st3 hao hcw ⟨hst.1, hl2n⟩
        (fun hcth => by
          show l2.w ≤ cols
          rw [hfe.2.1]
          exact hw hcth) heq3
      constructor
      · exact ⟨hst3.1, le_max_right _ _, le_max_right _ _,
          hst3.2.2.2.1, hst3.2.2.2.2⟩
      · have hx : max st3.cur.x 0 = st3.cur.x := max_eq_left hst3.2.1
        have hy : max st3.cur.y 0 = st3.cur.y := max_eq_left hst3.2.2.1
        show getFirstCollision cw
          { st3.cur with y := max st3.cur.y 0, x := max st3.cur.x 0 } = none
        rw [hx, hy]
        exact hnone


/-! ### The pairwise no-overlap invariant -/

theorem pok_symm {a b : LayoutItem} (h : POk a b) : POk b a := by
  intro hc
  obtain ⟨h1, h2⟩ := h hc.symm
  exact ⟨h2, h1⟩

theorem outOk_mono {layout cw cw2 : List LayoutItem} {o : LayoutItem}
    (hsub : ∀ c ∈ cw, c ∈ cw2) (h : OutOk layout cw o) : OutOk layout cw2 o := by
  rcases h with h | ⟨h1, h2⟩
  · exact Or.inl h
  · exact Or.inr ⟨h1, hsub _ h2⟩

theorem getD_replicate_none {α : Type _} (n j : Nat) :
    (List.replicate n (none : Option α)).getD j none = none := by
  by_cases hj : j < n
  · rw [List.getD_eq_getElem _ _ (by simpa using hj)]
    exact List.getElem_replicate _ _
  · rw [List.getD_eq_default]
    rw [List.length_replicate]
    omega

/-- Loop invariant of `compactGo` for C1: the running `compareWith` list stays
pairwise compatible, and every filled output slot is either an untouched
static input item (with `moved` cleared) or a non-static member of
`compareWith`. -/
theorem compactGo_pairwise (fuel : Nat) (fullOrder : List Nat)
    (ct : CompactType) (cols : Int) (ao : Bool) (layout : List LayoutItem)
    (hao : ¬(ct = CompactType.null ∧ ao = true)) :
    ∀ (order : List Nat) (cw arr : List LayoutItem)
      (out out2 : List (Option LayoutItem)),
      (∀ c ∈ cw, ItemNonneg c) →
      List.Pairwise POk cw →
      (∀ j, ItemNonneg (arr.getD j default)) →
      (∀ j, FieldsEq (arr.getD j default) (layout.getD j default)) →
      (∀ j, (layout.getD j default).static = true →
        arr.getD j default = layout.getD j default) →
      (ct = CompactType.horizontal → ∀ it ∈ layout, it.w ≤ cols) →
      (∀ j ∈ order, j < layout.length) →
      (∀ j ∈ order, j < out.length) →
      (∀ j o, out.getD j none = some o → OutOk layout cw o) →
      compactGo fuel fullOrder ct cols ao order cw arr out = some out2 →
      ∃ cw2, List.Pairwise POk cw2 ∧ (∀ c ∈ cw, c ∈ cw2) ∧
        (∀ c ∈ cw2, ItemNonneg c) ∧
        (∀ j o, out2.getD j none = some o → OutOk layout cw2 o) := by
  intro order
  induction order with
  | nil =>
    intro cw arr out out2 hcw hpair _ _ _ _ _ _ hout h
    cases h
    exact ⟨cw, hpair, fun c hc => hc, hcw, hout⟩
  | cons idx rest ih =>
    intro cw arr out out2 hcw hpair hnn hfe hsf hwcols hlt hlto hout h
    have hidxL : idx < layout.length := hlt idx (List.mem_cons_self idx rest)
    have hidxO : idx < out.length := hlto idx (List.mem_cons_self idx rest)
    have hmemL : layout.getD idx default ∈ layout := by
      rw [List.getD_eq_getElem _ _ hidxL]
      exact List.getElem_mem hidxL
    unfold compactGo at h
    dsimp only at h
    rw [cloneLayoutItem_eq] at h
    split at h
    · -- static entry: slot gets the untouched input item with moved cleared
      rename_i hstat
      refine ih cw arr _ out2 hcw hpair hnn hfe hsf hwcols
        (fun j hj => hlt j (List.mem_cons_of_mem idx hj))
        (fun j hj => by
          rw [List.length_set]
          exact hlto j (List.mem_cons_of_mem idx hj))
        ?_ h
      intro j o ho
      by_cases hji : j = idx
      · subst hji
        rw [getD_set_self _ _ _ _ hidxO] at ho
        have hls : (layout.getD j default).static = true := by
          rw [← (hfe j).2.2.2.1]
          exact hstat
        have harr : arr.getD j default = layout.getD j default := hsf j hls
        cases ho
        exact Or.inl ⟨hstat, layout.getD j default, hmemL, hls, by rw [harr]⟩
      · rw [getD_set_ne _ _ _ (fun e => hji e.symm)] at ho
        exact hout j o ho
    · -- non-static entry
      rename_i hstat
      split at h
      · exact Option.noConfusion h
      · rename_i st heq
        simp only [Bool.not_eq_true] at hstat
        have hwcur : ct = CompactType.horizontal →
            (arr.getD idx default).w ≤ cols := by
          intro hcth
          rw [(hfe idx).2.1]
          exact hwcols hcth (layout.getD idx default) hmemL
        obtain ⟨hstN, hnone⟩ := compactItem_post fuel fullOrder cw ct cols ao
          ⟨arr, arr.getD idx default⟩ st hao hcw ⟨hnn, hnn idx⟩ hwcur heq
        have hp := compactItem_preserve fuel fullOrder cw ct cols ao
          ⟨arr, arr.getD idx default⟩ st heq
        have hsfix := compactItem_static_fix fuel fullOrder cw ct cols ao
          ⟨arr, arr.getD idx default⟩ st heq
        have hlrN : ItemNonneg { st.cur with moved := false } :=
          ⟨hstN.2.1, hstN.2.2.1, hstN.2.2.2.1, hstN.2.2.2.2⟩
        have hlrS : ({ st.cur with moved := false } : LayoutItem).static
            = false := by
          show st.cur.static = false
          rw [hp.2.2.2.2.1]
          exact hstat
        have hnocol : ∀ c ∈ cw,
            collides c { st.cur with moved := false } = false := by
          intro c hc
          have h0 : collides c st.cur = false :=
            (getFirstCollision_eq_none_iff cw st.cur).mp hnone c hc
          rw [← h0]
          exact collides_of_fields ⟨rfl, rfl, rfl, rfl, rfl⟩
            ⟨rfl, rfl, rfl, rfl, rfl⟩
        have hpair2 : List.Pairwise POk
            (cw ++ [{ st.cur with moved := false }]) := by
          rw [List.pairwise_append]
          refine ⟨hpair, by simp [List.pairwise_singleton], ?_⟩
          intro a ha b hb
          rw [List.mem_singleton] at hb
          subst hb
          intro _
          refine ⟨hnocol a ha, ?_⟩
          rw [collides_symm]
          exact hnocol a ha
        obtain ⟨cw2, hcw2p, hcw2sub, hcw2nn, hcw2out⟩ := ih
          (cw ++ [{ st.cur with moved := false }]) st.arr
          (out.set idx (some { st.cur with moved := false })) out2
          (by
            intro c hc
            rcases List.mem_append.mp hc with h1 | h1
            · exact hcw c h1
            · rw [List.mem_singleton] at h1
              subst h1
              exact hlrN)
          hpair2 hstN.1
          (fun j => (hp.1.2 j).trans (hfe j))
          (by
            intro j hjs
            have harr : arr.getD j default = layout.getD j default := hsf j hjs
            have hjs2 : (arr.getD j default).static = true := by
              rw [harr]
              exact hjs
            rw [hsfix j hjs2, harr])
          hwcols
          (fun j hj => hlt j (List.mem_cons_of_mem idx hj))
          (fun j hj => by
            rw [List.length_set]
            exact hlto j (List.mem_cons_of_mem idx hj))
          (by
            intro j o ho
            by_cases hji : j = idx
            · subst hji
              rw [getD_set_self _ _ _ _ hidxO] at ho
              cases ho
              exact Or.inr ⟨hlrS, List.mem_append.mpr (Or.inr
                (List.mem_singleton.mpr rfl))⟩
            · rw [getD_set_ne _ _ _ (fun e => hji e.symm)] at ho
              exact outOk_mono (fun c hc => List.mem_append.mpr (Or.inl hc))
                (hout j o ho))
          h
        exact ⟨cw2, hcw2p,
          fun c hc => hcw2sub c (List.mem_append.mpr (Or.inl hc)), hcw2nn,
          hcw2out⟩


/-- C1 (amended): for a layout whose items all have nonnegative coordinates
and sizes (and, for horizontal compaction, widths at most the column count),
compacting with mode vertical or horizontal and `allowOverlap = false` yields
a layout in which any two colliding items are both static — indeed colliding
static items of the same ids already occur in the input.  The nonnegativity
hypothesis is necessary: see `compact_pairwise_counterexample`. -/
theorem compact_pairwise_no_collision (fuel : Nat) (layout : List LayoutItem)
    (ct : CompactType) (cols : Int) (out : List LayoutItem)
    ( _hct : ct ≠ CompactType.null)
    (hpre : ∀ it ∈ layout, ItemNonneg it)
    (hwpre : ct = CompactType.horizontal → ∀ it ∈ layout, it.w ≤ cols)
    (h : compact fuel layout ct cols false = some out) :
    ∀ a ∈ out, ∀ b ∈ out, collides a b = true →
      a.static = true ∧ b.static = true ∧
        ∃ a2 ∈ layout, ∃ b2 ∈ layout, a2.static = true ∧ b2.static = true ∧
          a2.i = a.i ∧ b2.i = b.i ∧ collides a2 b2 = true := by
  unfold compact at h
  dsimp only at h
  split at h
  · exact Option.noConfusion h
  · rename_i outOpt heq
    cases h
    have hao : ¬(ct = CompactType.null ∧ (false : Bool) = true) := by
      rintro ⟨h1, h2⟩
      exact Bool.noConfusion h2
    have hnn0 : ∀ j, ItemNonneg (layout.getD j default) := by
      intro j
      by_cases hj : j < layout.length
      · rw [List.getD_eq_getElem _ _ hj]
        exact hpre _ (List.getElem_mem hj)
      · rw [List.getD_eq_default _ _ (le_of_not_lt hj)]
        exact itemNonneg_default
    have hcw0 : ∀ c ∈ getStatics layout, ItemNonneg c := fun c hc =>
      hpre c (List.mem_filter.mp hc).1
    have hpair0 : List.Pairwise POk (getStatics layout) := by
      refine List.pairwise_of_forall_mem_list ?_
      intro a ha b hb hcase
      rcases hcase with h1 | h1
      · rw [(List.mem_filter.mp ha).2] at h1
        exact Bool.noConfusion h1
      · rw [(List.mem_filter.mp hb).2] at h1
        exact Bool.noConfusion h1
    have hordL : ∀ j ∈ sortIndicesFor layout ct, j < layout.length :=
      fun j hj =>
        List.mem_range.mp ((sortIndicesFor_perm layout ct).mem_iff.mp hj)
    have hordO : ∀ j ∈ sortIndicesFor layout ct,
        j < (List.replicate layout.length (none : Option LayoutItem)).length := by
      intro j hj
      rw [List.length_replicate]
      exact hordL j hj
    have hout0 : ∀ j o, (List.replicate layout.length
        (none : Option LayoutItem)).getD j none = some o →
        OutOk layout (getStatics layout) o := by
      intro j o ho
      rw [getD_replicate_none] at ho
      exact Option.noConfusion ho
    obtain ⟨cw2, hcw2p, hcw2sub, _, hcw2out⟩ := compactGo_pairwise fuel
      (sortIndicesFor layout ct) ct cols false layout hao
      (sortIndicesFor layout ct) (getStatics layout) layout
      (List.replicate layout.length none) outOpt
      hcw0 hpair0 hnn0 (fun j => FieldsEq.refl _) (fun j _ => rfl)
      hwpre hordL hordO hout0 heq
    obtain ⟨hlen, houtU, hinS⟩ := compactGo_frame fuel
      (sortIndicesFor layout ct) ct cols false layout
      (sortIndicesFor layout ct) (getStatics layout) layout
      (List.replicate layout.length none) outOpt
      (fun j => FieldsEq.refl _) hordO heq
    have hmemOk : ∀ a ∈ outOpt.map (fun o => o.getD default),
        OutOk layout cw2 a := by
      intro a ha
      obtain ⟨j, hj, hja⟩ := List.mem_iff_getElem.mp ha
      simp only [List.getElem_map] at hja
      have hjlen : j < outOpt.length := by simpa using hj
      have hjL : j < layout.length := by
        rw [hlen, List.length_replicate] at hjlen
        exact hjlen
      obtain ⟨o, ho, _⟩ := hinS j ((sortIndicesFor_perm layout ct).mem_iff.mpr
        (List.mem_range.mpr hjL))
      have hjlen2 : j < outOpt.length := by
        rw [hlen, List.length_replicate]
        exact hjL
      rw [List.getD_eq_getElem _ _ hjlen2] at ho
      rw [ho] at hja
      simp only [Option.getD_some] at hja
      subst hja
      refine hcw2out j o ?_
      rw [List.getD_eq_getElem _ _ hjlen2]
      exact ho
    intro a ha b hb hcol
    have hA := hmemOk a ha
    have hB := hmemOk b hb
    have hstat_sub : ∀ li ∈ layout, li.static = true → li ∈ cw2 := by
      intro li hmem hstatic
      exact hcw2sub li (List.mem_filter.mpr ⟨hmem, hstatic⟩)
    have hsymm : Symmetric POk := fun x y hxy => pok_symm hxy
    rcases hA with ⟨haS, la, hlaM, hlaS, hae⟩ | ⟨haS, haC⟩
    · rcases hB with ⟨hbS, lb, hlbM, hlbS, hbe⟩ | ⟨hbS, hbC⟩
      · refine ⟨haS, hbS, la, hlaM, lb, hlbM, hlaS, hlbS, by rw [hae],
          by rw [hbe], ?_⟩
        have he : collides la lb = collides a b :=
          collides_of_fields
            ⟨by rw [hae], by rw [hae], by rw [hae], by rw [hae], by rw [hae]⟩
            ⟨by rw [hbe], by rw [hbe], by rw [hbe], by rw [hbe], by rw [hbe]⟩
        rw [he]
        exact hcol
      · exfalso
        have hla2 : la ∈ cw2 := hstat_sub la hlaM hlaS
        have hne : la ≠ b := by
          intro e
          rw [← e, hlaS] at hbS
          exact Bool.noConfusion hbS
        obtain ⟨h1, _⟩ := hcw2p.forall hsymm hla2 hbC hne (Or.inr hbS)
        have he : collides a b = collides la b :=
          (collides_of_fields
            ⟨by rw [hae], by rw [hae], by rw [hae], by rw [hae], by rw [hae]⟩
            ⟨rfl, rfl, rfl, rfl, rfl⟩).symm
        rw [he, h1] at hcol
        exact Bool.noConfusion hcol
    · rcases hB with ⟨hbS, lb, hlbM, hlbS, hbe⟩ | ⟨hbS, hbC⟩
      · exfalso
        have hlb2 : lb ∈ cw2 := hstat_sub lb hlbM hlbS
        have hne : lb ≠ a := by
          intro e
          rw [← e, hlbS] at haS
          exact Bool.noConfusion haS
        obtain ⟨_, h2⟩ := hcw2p.forall hsymm hlb2 haC hne (Or.inr haS)
        have he : collides a b = collides a lb :=
          collides_of_fields ⟨rfl, rfl, rfl, rfl, rfl⟩
            ⟨by rw [hbe], by rw [hbe], by rw [hbe], by rw [hbe], by rw [hbe]⟩
        rw [he, h2] at hcol
        exact Bool.noConfusion hcol
      · exfalso
        by_cases he : a = b
        · subst he
          rw [collides_self] at hcol
          exact Bool.noConfusion hcol
        · obtain ⟨h1, _⟩ := hcw2p.forall hsymm haC hbC he (Or.inl haS)
          rw [h1] at hcol
          exact Bool.noConfusion hcol

/-- C1 counterexample to the unconditional claim: with one negative input
`y`, the final `Math.max(0, l.y)` clamp of `compactItem` runs after all
collision checks and pushes the compacted item back onto the static item, so
the output contains a colliding pair that is not static-on-static. -/
theorem compact_pairwise_counterexample :
    compact 50 [cexS, cexN] CompactType.vertical 12 false =
        some [cexS, { cexN with y := 0 }] ∧
      collides cexS { cexN with y := 0 } = true ∧
      ({ cexN with y := 0 } : LayoutItem).static = false := by
  refine ⟨by decide, by decide, rfl⟩

/-- Witness for `compact_pairwise_no_collision` at a concrete layout of two
overlapping static items, instantiated at that colliding output pair. -/
theorem compact_pairwise_witness :
    wS1.static = true ∧ wS2.static = true ∧
      ∃ a2 ∈ ([wS1, wS2] : List LayoutItem),
        ∃ b2 ∈ ([wS1, wS2] : List LayoutItem),
        a2.static = true ∧ b2.static = true ∧
        a2.i = wS1.i ∧ b2.i = wS2.i ∧ collides a2 b2 = true :=
  compact_pairwise_no_collision 30 [wS1, wS2] CompactType.vertical 12
    [wS1, wS2] (by decide) (by decide) (by decide) (by decide) wS1 (by decide)
    wS2 (by decide) (by decide)


/-! ### C4: idempotence machinery (vertical compaction) -/

theorem collides_default_right {l : LayoutItem} (h : 0 ≤ l.x) :
    collides l default = false := by
  refine (collides_eq_false_iff _ _).mpr (Or.inr (Or.inr (Or.inl ?_)))
  show (0 : Int) + 0 ≤ l.x
  omega

/-- If the moved item collides with no array entry at all, the scan of
`resolveCompactionCollision` leaves the state untouched. -/
theorem scan_id (dive : CState → Nat → Int → Option CState) (t : RTarget)
    (m : Int) (a : Axis) (st : CState)
    (hns : ∀ k, collides (targetGet st t) (st.arr.getD k default) = false) :
    ∀ ps, resolveCollisionScan dive t m a st ps = some st := by
  intro ps
  induction ps with
  | nil => rfl
  | cons k rest ih =>
    unfold resolveCollisionScan
    dsimp only
    by_cases h1 : (st.arr.getD k default).static = true
    · rw [if_pos h1]
      exact ih
    · rw [if_neg h1]
      by_cases h2 : (st.arr.getD k default).y >
          (targetGet st t).y + (targetGet st t).h
      · rw [if_pos h2]
      · rw [if_neg h2,
          if_neg (fun hc => Bool.noConfusion ((hns k).symm.trans hc))]
        exact ih

/-- One step of `resolveCompactionCollision` on the clone when no array entry
collides: it just writes `moveToCoord` into the axis (the `+1` bump is
overwritten). -/
theorem rcc_cur_no_dive (f : Nat) (order : List Nat) (a : Axis) (st : CState)
    (m : Int)
    (hnod : ∀ k, collides (setAxis st.cur a (getAxis st.cur a + 1))
      (st.arr.getD k default) = false) :
    resolveCompactionCollision (f + 1) order a st RTarget.cur m =
      some { st with cur := setAxis (setAxis st.cur a (getAxis st.cur a + 1)) a m } := by
  unfold resolveCompactionCollision
  dsimp only
  have hs := scan_id
    (fun st2 k m2 => resolveCompactionCollision f order a st2 (RTarget.idx k) m2)
    RTarget.cur m a
    (targetSet st RTarget.cur (setAxis (targetGet st RTarget.cur) a
      (getAxis (targetGet st RTarget.cur) a + 1)))
    (fun k => hnod k)
  rw [hs]
  rfl

/-- The `y`-axis `resolveCompactionCollision` on the clone never changes the
clone's `x`. -/
theorem rcc_cur_x :
    ∀ (f : Nat) (order : List Nat) (st : CState) (m : Int) (st2 : CState),
      resolveCompactionCollision f order Axis.y st RTarget.cur m = some st2 →
      st2.cur.x = st.cur.x := by
  intro f
  cases f with
  | zero =>
    intro order st m st2 h
    exact Option.noConfusion h
  | succ f =>
    intro order st m st2 h
    unfold resolveCompactionCollision at h
    dsimp only at h
    split at h
    · exact Option.noConfusion h
    · rename_i st3 heq
      cases h
      have hdive : ∀ (s3 : CState) (k : Nat) (m2 : Int) (s4 : CState),
          resolveCompactionCollision f order Axis.y s3 (RTarget.idx k) m2 =
            some s4 → s4.cur = s3.cur :=
        fun s3 k m2 s4 hdv =>
          (rcc_preserve f order Axis.y s3 (RTarget.idx k) m2 s4 hdv).2.2 k rfl
      have hscan : ∀ (ps : List Nat) (s s2 : CState),
          resolveCollisionScan
            (fun st2 k m => resolveCompactionCollision f order Axis.y st2
              (RTarget.idx k) m)
            RTarget.cur m Axis.y s ps = some s2 →
          s2.cur = s.cur := by
        intro ps
        induction ps with
        | nil =>
          intro s s2 hh
          cases hh
          rfl
        | cons k rest ihp =>
          intro s s2 hh
          unfold resolveCollisionScan at hh
          dsimp only at hh
          split_ifs at hh with h1 h2 h3
          · exact ihp s s2 hh
          · cases hh
            rfl
          · rcases hdv : resolveCompactionCollision f order Axis.y s
                (RTarget.idx k) (m + getSize (targetGet s RTarget.cur) Axis.y)
                with _ | s3
            · rw [hdv] at hh
              exact Option.noConfusion hh
            · rw [hdv] at hh
              rw [ihp s3 s2 hh, hdive s k _ s3 hdv]
          · exact ihp s s2 hh
      have hcur := hscan _ _ _ heq
      show st3.cur.x = st.cur.x
      rw [hcur]
      rfl

/-- Exit analysis of the vertical collision loop: either it never ran, or the
final position sits immediately below some `compareWith` item that overlaps
it horizontally. -/
theorem compactItemLoop_v_post :
    ∀ (f : Nat) (order : List Nat) (cw : List LayoutItem) (cols : Int)
      (ao : Bool) (st st2 : CState),
      compactItemLoop f order cw CompactType.vertical cols ao st =
        some st2 →
      st2 = st ∨ ∃ c ∈ cw, c.i ≠ st2.cur.i ∧ c.y + c.h = st2.cur.y ∧
        st2.cur.x < c.x + c.w ∧ c.x < st2.cur.x + st2.cur.w := by
  intro f
  induction f with
  | zero =>
    intro order cw cols ao st st2 h
    unfold compactItemLoop at h
    split at h
    · cases h
      exact Or.inl rfl
    · split at h
      · rename_i hcnd
        exact absurd hcnd.1 (by decide)
      · exact Option.noConfusion h
  | succ f ih =>
    intro order cw cols ao st st2 h
    unfold compactItemLoop at h
    split at h
    · cases h
      exact Or.inl rfl
    · rename_i c0 hc0
      split at h
      · rename_i hcnd
        exact absurd hcnd.1 (by decide)
      · dsimp only at h
        split at h
        · exact Option.noConfusion h
        · rename_i st1 heq
          rw [if_neg (by decide : ¬(CompactType.vertical =
            CompactType.horizontal))] at heq
          have hc0f := getFirstCollision_eq_some hc0
          have hcol := (collides_iff _ _).mp hc0f.2
          have hy1 : st1.cur.y = c0.y + c0.h :=
            rcc_sets_target (f + 1) order Axis.y st RTarget.cur _ st1
              trivial heq
          have hx1 : st1.cur.x = st.cur.x := rcc_cur_x (f + 1) order st _ st1 heq
          have hfe1 : FieldsEq st1.cur st.cur :=
            (rcc_preserve (f + 1) order Axis.y st RTarget.cur _ st1 heq).2.1
          split at h
          · rename_i hwrap
            exact absurd hwrap.1 (by decide)
          · rcases ih order cw cols ao st1 st2 h with he | ⟨c, hcm, hci, hcy, hx2, hx3⟩
            · subst he
              refine Or.inr ⟨c0, hc0f.1, ?_, ?_, ?_, ?_⟩
              · rw [hfe1.1]
                exact hcol.1
              · exact hy1.symm
              · rw [hx1]
                exact hcol.2.1
              · rw [hx1, hfe1.2.1]
                exact hcol.2.2.1
            · exact Or.inr ⟨c, hcm, hci, hcy, hx2, hx3⟩


/-- Vertical `compactItem` postcondition: the item lands at `y = 0` or
immediately below a horizontally overlapping `compareWith` item. -/
theorem compactItem_v_post (fuel : Nat) (order : List Nat)
    (cw : List LayoutItem) (cols : Int) (ao : Bool) (st st2 : CState)
    (hcw : ∀ c ∈ cw, ItemNonneg c) (hst : StNonneg st)
    (h : compactItem fuel order cw CompactType.vertical cols ao st =
      some st2) :
    st2.cur.y = 0 ∨ ∃ c ∈ cw, c.i ≠ st2.cur.i ∧ c.y + c.h = st2.cur.y ∧
      st2.cur.x < c.x + c.w ∧ c.x < st2.cur.x + st2.cur.w := by
  have hao : ¬(CompactType.vertical = CompactType.null ∧ ao = true) :=
    fun hcnd => CompactType.noConfusion hcnd.1
  have hwid : CompactType.vertical = CompactType.horizontal → st.cur.w ≤ cols :=
    fun hh => absurd hh (by decide)
  obtain ⟨hst2, _⟩ := compactItem_post fuel order cw CompactType.vertical cols
    ao st st2 hao hcw hst hwid h
  unfold compactItem at h
  dsimp only at h
  split at h
  · exact Option.noConfusion h
  · rename_i l2 heq2
    split at h
    · exact Option.noConfusion h
    · rename_i st3 heq3
      cases h
      have hclamp : ItemNonneg { st.cur with y := min (bottom cw) st.cur.y } :=
        ⟨hst.2.1, le_min (bottom_nonneg cw) hst.2.2.1, hst.2.2.2.1,
          hst.2.2.2.2⟩
      have hl2 : ItemNonneg l2 ∧
          ¬(getAxis l2 Axis.y > 0 ∧ getFirstCollision cw l2 = none) := by
        split at heq2
        · exact pullLoop_nonneg_exit _ _ _ _ _ hclamp heq2
        · rename_i hv
          exact absurd rfl hv
      obtain ⟨hst3, hnone3⟩ := compactItemLoop_post fuel order cw
        CompactType.vertical cols ao { st with cur := l2 } st3 hao hcw
        ⟨hst.1, hl2.1⟩ (fun hh => absurd hh (by decide)) heq3
      rcases compactItemLoop_v_post fuel order cw cols ao { st with cur := l2 }
          st3 heq3 with he | ⟨c, hcm, hci, hcy, hx2, hx3⟩
      · -- the loop never ran: the pull exit forces y = 0
        have hcur3 : st3.cur = l2 := by rw [he]
        have hy0 : l2.y = 0 := by
          have h1 := hl2.2
          rw [← hcur3] at h1
          have h2 : ¬(getAxis st3.cur Axis.y > 0) := fun hgt => h1 ⟨hgt, hnone3⟩
          have h3 : 0 ≤ l2.y := hl2.1.2.1
          rw [hcur3] at h2
          show l2.y = 0
          have h4 : ¬(l2.y > 0) := h2
          omega
        refine Or.inl ?_
        show max st3.cur.y 0 = 0
        rw [hcur3, hy0]
        decide
      · have hynn : 0 ≤ st3.cur.y := by
          have hc := hcw c hcm
          have := hc.2.1
          have := hc.2.2.2
          omega
        have hxnn : 0 ≤ st3.cur.x := hst3.2.1
        refine Or.inr ⟨c, hcm, ?_, ?_, ?_, ?_⟩
        · show c.i ≠ st3.cur.i
          exact hci
        · show c.y + c.h = max st3.cur.y 0
          rw [max_eq_left hynn]
          exact hcy
        · show max st3.cur.x 0 < c.x + c.w
          rw [max_eq_left hxnn]
          exact hx2
        · show c.x < max st3.cur.x 0 + st3.cur.w
          rw [max_eq_left hxnn]
          exact hx3

theorem cmpRowCol_total (a b : LayoutItem) :
    cmpRowCol a b ≤ 0 ∨ cmpRowCol b a ≤ 0 := by
  unfold cmpRowCol
  split_ifs <;> omega

theorem cmpRowCol_trans {a b c : LayoutItem} (h1 : cmpRowCol a b ≤ 0)
    (h2 : cmpRowCol b c ≤ 0) : cmpRowCol a c ≤ 0 := by
  unfold cmpRowCol at h1 h2 ⊢
  split_ifs at h1 h2 ⊢ <;> omega

/-- The vertical index order is sorted by the row/col comparator. -/
theorem sortIndicesFor_sorted_v (layout : List LayoutItem) :
    List.Pairwise
      (fun a b =>
        cmpRowCol (layout.getD a default) (layout.getD b default) ≤ 0)
      (sortIndicesFor layout CompactType.vertical) := by
  haveI : IsTotal Nat (fun a b =>
      cmpRowCol (layout.getD a default) (layout.getD b default) ≤ 0) :=
    ⟨fun a b => cmpRowCol_total _ _⟩
  haveI : IsTrans Nat (fun a b =>
      cmpRowCol (layout.getD a default) (layout.getD b default) ≤ 0) :=
    ⟨fun a b c => cmpRowCol_trans⟩
  exact List.sorted_insertionSort _ _

theorem sortIndicesFor_nodup (layout : List LayoutItem) (ct : CompactType) :
    (sortIndicesFor layout ct).Nodup :=
  (sortIndicesFor_perm layout ct).nodup_iff.mpr (List.nodup_range _)


theorem vblocked_mono {cw cw2 : List LayoutItem} {o : LayoutItem}
    (hsub : ∀ c ∈ cw, c ∈ cw2) (h : VBlocked cw o) : VBlocked cw2 o := by
  rcases h with h | ⟨c, hc, hf⟩
  · exact Or.inl h
  · exact Or.inr ⟨c, hsub c hc, hf⟩

/-- Loop invariant of `compactGo` (vertical, no overlap) collecting, for each
placed non-static item, the floor-or-blocker fact, and locating every
`compareWith` member geometrically in the final output. -/
theorem compactGo_vblock (fuel : Nat) (fullOrder : List Nat) (cols : Int)
    (ao : Bool) :
    ∀ (order : List Nat) (cw arr : List LayoutItem)
      (out out2 : List (Option LayoutItem)),
      (∀ c ∈ cw, ItemNonneg c) →
      (∀ j, ItemNonneg (arr.getD j default)) →
      (∀ j ∈ order, j < out.length) →
      order.Nodup →
      (∀ c ∈ cw, CwPresent order arr out c) →
      (∀ j, out.getD j none ≠ none → j ∉ order) →
      (∀ j o, out.getD j none = some o → o.static = false →
        o ∈ cw ∧ VBlocked cw o) →
      compactGo fuel fullOrder CompactType.vertical cols ao order cw arr
        out = some out2 →
      ∃ cw2, (∀ c ∈ cw, c ∈ cw2) ∧ (∀ c ∈ cw2, ItemNonneg c) ∧
        (∀ c ∈ cw2, ∃ j o, out2.getD j none = some o ∧ GeomEqS o c) ∧
        (∀ j o, out2.getD j none = some o → o.static = false →
          o ∈ cw2 ∧ VBlocked cw2 o) := by
  intro order
  induction order with
  | nil =>
    intro cw arr out out2 hcw _ _ _ hpres _ hslot h
    cases h
    refine ⟨cw, fun c hc => hc, hcw, ?_, hslot⟩
    intro c hc
    rcases hpres c hc with ⟨j, o, ho, hg⟩ | ⟨j, hj, _⟩
    · exact ⟨j, o, ho, hg⟩
    · exact absurd hj (List.not_mem_nil j)
  | cons idx rest ih =>
    intro cw arr out out2 hcw hnn hlto hnodup hpres hfill hslot h
    have hidxO : idx < out.length := hlto idx (List.mem_cons_self idx rest)
    obtain ⟨hidxR, hnodupR⟩ := List.nodup_cons.mp hnodup
    unfold compactGo at h
    dsimp only at h
    rw [cloneLayoutItem_eq] at h
    split at h
    · -- static entry
      rename_i hstat
      refine ih cw arr _ out2 hcw hnn
        (fun j hj => by
          rw [List.length_set]
          exact hlto j (List.mem_cons_of_mem idx hj))
        hnodupR ?_ ?_ ?_ h
      · intro c hc
        rcases hpres c hc with ⟨j, o, ho, hg⟩ | ⟨j, hj, hg, hcs⟩
        · have hji : j ≠ idx := by
            intro e
            exact (hfill j (by rw [ho]; exact fun hh => Option.noConfusion hh))
              (e ▸ List.mem_cons_self idx rest)
          exact Or.inl ⟨j, o, by
            rw [getD_set_ne _ _ _ (fun e => hji e.symm)]
            exact ho, hg⟩
        · rcases List.mem_cons.mp hj with hji | hji
          · subst hji
            refine Or.inl ⟨j, { arr.getD j default with moved := false },
              by rw [getD_set_self _ _ _ _ hidxO], ?_⟩
            exact hg
          · exact Or.inr ⟨j, hji, hg, hcs⟩
      · intro j hne
        by_cases hji : j = idx
        · subst hji
          exact hidxR
        · rw [getD_set_ne _ _ _ (fun e => hji e.symm)] at hne
          exact fun hj => hfill j hne (List.mem_cons_of_mem idx hj)
      · intro j o ho hos
        by_cases hji : j = idx
        · subst hji
          rw [getD_set_self _ _ _ _ hidxO] at ho
          cases ho
          exact absurd hos (by
            show ¬((arr.getD j default).static = false)
            rw [hstat]
            exact fun hh => Bool.noConfusion hh)
        · rw [getD_set_ne _ _ _ (fun e => hji e.symm)] at ho
          exact hslot j o ho hos
    · -- non-static entry
      rename_i hstat
      split at h
      · exact Option.noConfusion h
      · rename_i st heq
        simp only [Bool.not_eq_true] at hstat
        have hao : ¬(CompactType.vertical = CompactType.null ∧
            ao = true) := fun hcnd => CompactType.noConfusion hcnd.1
        obtain ⟨hstN, hnone⟩ := compactItem_post fuel fullOrder cw
          CompactType.vertical cols ao ⟨arr, arr.getD idx default⟩ st hao
          hcw ⟨hnn, hnn idx⟩ (fun hh => absurd hh (by decide)) heq
        have hp := compactItem_preserve fuel fullOrder cw CompactType.vertical
          cols ao ⟨arr, arr.getD idx default⟩ st heq
        have hsfix := compactItem_static_fix fuel fullOrder cw
          CompactType.vertical cols ao ⟨arr, arr.getD idx default⟩ st heq
        have hvpost := compactItem_v_post fuel fullOrder cw cols ao
          ⟨arr, arr.getD idx default⟩ st hcw ⟨hnn, hnn idx⟩ heq
        have hlrS : ({ st.cur with moved := false } : LayoutItem).static
            = false := by
          show st.cur.static = false
          rw [hp.2.2.2.2.1]
          exact hstat
        have hlrN : ItemNonneg { st.cur with moved := false } :=
          ⟨hstN.2.1, hstN.2.2.1, hstN.2.2.2.1, hstN.2.2.2.2⟩
        obtain ⟨cw2, hsub2, hnn2, hpres2, hslot2⟩ := ih
          (cw ++ [{ st.cur with moved := false }]) st.arr
          (out.set idx (some { st.cur with moved := false })) out2
          (by
            intro c hc
            rcases List.mem_append.mp hc with h1 | h1
            · exact hcw c h1
            · rw [List.mem_singleton] at h1
              subst h1
              exact hlrN)
          hstN.1
          (fun j hj => by
            rw [List.length_set]
            exact hlto j (List.mem_cons_of_mem idx hj))
          hnodupR
          (by
            intro c hc
            rcases List.mem_append.mp hc with h1 | h1
            · rcases hpres c h1 with ⟨j, o, ho, hg⟩ | ⟨j, hj, hg, hcs⟩
              · have hji : j ≠ idx := by
                  intro e
                  exact (hfill j (by
                    rw [ho]
                    exact fun hh => Option.noConfusion hh))
                    (e ▸ List.mem_cons_self idx rest)
                exact Or.inl ⟨j, o, by
                  rw [getD_set_ne _ _ _ (fun e => hji e.symm)]
                  exact ho, hg⟩
              · rcases List.mem_cons.mp hj with hji | hji
                · exfalso
                  subst hji
                  have : (arr.getD j default).static = true := by
                    rw [hg.2.2.2.2.2, hcs]
                  rw [this] at hstat
                  exact Bool.noConfusion hstat
                · refine Or.inr ⟨j, hji, ?_, hcs⟩
                  have hjs : (arr.getD j default).static = true := by
                    rw [hg.2.2.2.2.2, hcs]
                  rw [hsfix j hjs]
                  exact hg
            · rw [List.mem_singleton] at h1
              subst h1
              exact Or.inl ⟨idx, { st.cur with moved := false },
                by rw [getD_set_self _ _ _ _ hidxO],
                ⟨rfl, rfl, rfl, rfl, rfl, rfl⟩⟩)
          (by
            intro j hne
            by_cases hji : j = idx
            · subst hji
              exact hidxR
            · rw [getD_set_ne _ _ _ (fun e => hji e.symm)] at hne
              exact fun hj => hfill j hne (List.mem_cons_of_mem idx hj))
          (by
            intro j o ho hos
            by_cases hji : j = idx
            · subst hji
              rw [getD_set_self _ _ _ _ hidxO] at ho
              cases ho
              refine ⟨List.mem_append.mpr (Or.inr (List.mem_singleton.mpr rfl)),
                ?_⟩
              rcases hvpost with hy0 | ⟨c, hcm, hci, hcy, hx1, hx2⟩
              · exact Or.inl hy0
              · exact Or.inr ⟨c, List.mem_append.mpr (Or.inl hcm), hci, hcy,
                  hx1, hx2⟩
            · rw [getD_set_ne _ _ _ (fun e => hji e.symm)] at ho
              obtain ⟨hmem, hvb⟩ := hslot j o ho hos
              exact ⟨List.mem_append.mpr (Or.inl hmem),
                vblocked_mono (fun c hc => List.mem_append.mpr (Or.inl hc))
                  hvb⟩)
          h
        exact ⟨cw2, fun c hc => hsub2 c (List.mem_append.mpr (Or.inl hc)),
          hnn2, hpres2, hslot2⟩


/-- Everything the second compaction needs to know about the first one's
output (vertical, no overlap): members are nonnegative with positive heights
and cleared `moved` flags, non-static members collide with nothing, and each
non-static member rests on the floor or immediately below a horizontally
overlapping member. -/
theorem compact_v_facts (fuel : Nat) (layout : List LayoutItem) (cols : Int)
    (ao : Bool) (out : List LayoutItem)
    (hpre : ∀ it ∈ layout, ItemNonneg it)
    (hh1 : ∀ it ∈ layout, 1 ≤ it.h)
    (h : compact fuel layout CompactType.vertical cols ao = some out) :
    (∀ a ∈ out, ItemNonneg a ∧ 1 ≤ a.h ∧ a.moved = false) ∧
    (∀ l ∈ out, l.static = false →
      (∀ c ∈ out, collides c l = false) ∧
      (l.y = 0 ∨ ∃ c ∈ out, c.i ≠ l.i ∧ c.y + c.h = l.y ∧ l.x < c.x + c.w ∧
        c.x < l.x + l.w)) := by
  unfold compact at h
  dsimp only at h
  split at h
  · exact Option.noConfusion h
  · rename_i outOpt heq
    cases h
    have hao : ¬(CompactType.vertical = CompactType.null ∧
        ao = true) := fun hcnd => CompactType.noConfusion hcnd.1
    have hnn0 : ∀ j, ItemNonneg (layout.getD j default) := by
      intro j
      by_cases hj : j < layout.length
      · rw [List.getD_eq_getElem _ _ hj]
        exact hpre _ (List.getElem_mem hj)
      · rw [List.getD_eq_default _ _ (le_of_not_lt hj)]
        exact itemNonneg_default
    have hcw0 : ∀ c ∈ getStatics layout, ItemNonneg c := fun c hc =>
      hpre c (List.mem_filter.mp hc).1
    have hpair0 : List.Pairwise POk (getStatics layout) := by
      refine List.pairwise_of_forall_mem_list ?_
      intro a ha b hb hcase
      rcases hcase with h1 | h1
      · rw [(List.mem_filter.mp ha).2] at h1
        exact Bool.noConfusion h1
      · rw [(List.mem_filter.mp hb).2] at h1
        exact Bool.noConfusion h1
    have hordL : ∀ j ∈ sortIndicesFor layout CompactType.vertical,
        j < layout.length :=
      fun j hj => List.mem_range.mp
        ((sortIndicesFor_perm layout CompactType.vertical).mem_iff.mp hj)
    have hordO : ∀ j ∈ sortIndicesFor layout CompactType.vertical,
        j < (List.replicate layout.length (none : Option LayoutItem)).length := by
      intro j hj
      rw [List.length_replicate]
      exact hordL j hj
    have hout0 : ∀ j o, (List.replicate layout.length
        (none : Option LayoutItem)).getD j none = some o →
        OutOk layout (getStatics layout) o := by
      intro j o ho
      rw [getD_replicate_none] at ho
      exact Option.noConfusion ho
    obtain ⟨cw2p, hp2, hsubP, _, houtP⟩ := compactGo_pairwise fuel
      (sortIndicesFor layout CompactType.vertical) CompactType.vertical cols
      ao layout hao (sortIndicesFor layout CompactType.vertical)
      (getStatics layout) layout (List.replicate layout.length none) outOpt
      hcw0 hpair0 hnn0 (fun j => FieldsEq.refl _) (fun j _ => rfl)
      (fun hh => absurd hh (by decide)) hordL hordO hout0 heq
    obtain ⟨cw2v, hsubV, hnnV, hpresV, hslotV⟩ := compactGo_vblock fuel
      (sortIndicesFor layout CompactType.vertical) cols ao
      (sortIndicesFor layout CompactType.vertical) (getStatics layout) layout
      (List.replicate layout.length none) outOpt hcw0 hnn0 hordO
      (sortIndicesFor_nodup layout CompactType.vertical)
      (by
        intro c hc
        obtain ⟨hcm, hcs⟩ := List.mem_filter.mp hc
        obtain ⟨j, hj, hjc⟩ := List.mem_iff_getElem.mp hcm
        refine Or.inr ⟨j,
          (sortIndicesFor_perm layout CompactType.vertical).mem_iff.mpr
            (List.mem_range.mpr hj), ?_, hcs⟩
        rw [List.getD_eq_getElem _ _ hj, hjc]
        exact ⟨rfl, rfl, rfl, rfl, rfl, rfl⟩)
      (fun j hne => absurd (getD_replicate_none _ _) hne)
      (by
        intro j o ho
        rw [getD_replicate_none] at ho
        exact absurd ho (fun hh => Option.noConfusion hh))
      heq
    obtain ⟨hlen, houtU, hinS⟩ := compactGo_frame fuel
      (sortIndicesFor layout CompactType.vertical) CompactType.vertical cols
      ao layout (sortIndicesFor layout CompactType.vertical)
      (getStatics layout) layout (List.replicate layout.length none) outOpt
      (fun j => FieldsEq.refl _) hordO heq
    have hslotIdx : ∀ a ∈ outOpt.map (fun o => o.getD default),
        ∃ j, j < outOpt.length ∧ j < layout.length ∧
          outOpt.getD j none = some a := by
      intro a ha
      obtain ⟨j, hj, hja⟩ := List.mem_iff_getElem.mp ha
      simp only [List.getElem_map] at hja
      have hjlen : j < outOpt.length := by simpa using hj
      have hjL : j < layout.length := by
        rw [hlen, List.length_replicate] at hjlen
        exact hjlen
      obtain ⟨o, ho, _⟩ := hinS j
        ((sortIndicesFor_perm layout CompactType.vertical).mem_iff.mpr
          (List.mem_range.mpr hjL))
      rw [List.getD_eq_getElem _ _ hjlen] at ho
      rw [ho] at hja
      simp only [Option.getD_some] at hja
      subst hja
      refine ⟨j, hjlen, hjL, ?_⟩
      rw [List.getD_eq_getElem _ _ hjlen]
      exact ho
    have hslotMem : ∀ j o, outOpt.getD j none = some o →
        o ∈ outOpt.map (fun oo => oo.getD default) := by
      intro j o ho
      have hj : j < outOpt.length := by
        by_contra hno
        rw [List.getD_eq_default _ _ (le_of_not_lt hno)] at ho
        exact Option.noConfusion ho
      have helem : outOpt[j] = some o := by
        rw [← List.getD_eq_getElem _ _ hj]
        exact ho
      refine List.mem_iff_getElem.mpr ⟨j, by simpa using hj, ?_⟩
      rw [List.getElem_map, helem]
      rfl
    have hsymm : Symmetric POk := fun x y hxy => pok_symm hxy
    constructor
    · intro a ha
      obtain ⟨j, hjlen, hjL, hslotA⟩ := hslotIdx a ha
      obtain ⟨o, ho, hoc⟩ := hinS j
        ((sortIndicesFor_perm layout CompactType.vertical).mem_iff.mpr
          (List.mem_range.mpr hjL))
      have hoa : o = a := by
        rw [hslotA] at ho
        exact (Option.some.inj ho).symm
      subst hoa
      have hmemLj : layout.getD j default ∈ layout := by
        rw [List.getD_eq_getElem _ _ hjL]
        exact List.getElem_mem hjL
      refine ⟨?_, ?_, hoc.2.2.2⟩
      · rcases houtP j o hslotA with ⟨_, li, hliM, _, hae⟩ | ⟨hoS, _⟩
        · have hnli := hpre li hliM
          rw [hae]
          exact ⟨hnli.1, hnli.2.1, hnli.2.2.1, hnli.2.2.2⟩
        · exact hnnV o (hslotV j o hslotA hoS).1
      · rw [hoc.2.2.1]
        exact hh1 _ hmemLj
    · intro l hl hlS
      obtain ⟨jl, hjlen, hjL, hslotL⟩ := hslotIdx l hl
      have hlC : l ∈ cw2p := by
        rcases houtP jl l hslotL with ⟨hls, _⟩ | ⟨_, hc⟩
        · rw [hls] at hlS
          exact Bool.noConfusion hlS
        · exact hc
      constructor
      · intro c hc
        by_cases hcl : c = l
        · subst hcl
          exact collides_self c
        · obtain ⟨jc, _, _, hslotC⟩ := hslotIdx c hc
          rcases houtP jc c hslotC with ⟨hcS, lc, hlcM, hlcS, hce⟩ | ⟨hcS, hcC⟩
          · have hlc2 : lc ∈ cw2p :=
              hsubP lc (List.mem_filter.mpr ⟨hlcM, hlcS⟩)
            have hne : lc ≠ l := by
              intro e
              rw [← e, hlcS] at hlS
              exact Bool.noConfusion hlS
            obtain ⟨h1, _⟩ := hp2.forall hsymm hlc2 hlC hne (Or.inr hlS)
            have he : collides c l = collides lc l :=
              collides_of_fields
                ⟨by rw [hce], by rw [hce], by rw [hce], by rw [hce],
                  by rw [hce]⟩
                ⟨rfl, rfl, rfl, rfl, rfl⟩
            rw [he]
            exact h1
          · obtain ⟨h1, _⟩ := hp2.forall hsymm hcC hlC hcl (Or.inl hcS)
            exact h1
      · obtain ⟨_, hvb⟩ := hslotV jl l hslotL hlS
        rcases hvb with hy0 | ⟨c, hcV, hci, hcy, hx1, hx2⟩
        · exact Or.inl hy0
        · obtain ⟨j2, o2, ho2, hg⟩ := hpresV c hcV
          refine Or.inr ⟨o2, hslotMem j2 o2 ho2, ?_, ?_, ?_, ?_⟩
          · rw [hg.1]
            exact hci
          · rw [hg.2.2.1, hg.2.2.2.2.1]
            exact hcy
          · rw [hg.2.1, hg.2.2.2.1]
            exact hx1
          · rw [hg.2.1]
            exact hx2


theorem pullLoop_stay (f : Nat) (cw : List LayoutItem) (a : Axis)
    (l l2 : LayoutItem)
    (hstay : ¬(getAxis l a > 0 ∧ getFirstCollision cw l = none))
    (h : pullLoop f cw a l = some l2) : l2 = l := by
  unfold pullLoop at h
  rw [if_neg hstay] at h
  exact (Option.some.inj h).symm

theorem pullLoop_one_step (f : Nat) (cw : List LayoutItem) (a : Axis)
    (l l2 : LayoutItem)
    (hgt : getAxis l a > 0) (hfc : getFirstCollision cw l = none)
    (hstop : getFirstCollision cw (setAxis l a (getAxis l a - 1)) ≠ none)
    (h : pullLoop f cw a l = some l2) :
    l2 = setAxis l a (getAxis l a - 1) := by
  cases f with
  | zero =>
    unfold pullLoop at h
    rw [if_pos ⟨hgt, hfc⟩] at h
    exact Option.noConfusion h
  | succ g =>
    unfold pullLoop at h
    rw [if_pos ⟨hgt, hfc⟩] at h
    dsimp only at h
    unfold pullLoop at h
    rw [if_neg (fun hand => hstop hand.2)] at h
    exact (Option.some.inj h).symm

theorem compactItemLoop_none_eq (f : Nat) (order : List Nat)
    (cw : List LayoutItem) (ct : CompactType) (cols : Int) (ao : Bool)
    (st : CState) (hfc : getFirstCollision cw st.cur = none) :
    compactItemLoop f order cw ct cols ao st = some st := by
  unfold compactItemLoop
  rw [hfc]

/-- Second-pass fixpoint: a non-static item of an already-compacted layout is
returned unchanged by a further vertical `compactItem`, and the array is not
touched. -/
theorem compactItem_v_fix (fuel : Nat) (order2 : List Nat)
    (cw out1 : List LayoutItem) (cols : Int) (ao : Bool) (l : LayoutItem)
    (st2 : CState)
    (hnn : ∀ a ∈ out1, ItemNonneg a)
    (hh1 : ∀ a ∈ out1, 1 ≤ a.h)
    (hl : l ∈ out1)
    (hcwSub : ∀ c ∈ cw, c ∈ out1)
    (hfree : ∀ c ∈ out1, collides c l = false)
    (hblock : l.y = 0 ∨ ∃ c ∈ cw, c.i ≠ l.i ∧ c.y + c.h = l.y ∧
      l.x < c.x + c.w ∧ c.x < l.x + l.w)
    (h : compactItem fuel order2 cw CompactType.vertical cols ao
      ⟨out1, l⟩ = some st2) :
    st2 = ⟨out1, l⟩ := by
  have hlN : ItemNonneg l := hnn l hl
  have hlh1 : 1 ≤ l.h := hh1 l hl
  have hfcl : getFirstCollision cw l = none :=
    (getFirstCollision_eq_none_iff cw l).mpr
      (fun c hc => hfree c (hcwSub c hc))
  have hybot : l.y ≤ bottom cw := by
    rcases hblock with hy0 | ⟨c, hcm, _, hcy, _, _⟩
    · have := bottom_nonneg cw
      omega
    · rw [← hcy]
      exact le_bottom_of_mem hcm
  have hargEq : ({ l with y := min (bottom cw) l.y } : LayoutItem) = l := by
    rw [min_eq_right hybot]
  unfold compactItem at h
  dsimp only at h
  split at h
  · exact Option.noConfusion h
  · rename_i l2 heq2
    split at h
    · exact Option.noConfusion h
    · rename_i st3 heq3
      cases h
      split at heq2
      · -- the vertical branch (the only reachable one)
        have heq2b : pullLoop fuel cw Axis.y l = some l2 := by
          rw [← hargEq]
          exact heq2
        have hst3 : st3 = (⟨out1, l⟩ : CState) := by
          rcases hblock with hy0 | ⟨c, hcm, hci, hcy, hx1, hx2⟩
          · -- on the floor: the pull does not move, the loop does not run
            have hl2 : l2 = l :=
              pullLoop_stay fuel cw Axis.y l l2
                (fun hand => by
                  have h1 : l.y > 0 := hand.1
                  omega) heq2b
            rw [hl2] at heq3
            exact (Option.some.inj
              ((compactItemLoop_none_eq fuel order2 cw CompactType.vertical
                cols ao ⟨out1, l⟩ hfcl).symm.trans heq3)).symm
          · -- blocked: the pull dips one row, the loop pushes straight back
            have hcN : ItemNonneg c := hnn c (hcwSub c hcm)
            have hch1 : 1 ≤ c.h := hh1 c (hcwSub c hcm)
            have hygt : getAxis l Axis.y > 0 := by
              show l.y > 0
              omega
            have hcol1 : collides c (setAxis l Axis.y (getAxis l Axis.y - 1))
                = true := by
              refine (collides_iff _ _).mpr ⟨hci, ?_, ?_, ?_, ?_⟩
              · show l.x < c.x + c.w
                exact hx1
              · show c.x < l.x + l.w
                exact hx2
              · show l.y - 1 < c.y + c.h
                omega
              · show c.y < l.y - 1 + l.h
                omega
            have hstop : getFirstCollision cw
                (setAxis l Axis.y (getAxis l Axis.y - 1)) ≠ none := by
              intro hnone
              have hf := (getFirstCollision_eq_none_iff _ _).mp hnone c hcm
              rw [hcol1] at hf
              exact Bool.noConfusion hf
            have hl2 : l2 = setAxis l Axis.y (getAxis l Axis.y - 1) :=
              pullLoop_one_step fuel cw Axis.y l l2 hygt hfcl hstop heq2b
            subst hl2
            rcases hfc2 : getFirstCollision cw
                (setAxis l Axis.y (getAxis l Axis.y - 1)) with _ | c2
            · exact absurd hfc2 hstop
            · obtain ⟨hc2m, hc2col⟩ := getFirstCollision_eq_some hfc2
              have hc2out : c2 ∈ out1 := hcwSub c2 hc2m
              have hc2free : collides c2 l = false := hfree c2 hc2out
              have hc2fields := (collides_iff _ _).mp hc2col
              have hc2i : c2.i ≠ l.i := hc2fields.1
              have hc2x1 : l.x < c2.x + c2.w := hc2fields.2.1
              have hc2x2 : c2.x < l.x + l.w := hc2fields.2.2.1
              have hc2y1 : l.y - 1 < c2.y + c2.h := hc2fields.2.2.2.1
              have hc2y2 : c2.y < l.y - 1 + l.h := hc2fields.2.2.2.2
              have hm : c2.y + c2.h = l.y := by
                rcases (collides_eq_false_iff _ _).mp hc2free with
                  he | he | he | he | he
                · exact absurd he hc2i
                · omega
                · omega
                · omega
                · omega
              have hbump : setAxis (setAxis l Axis.y (getAxis l Axis.y - 1))
                  Axis.y (getAxis (setAxis l Axis.y (getAxis l Axis.y - 1))
                    Axis.y + 1) = l := by
                show ({ l with y := l.y - 1 + 1 } : LayoutItem) = l
                have he : l.y - 1 + 1 = l.y := by omega
                rw [he]
              have hnod : ∀ k, collides
                  (setAxis (setAxis l Axis.y (getAxis l Axis.y - 1)) Axis.y
                    (getAxis (setAxis l Axis.y (getAxis l Axis.y - 1))
                      Axis.y + 1))
                  (((⟨out1, setAxis l Axis.y (getAxis l Axis.y - 1)⟩ :
                    CState).arr).getD k default) = false := by
                intro k
                rw [hbump]
                show collides l (out1.getD k default) = false
                by_cases hk : k < out1.length
                · rw [List.getD_eq_getElem _ _ hk, collides_symm]
                  exact hfree _ (List.getElem_mem hk)
                · rw [List.getD_eq_default _ _ (le_of_not_lt hk)]
                  exact collides_default_right hlN.1
              cases fuel with
              | zero =>
                have hv0 : compactItemLoop 0 order2 cw CompactType.vertical
                    cols ao ⟨out1, setAxis l Axis.y (getAxis l Axis.y - 1)⟩
                    = none := by
                  unfold compactItemLoop
                  rw [hfc2]
                  dsimp only
                  rw [if_neg (fun hcnd => CompactType.noConfusion hcnd.1)]
                exact Option.noConfusion (hv0.symm.trans heq3)
              | succ g =>
                have hres : setAxis (setAxis (setAxis l Axis.y
                    (getAxis l Axis.y - 1)) Axis.y
                      (getAxis (setAxis l Axis.y (getAxis l Axis.y - 1))
                        Axis.y + 1)) Axis.y (c2.y + c2.h) = l := by
                  rw [hbump, hm]
                  rfl
                have hrcc : resolveCompactionCollision (g + 1) order2 Axis.y
                    ⟨out1, setAxis l Axis.y (getAxis l Axis.y - 1)⟩
                    RTarget.cur (c2.y + c2.h) = some (⟨out1, l⟩ : CState) := by
                  rw [rcc_cur_no_dive g order2 Axis.y
                    ⟨out1, setAxis l Axis.y (getAxis l Axis.y - 1)⟩
                    (c2.y + c2.h) hnod]
                  show some ({ (⟨out1, setAxis l Axis.y (getAxis l Axis.y - 1)⟩ :
                    CState) with cur := setAxis (setAxis (setAxis l Axis.y
                      (getAxis l Axis.y - 1)) Axis.y
                        (getAxis (setAxis l Axis.y (getAxis l Axis.y - 1))
                          Axis.y + 1)) Axis.y (c2.y + c2.h) }) =
                    some (⟨out1, l⟩ : CState)
                  rw [hres]
                have hv1 : compactItemLoop (g + 1) order2 cw
                    CompactType.vertical cols ao
                    ⟨out1, setAxis l Axis.y (getAxis l Axis.y - 1)⟩ =
                    some (⟨out1, l⟩ : CState) := by
                  unfold compactItemLoop
                  rw [hfc2]
                  dsimp only
                  rw [if_neg (fun hcnd => CompactType.noConfusion hcnd.1)]
                  rw [if_neg (by decide : ¬(CompactType.vertical =
                    CompactType.horizontal)), hrcc]
                  dsimp only
                  rw [if_neg (fun hcnd => absurd hcnd.1 (by decide))]
                  exact compactItemLoop_none_eq g order2 cw
                    CompactType.vertical cols ao ⟨out1, l⟩ hfcl
                exact (Option.some.inj (hv1.symm.trans heq3)).symm
        subst hst3
        show ({ (⟨out1, l⟩ : CState) with cur :=
          { (⟨out1, l⟩ : CState).cur with
            y := max (⟨out1, l⟩ : CState).cur.y 0,
            x := max (⟨out1, l⟩ : CState).cur.x 0 } } : CState) =
          (⟨out1, l⟩ : CState)
        have hy : max l.y 0 = l.y := max_eq_left hlN.2.1
        have hx : max l.x 0 = l.x := max_eq_left hlN.1
        show ({ arr := out1, cur := { l with y := max l.y 0, x := max l.x 0 } }
          : CState) = (⟨out1, l⟩ : CState)
        rw [hy, hx]
      · rename_i hv
        exact absurd rfl hv


/-- Second-pass loop: every slot gets back exactly the already-compacted item
at its index. -/
theorem compactGo_v_fix (fuel : Nat) (fullOrder : List Nat) (cols : Int)
    (ao : Bool) (out1 : List LayoutItem)
    (hnn : ∀ a ∈ out1, ItemNonneg a)
    (hh1 : ∀ a ∈ out1, 1 ≤ a.h)
    (hmv : ∀ a ∈ out1, a.moved = false)
    (hfree : ∀ l ∈ out1, l.static = false → ∀ c ∈ out1, collides c l = false)
    (hblock : ∀ l ∈ out1, l.static = false → l.y = 0 ∨ ∃ c ∈ out1,
      c.i ≠ l.i ∧ c.y + c.h = l.y ∧ l.x < c.x + c.w ∧ c.x < l.x + l.w)
    (hfull : ∀ j, j < out1.length → j ∈ fullOrder) :
    ∀ (order : List Nat) (cw : List LayoutItem)
      (out out2 : List (Option LayoutItem)),
      List.Pairwise (fun a b => cmpRowCol (out1.getD a default)
        (out1.getD b default) ≤ 0) order →
      order.Nodup →
      (∀ k ∈ order, k < out1.length) →
      (∀ k ∈ order, k < out.length) →
      (∀ c ∈ cw, c ∈ out1) →
      (∀ c ∈ out1, c.static = true → c ∈ cw) →
      (∀ j, j ∈ fullOrder → j ∉ order → out1.getD j default ∈ cw) →
      compactGo fuel fullOrder CompactType.vertical cols ao order cw out1
        out = some out2 →
      out2.length = out.length ∧
        (∀ j, j ∉ order → out2.getD j none = out.getD j none) ∧
        (∀ j ∈ order, out2.getD j none = some (out1.getD j default)) := by
  intro order
  induction order with
  | nil =>
    intro cw out out2 _ _ _ _ _ _ _ h
    cases h
    exact ⟨rfl, fun j _ => rfl, fun j hj => absurd hj (List.not_mem_nil j)⟩
  | cons idx rest ih =>
    intro cw out out2 hpw hnodup hlt hlto hcwSub hcwStat hproc h
    obtain ⟨hidxR, hnodupR⟩ := List.nodup_cons.mp hnodup
    have hidxL : idx < out1.length := hlt idx (List.mem_cons_self idx rest)
    have hidxO : idx < out.length := hlto idx (List.mem_cons_self idx rest)
    have hmemL : out1.getD idx default ∈ out1 := by
      rw [List.getD_eq_getElem _ _ hidxL]
      exact List.getElem_mem hidxL
    have hmovEq : ({ out1.getD idx default with moved := false } : LayoutItem)
        = out1.getD idx default := by
      rw [← hmv _ hmemL]
    unfold compactGo at h
    dsimp only at h
    rw [cloneLayoutItem_eq] at h
    split at h
    · -- static entry: the slot copy is the item itself
      rename_i hstat
      obtain ⟨hlen, hunt, hset⟩ := ih cw _ out2
        (List.pairwise_cons.mp hpw).2 hnodupR
        (fun k hk => hlt k (List.mem_cons_of_mem idx hk))
        (fun k hk => by
          rw [List.length_set]
          exact hlto k (List.mem_cons_of_mem idx hk))
        hcwSub hcwStat
        (by
          intro j hjf hjr
          by_cases hji : j = idx
          · subst hji
            exact hcwStat _ hmemL hstat
          · exact hproc j hjf (fun hj => by
              rcases List.mem_cons.mp hj with he | he
              · exact hji he
              · exact hjr he))
        h
      refine ⟨hlen.trans (by rw [List.length_set]), ?_, ?_⟩
      · intro j hj
        have hj1 : j ≠ idx := fun e => hj (e ▸ List.mem_cons_self idx rest)
        have hj2 : j ∉ rest := fun e => hj (List.mem_cons_of_mem idx e)
        rw [hunt j hj2, getD_set_ne _ _ _ (fun e => hj1 e.symm)]
      · intro j hj
        rcases List.mem_cons.mp hj with he | he
        · subst he
          rw [hunt j hidxR, getD_set_self _ _ _ _ hidxO, hmovEq]
        · exact hset j he
    · -- non-static entry: compactItem is the identity on it
      rename_i hstat
      split at h
      · exact Option.noConfusion h
      · rename_i st heq
        simp only [Bool.not_eq_true] at hstat
        have hblk : (out1.getD idx default).y = 0 ∨ ∃ c ∈ cw,
            c.i ≠ (out1.getD idx default).i ∧
            c.y + c.h = (out1.getD idx default).y ∧
            (out1.getD idx default).x < c.x + c.w ∧
            c.x < (out1.getD idx default).x + (out1.getD idx default).w := by
          rcases hblock _ hmemL hstat with hy0 | ⟨c, hcO, hci, hcy, hx1, hx2⟩
          · exact Or.inl hy0
          · refine Or.inr ⟨c, ?_, hci, hcy, hx1, hx2⟩
            by_cases hcs : c.static = true
            · exact hcwStat c hcO hcs
            · obtain ⟨jc, hjc, hjce⟩ := List.mem_iff_getElem.mp hcO
              have hgc : out1.getD jc default = c := by
                rw [List.getD_eq_getElem _ _ hjc, hjce]
              have hcy2 : c.y < (out1.getD idx default).y := by
                have := hh1 c hcO
                omega
              have hjcn : jc ∉ idx :: rest := by
                intro hjm
                rcases List.mem_cons.mp hjm with he | he
                · subst he
                  rw [hgc] at hcy2
                  omega
                · have hr := (List.pairwise_cons.mp hpw).1 jc he
                  rw [hgc] at hr
                  have h1 : cmpRowCol (out1.getD idx default) c = 1 := by
                    unfold cmpRowCol
                    rw [if_pos (Or.inl hcy2)]
                  rw [h1] at hr
                  omega
              rw [← hgc]
              exact hproc jc (hfull jc hjc) hjcn
        have hfix := compactItem_v_fix fuel fullOrder cw out1 cols ao
          (out1.getD idx default) st hnn hh1 hmemL hcwSub
          (hfree _ hmemL hstat) hblk heq
        subst hfix
        obtain ⟨hlen, hunt, hset⟩ := ih
          (cw ++ [{ out1.getD idx default with moved := false }]) _ out2
          (List.pairwise_cons.mp hpw).2 hnodupR
          (fun k hk => hlt k (List.mem_cons_of_mem idx hk))
          (fun k hk => by
            rw [List.length_set]
            exact hlto k (List.mem_cons_of_mem idx hk))
          (by
            intro c hc
            rcases List.mem_append.mp hc with h1 | h1
            · exact hcwSub c h1
            · rw [List.mem_singleton] at h1
              subst h1
              rw [hmovEq]
              exact hmemL)
          (fun c hc hcs => List.mem_append.mpr (Or.inl (hcwStat c hc hcs)))
          (by
            intro j hjf hjr
            by_cases hji : j = idx
            · subst hji
              exact List.mem_append.mpr (Or.inr
                (List.mem_singleton.mpr hmovEq.symm))
            · exact List.mem_append.mpr (Or.inl (hproc j hjf (fun hj => by
                rcases List.mem_cons.mp hj with he | he
                · exact hji he
                · exact hjr he))))
          h
        refine ⟨hlen.trans (by rw [List.length_set]), ?_, ?_⟩
        · intro j hj
          have hj1 : j ≠ idx := fun e => hj (e ▸ List.mem_cons_self idx rest)
          have hj2 : j ∉ rest := fun e => hj (List.mem_cons_of_mem idx e)
          rw [hunt j hj2, getD_set_ne _ _ _ (fun e => hj1 e.symm)]
        · intro j hj
          rcases List.mem_cons.mp hj with he | he
          · subst he
            rw [hunt j hidxR, getD_set_self _ _ _ _ hidxO, hmovEq]
          · exact hset j he


/-- Recompacting an already-compacted layout (vertical, no overlap) returns
it unchanged. -/
theorem compact_v_fix (fuel : Nat) (out1 : List LayoutItem) (cols : Int)
    (ao : Bool) (out2 : List LayoutItem)
    (hnn : ∀ a ∈ out1, ItemNonneg a)
    (hh1 : ∀ a ∈ out1, 1 ≤ a.h)
    (hmv : ∀ a ∈ out1, a.moved = false)
    (hfree : ∀ l ∈ out1, l.static = false → ∀ c ∈ out1, collides c l = false)
    (hblock : ∀ l ∈ out1, l.static = false → l.y = 0 ∨ ∃ c ∈ out1,
      c.i ≠ l.i ∧ c.y + c.h = l.y ∧ l.x < c.x + c.w ∧ c.x < l.x + l.w)
    (h : compact fuel out1 CompactType.vertical cols ao = some out2) :
    out2 = out1 := by
  unfold compact at h
  dsimp only at h
  split at h
  · exact Option.noConfusion h
  · rename_i outOpt heq
    cases h
    have hordL : ∀ j ∈ sortIndicesFor out1 CompactType.vertical,
        j < out1.length :=
      fun j hj => List.mem_range.mp
        ((sortIndicesFor_perm out1 CompactType.vertical).mem_iff.mp hj)
    obtain ⟨hlen, hunt, hset⟩ := compactGo_v_fix fuel
      (sortIndicesFor out1 CompactType.vertical) cols ao out1 hnn hh1 hmv hfree
      hblock
      (fun j hj =>
        (sortIndicesFor_perm out1 CompactType.vertical).mem_iff.mpr
          (List.mem_range.mpr hj))
      (sortIndicesFor out1 CompactType.vertical) (getStatics out1)
      (List.replicate out1.length none) outOpt
      (sortIndicesFor_sorted_v out1)
      (sortIndicesFor_nodup out1 CompactType.vertical)
      hordL
      (fun k hk => by
        rw [List.length_replicate]
        exact hordL k hk)
      (fun c hc => (List.mem_filter.mp hc).1)
      (fun c hc hcs => List.mem_filter.mpr ⟨hc, hcs⟩)
      (fun j hjf hjr => absurd hjf hjr)
      heq
    have hlenO : outOpt.length = out1.length := by
      rw [hlen, List.length_replicate]
    refine List.ext_getElem (by rw [List.length_map, hlenO]) ?_
    intro j hj1 hj2
    have hjO : j < outOpt.length := by
      rw [List.length_map] at hj1
      exact hj1
    have hjL : j < out1.length := by
      rw [← hlenO]
      exact hjO
    have hslot := hset j
      ((sortIndicesFor_perm out1 CompactType.vertical).mem_iff.mpr
        (List.mem_range.mpr hjL))
    rw [List.getD_eq_getElem _ _ hjO] at hslot
    rw [List.getElem_map, hslot]
    show (out1.getD j default) = out1[j]
    rw [List.getD_eq_getElem _ _ hjL]

/-! ### C4: the `null` compaction mode -/

/-- With compactType `null`, the collision loop stops immediately whenever
`allowOverlap` is set or the item is collision-free. -/
theorem compactItemLoop_null_stay (f : Nat) (order : List Nat)
    (cw : List LayoutItem) (cols : Int) (ao : Bool) (st : CState)
    (hexit : getFirstCollision cw st.cur = none ∨ ao = true) :
    compactItemLoop f order cw CompactType.null cols ao st = some st := by
  unfold compactItemLoop
  rcases hfc : getFirstCollision cw st.cur with _ | c
  · rfl
  · rcases hexit with he | he
    · rw [he] at hfc
      exact Option.noConfusion hfc
    · subst he
      dsimp only
      rw [if_pos ⟨rfl, rfl⟩]

/-- With compactType `null`, `compactItem` on a collision-free (or
overlap-allowed) item only applies the final clamps. -/
theorem compactItem_null_eq (fuel : Nat) (order : List Nat)
    (cw : List LayoutItem) (cols : Int) (ao : Bool) (st : CState)
    (hexit : getFirstCollision cw st.cur = none ∨ ao = true) :
    compactItem fuel order cw CompactType.null cols ao st =
      some { st with cur :=
        { st.cur with y := max st.cur.y 0, x := max st.cur.x 0 } } := by
  have h1 : ¬(CompactType.null = CompactType.vertical) := by decide
  have h2 : ¬(CompactType.null = CompactType.horizontal) := by decide
  have hloop2 : compactItemLoop fuel order cw CompactType.null cols ao
      { st with cur := st.cur } = some st :=
    compactItemLoop_null_stay fuel order cw cols ao st hexit
  unfold compactItem
  dsimp only
  simp only [if_neg h1, if_neg h2]
  rw [hloop2]

theorem nullStep_idem (l : LayoutItem) : nullStep (nullStep l) = nullStep l := by
  unfold nullStep
  by_cases hs : l.static = true
  · rw [if_pos hs]
    rw [if_pos (show ({ l with moved := false } : LayoutItem).static = true
      from hs)]
  · rw [if_neg hs]
    have hns : ¬(({ l with moved := false, y := max l.y 0, x := max l.x 0 } : LayoutItem).static = true) := hs
    rw [if_neg hns]
    show ({ l with moved := false, y := max (max l.y 0) 0, x := max (max l.x 0) 0 } : LayoutItem) = { l with moved := false, y := max l.y 0, x := max l.x 0 }
    rw [max_eq_left (le_max_right l.y 0), max_eq_left (le_max_right l.x 0)]

/-- The `null`-mode overlap-allowed pass, slot by slot: every processed index
receives `nullStep` of its entry and the array is never touched. -/
theorem compactGo_null_go (fuel : Nat) (fullOrder : List Nat) (cols : Int)
    (arr : List LayoutItem) :
    ∀ (order : List Nat) (cw : List LayoutItem)
      (out out2 : List (Option LayoutItem)),
      (∀ k ∈ order, k < out.length) →
      compactGo fuel fullOrder CompactType.null cols true order cw arr out =
        some out2 →
      out2.length = out.length ∧
        (∀ j, j ∉ order → out2.getD j none = out.getD j none) ∧
        (∀ j ∈ order, out2.getD j none = some (nullStep (arr.getD j default))) := by
  intro order
  induction order with
  | nil =>
    intro cw out out2 _ h
    cases h
    exact ⟨rfl, fun j _ => rfl, fun j hj => absurd hj (List.not_mem_nil j)⟩
  | cons idx rest ih =>
    intro cw out out2 hlto h
    have hidxO : idx < out.length := hlto idx (List.mem_cons_self idx rest)
    unfold compactGo at h
    dsimp only at h
    rw [cloneLayoutItem_eq] at h
    split at h
    · -- static entry
      rename_i hstat
      have hns : nullStep (arr.getD idx default) =
          { arr.getD idx default with moved := false } := by
        unfold nullStep
        rw [if_pos hstat]
      obtain ⟨hlen, hunt, hset⟩ := ih cw _ out2
        (fun k hk => by
          rw [List.length_set]
          exact hlto k (List.mem_cons_of_mem idx hk)) h
      refine ⟨hlen.trans (by rw [List.length_set]), ?_, ?_⟩
      · intro j hj
        have hj1 : j ≠ idx := fun e => hj (e ▸ List.mem_cons_self idx rest)
        have hj2 : j ∉ rest := fun e => hj (List.mem_cons_of_mem idx e)
        rw [hunt j hj2, getD_set_ne _ _ _ (fun e => hj1 e.symm)]
      · intro j hj
        by_cases hjr : j ∈ rest
        · exact hset j hjr
        · have hji : j = idx := by
            rcases List.mem_cons.mp hj with he | he
            · exact he
            · exact absurd he hjr
          subst hji
          rw [hunt j hjr, getD_set_self _ _ _ _ hidxO, hns]
    · -- non-static entry
      rename_i hstat
      split at h
      · exact Option.noConfusion h
      · rename_i st heq
        simp only [Bool.not_eq_true] at hstat
        have hst : st = ({ arr := arr, cur := { arr.getD idx default with y := max (arr.getD idx default).y 0, x := max (arr.getD idx default).x 0 } } : CState) :=
          (Option.some.inj ((compactItem_null_eq fuel fullOrder cw cols true
            ⟨arr, arr.getD idx default⟩ (Or.inr rfl)).symm.trans heq)).symm
        subst hst
        have hns : nullStep (arr.getD idx default) =
            { arr.getD idx default with moved := false, y := max (arr.getD idx default).y 0, x := max (arr.getD idx default).x 0 } := by
          unfold nullStep
          rw [if_neg (show ¬((arr.getD idx default).static = true) from by
            rw [hstat]
            exact fun hh => Bool.noConfusion hh)]
        obtain ⟨hlen, hunt, hset⟩ := ih _ _ out2
          (fun k hk => by
            rw [List.length_set]
            exact hlto k (List.mem_cons_of_mem idx hk)) h
        refine ⟨hlen.trans (by rw [List.length_set]), ?_, ?_⟩
        · intro j hj
          have hj1 : j ≠ idx := fun e => hj (e ▸ List.mem_cons_self idx rest)
          have hj2 : j ∉ rest := fun e => hj (List.mem_cons_of_mem idx e)
          rw [hunt j hj2, getD_set_ne _ _ _ (fun e => hj1 e.symm)]
        · intro j hj
          by_cases hjr : j ∈ rest
          · exact hset j hjr
          · have hji : j = idx := by
              rcases List.mem_cons.mp hj with he | he
              · exact he
              · exact absurd he hjr
            subst hji
            rw [hunt j hjr, getD_set_self _ _ _ _ hidxO, hns]

/-- `compact` with compactType `null` and `allowOverlap` true is exactly the
per-item `nullStep` map. -/
theorem compact_null_true_eq (fuel : Nat) (layout : List LayoutItem)
    (cols : Int) (out : List LayoutItem)
    (h : compact fuel layout CompactType.null cols true = some out) :
    out = layout.map nullStep := by
  unfold compact at h
  dsimp only at h
  split at h
  · exact Option.noConfusion h
  · rename_i outOpt heq
    cases h
    obtain ⟨hlen, hunt, hset⟩ := compactGo_null_go fuel
      (sortIndicesFor layout CompactType.null) cols layout
      (sortIndicesFor layout CompactType.null) (getStatics layout)
      (List.replicate layout.length none) outOpt
      (fun k hk => by
        rw [List.length_replicate]
        exact List.mem_range.mp hk)
      heq
    have hlenO : outOpt.length = layout.length := by
      rw [hlen, List.length_replicate]
    refine List.ext_getElem (by rw [List.length_map, List.length_map, hlenO]) ?_
    intro j hj1 hj2
    have hjO : j < outOpt.length := by
      rw [List.length_map] at hj1
      exact hj1
    have hjL : j < layout.length := by
      rw [← hlenO]
      exact hjO
    have hslot := hset j (List.mem_range.mpr hjL)
    rw [List.getD_eq_getElem _ _ hjO] at hslot
    rw [List.getElem_map, hslot, List.getElem_map]
    show nullStep (layout.getD j default) = nullStep layout[j]
    rw [List.getD_eq_getElem _ _ hjL]

/-- Idempotence for `null` mode with `allowOverlap` true (no hypotheses
needed: the pass is a pure per-item map and `nullStep` is idempotent). -/
theorem compact_idem_null_true (f1 f2 : Nat) (layout : List LayoutItem)
    (cols : Int) (out1 out2 : List LayoutItem)
    (h1 : compact f1 layout CompactType.null cols true = some out1)
    (h2 : compact f2 out1 CompactType.null cols true = some out2) :
    out2 = out1 := by
  have e1 : out1 = layout.map nullStep := compact_null_true_eq f1 layout cols
    out1 h1
  have e2 : out2 = out1.map nullStep := compact_null_true_eq f2 out1 cols
    out2 h2
  rw [e2, e1, List.map_map]
  exact List.map_congr_left (fun a _ => nullStep_idem a)


/-- What the second pass needs to know about a `null`-mode no-overlap
output: members are nonnegative with cleared `moved` flags and non-static
members collide with nothing. -/
theorem compact_null_facts (fuel : Nat) (layout : List LayoutItem)
    (cols : Int) (out : List LayoutItem)
    (hpre : ∀ it ∈ layout, ItemNonneg it)
    (h : compact fuel layout CompactType.null cols false = some out) :
    (∀ a ∈ out, ItemNonneg a ∧ a.moved = false) ∧
    (∀ l ∈ out, l.static = false → ∀ c ∈ out, collides c l = false) := by
  unfold compact at h
  dsimp only at h
  split at h
  · exact Option.noConfusion h
  · rename_i outOpt heq
    cases h
    have hao : ¬(CompactType.null = CompactType.null ∧
        (false : Bool) = true) := fun hcnd => Bool.noConfusion hcnd.2
    have hnn0 : ∀ j, ItemNonneg (layout.getD j default) := by
      intro j
      by_cases hj : j < layout.length
      · rw [List.getD_eq_getElem _ _ hj]
        exact hpre _ (List.getElem_mem hj)
      · rw [List.getD_eq_default _ _ (le_of_not_lt hj)]
        exact itemNonneg_default
    have hcw0 : ∀ c ∈ getStatics layout, ItemNonneg c := fun c hc =>
      hpre c (List.mem_filter.mp hc).1
    have hpair0 : List.Pairwise POk (getStatics layout) := by
      refine List.pairwise_of_forall_mem_list ?_
      intro a ha b hb hcase
      rcases hcase with h1 | h1
      · rw [(List.mem_filter.mp ha).2] at h1
        exact Bool.noConfusion h1
      · rw [(List.mem_filter.mp hb).2] at h1
        exact Bool.noConfusion h1
    have hordL : ∀ j ∈ sortIndicesFor layout CompactType.null,
        j < layout.length :=
      fun j hj => List.mem_range.mp
        ((sortIndicesFor_perm layout CompactType.null).mem_iff.mp hj)
    have hordO : ∀ j ∈ sortIndicesFor layout CompactType.null,
        j < (List.replicate layout.length (none : Option LayoutItem)).length := by
      intro j hj
      rw [List.length_replicate]
      exact hordL j hj
    have hout0 : ∀ j o, (List.replicate layout.length
        (none : Option LayoutItem)).getD j none = some o →
        OutOk layout (getStatics layout) o := by
      intro j o ho
      rw [getD_replicate_none] at ho
      exact Option.noConfusion ho
    obtain ⟨cw2p, hp2, hsubP, hnnP, houtP⟩ := compactGo_pairwise fuel
      (sortIndicesFor layout CompactType.null) CompactType.null cols
      false layout hao (sortIndicesFor layout CompactType.null)
      (getStatics layout) layout (List.replicate layout.length none) outOpt
      hcw0 hpair0 hnn0 (fun j => FieldsEq.refl _) (fun j _ => rfl)
      (fun hh => absurd hh (by decide)) hordL hordO hout0 heq
    obtain ⟨hlen, houtU, hinS⟩ := compactGo_frame fuel
      (sortIndicesFor layout CompactType.null) CompactType.null cols
      false layout (sortIndicesFor layout CompactType.null)
      (getStatics layout) layout (List.replicate layout.length none) outOpt
      (fun j => FieldsEq.refl _) hordO heq
    have hslotIdx : ∀ a ∈ outOpt.map (fun o => o.getD default),
        ∃ j, j < outOpt.length ∧ j < layout.length ∧
          outOpt.getD j none = some a := by
      intro a ha
      obtain ⟨j, hj, hja⟩ := List.mem_iff_getElem.mp ha
      simp only [List.getElem_map] at hja
      have hjlen : j < outOpt.length := by simpa using hj
      have hjL : j < layout.length := by
        rw [hlen, List.length_replicate] at hjlen
        exact hjlen
      obtain ⟨o, ho, _⟩ := hinS j
        ((sortIndicesFor_perm layout CompactType.null).mem_iff.mpr
          (List.mem_range.mpr hjL))
      rw [List.getD_eq_getElem _ _ hjlen] at ho
      rw [ho] at hja
      simp only [Option.getD_some] at hja
      subst hja
      refine ⟨j, hjlen, hjL, ?_⟩
      rw [List.getD_eq_getElem _ _ hjlen]
      exact ho
    have hsymm : Symmetric POk := fun x y hxy => pok_symm hxy
    constructor
    · intro a ha
      obtain ⟨j, hjlen, hjL, hslotA⟩ := hslotIdx a ha
      obtain ⟨o, ho, hoc⟩ := hinS j
        ((sortIndicesFor_perm layout CompactType.null).mem_iff.mpr
          (List.mem_range.mpr hjL))
      have hoa : o = a := by
        rw [hslotA] at ho
        exact (Option.some.inj ho).symm
      subst hoa
      refine ⟨?_, hoc.2.2.2⟩
      rcases houtP j o hslotA with ⟨_, li, hliM, _, hae⟩ | ⟨_, hc⟩
      · have hnli := hpre li hliM
        rw [hae]
        exact ⟨hnli.1, hnli.2.1, hnli.2.2.1, hnli.2.2.2⟩
      · exact hnnP o hc
    · intro l hl hlS
      obtain ⟨jl, hjlen, hjL, hslotL⟩ := hslotIdx l hl
      have hlC : l ∈ cw2p := by
        rcases houtP jl l hslotL with ⟨hls, _⟩ | ⟨_, hc⟩
        · rw [hls] at hlS
          exact Bool.noConfusion hlS
        · exact hc
      intro c hc
      by_cases hcl : c = l
      · subst hcl
        exact collides_self c
      · obtain ⟨jc, _, _, hslotC⟩ := hslotIdx c hc
        rcases houtP jc c hslotC with ⟨hcS, lc, hlcM, hlcS, hce⟩ | ⟨hcS, hcC⟩
        · have hlc2 : lc ∈ cw2p :=
            hsubP lc (List.mem_filter.mpr ⟨hlcM, hlcS⟩)
          have hne : lc ≠ l := by
            intro e
            rw [← e, hlcS] at hlS
            exact Bool.noConfusion hlS
          obtain ⟨h1, _⟩ := hp2.forall hsymm hlc2 hlC hne (Or.inr hlS)
          have he : collides c l = collides lc l :=
            collides_of_fields
              ⟨by rw [hce], by rw [hce], by rw [hce], by rw [hce],
                by rw [hce]⟩
              ⟨rfl, rfl, rfl, rfl, rfl⟩
          rw [he]
          exact h1
        · obtain ⟨h1, _⟩ := hp2.forall hsymm hcC hlC hcl (Or.inl hcS)
          exact h1

/-- Second-pass loop for `null` mode without overlap: every slot receives the
item already at its index. -/
theorem compactGo_null_fix (fuel : Nat) (fullOrder : List Nat) (cols : Int)
    (out1 : List LayoutItem)
    (hnn : ∀ a ∈ out1, ItemNonneg a)
    (hmv : ∀ a ∈ out1, a.moved = false)
    (hfree : ∀ l ∈ out1, l.static = false → ∀ c ∈ out1, collides c l = false) :
    ∀ (order : List Nat) (cw : List LayoutItem)
      (out out2 : List (Option LayoutItem)),
      (∀ k ∈ order, k < out1.length) →
      (∀ k ∈ order, k < out.length) →
      (∀ c ∈ cw, c ∈ out1) →
      compactGo fuel fullOrder CompactType.null cols false order cw out1 out =
        some out2 →
      out2.length = out.length ∧
        (∀ j, j ∉ order → out2.getD j none = out.getD j none) ∧
        (∀ j ∈ order, out2.getD j none = some (out1.getD j default)) := by
  intro order
  induction order with
  | nil =>
    intro cw out out2 _ _ _ h
    cases h
    exact ⟨rfl, fun j _ => rfl, fun j hj => absurd hj (List.not_mem_nil j)⟩
  | cons idx rest ih =>
    intro cw out out2 hlt hlto hcwSub h
    have hidxL : idx < out1.length := hlt idx (List.mem_cons_self idx rest)
    have hidxO : idx < out.length := hlto idx (List.mem_cons_self idx rest)
    have hmemL : out1.getD idx default ∈ out1 := by
      rw [List.getD_eq_getElem _ _ hidxL]
      exact List.getElem_mem hidxL
    have hmovEq : ({ out1.getD idx default with moved := false } : LayoutItem)
        = out1.getD idx default := by
      rw [← hmv _ hmemL]
    unfold compactGo at h
    dsimp only at h
    rw [cloneLayoutItem_eq] at h
    split at h
    · -- static entry
      obtain ⟨hlen, hunt, hset⟩ := ih cw _ out2
        (fun k hk => hlt k (List.mem_cons_of_mem idx hk))
        (fun k hk => by
          rw [List.length_set]
          exact hlto k (List.mem_cons_of_mem idx hk))
        hcwSub h
      refine ⟨hlen.trans (by rw [List.length_set]), ?_, ?_⟩
      · intro j hj
        have hj1 : j ≠ idx := fun e => hj (e ▸ List.mem_cons_self idx rest)
        have hj2 : j ∉ rest := fun e => hj (List.mem_cons_of_mem idx e)
        rw [hunt j hj2, getD_set_ne _ _ _ (fun e => hj1 e.symm)]
      · intro j hj
        by_cases hjr : j ∈ rest
        · exact hset j hjr
        · have hji : j = idx := by
            rcases List.mem_cons.mp hj with he | he
            · exact he
            · exact absurd he hjr
          subst hji
          rw [hunt j hjr, getD_set_self _ _ _ _ hidxO, hmovEq]
    · -- non-static entry: compactItem only clamps, and the clamps are
      -- identities on the nonnegative item
      rename_i hstat
      split at h
      · exact Option.noConfusion h
      · rename_i st heq
        simp only [Bool.not_eq_true] at hstat
        have hlN : ItemNonneg (out1.getD idx default) := hnn _ hmemL
        have hfc : getFirstCollision cw (out1.getD idx default) = none :=
          (getFirstCollision_eq_none_iff _ _).mpr
            (fun c hc => hfree _ hmemL hstat c (hcwSub c hc))
        have hclam : ({ out1.getD idx default with y := max (out1.getD idx default).y 0, x := max (out1.getD idx default).x 0 } : LayoutItem) = out1.getD idx default := by
          rw [max_eq_left hlN.2.1, max_eq_left hlN.1]
        have hst : st = ({ arr := out1, cur := out1.getD idx default } : CState) := by
          have he := (Option.some.inj ((compactItem_null_eq fuel fullOrder cw
            cols false ⟨out1, out1.getD idx default⟩ (Or.inl hfc)).symm.trans
              heq)).symm
          rw [he]
          show ({ arr := out1, cur := { out1.getD idx default with y := max (out1.getD idx default).y 0, x := max (out1.getD idx default).x 0 } } : CState) = _
          rw [hclam]
        subst hst
        obtain ⟨hlen, hunt, hset⟩ := ih
          (cw ++ [{ out1.getD idx default with moved := false }]) _ out2
          (fun k hk => hlt k (List.mem_cons_of_mem idx hk))
          (fun k hk => by
            rw [List.length_set]
            exact hlto k (List.mem_cons_of_mem idx hk))
          (by
            intro c hc
            rcases List.mem_append.mp hc with h1 | h1
            · exact hcwSub c h1
            · rw [List.mem_singleton] at h1
              subst h1
              rw [hmovEq]
              exact hmemL)
          h
        refine ⟨hlen.trans (by rw [List.length_set]), ?_, ?_⟩
        · intro j hj
          have hj1 : j ≠ idx := fun e => hj (e ▸ List.mem_cons_self idx rest)
          have hj2 : j ∉ rest := fun e => hj (List.mem_cons_of_mem idx e)
          rw [hunt j hj2, getD_set_ne _ _ _ (fun e => hj1 e.symm)]
        · intro j hj
          by_cases hjr : j ∈ rest
          · exact hset j hjr
          · have hji : j = idx := by
              rcases List.mem_cons.mp hj with he | he
              · exact he
              · exact absurd he hjr
            subst hji
            rw [hunt j hjr, getD_set_self _ _ _ _ hidxO, hmovEq]

/-- Recompacting a `null`-mode no-overlap output returns it unchanged. -/
theorem compact_null_fix (fuel : Nat) (out1 : List LayoutItem) (cols : Int)
    (out2 : List LayoutItem)
    (hnn : ∀ a ∈ out1, ItemNonneg a)
    (hmv : ∀ a ∈ out1, a.moved = false)
    (hfree : ∀ l ∈ out1, l.static = false → ∀ c ∈ out1, collides c l = false)
    (h : compact fuel out1 CompactType.null cols false = some out2) :
    out2 = out1 := by
  unfold compact at h
  dsimp only at h
  split at h
  · exact Option.noConfusion h
  · rename_i outOpt heq
    cases h
    obtain ⟨hlen, hunt, hset⟩ := compactGo_null_fix fuel
      (sortIndicesFor out1 CompactType.null) cols out1 hnn hmv hfree
      (sortIndicesFor out1 CompactType.null) (getStatics out1)
      (List.replicate out1.length none) outOpt
      (fun k hk => List.mem_range.mp hk)
      (fun k hk => by
        rw [List.length_replicate]
        exact List.mem_range.mp hk)
      (fun c hc => (List.mem_filter.mp hc).1)
      heq
    have hlenO : outOpt.length = out1.length := by
      rw [hlen, List.length_replicate]
    refine List.ext_getElem (by rw [List.length_map, hlenO]) ?_
    intro j hj1 hj2
    have hjO : j < outOpt.length := by
      rw [List.length_map] at hj1
      exact hj1
    have hjL : j < out1.length := by
      rw [← hlenO]
      exact hjO
    have hslot := hset j (List.mem_range.mpr hjL)
    rw [List.getD_eq_getElem _ _ hjO] at hslot
    rw [List.getElem_map, hslot]
    show (out1.getD j default) = out1[j]
    rw [List.getD_eq_getElem _ _ hjL]

/-- Idempotence for `null` mode without overlap, on nonnegative layouts. -/
theorem compact_idem_null_false (f1 f2 : Nat) (layout : List LayoutItem)
    (cols : Int) (out1 out2 : List LayoutItem)
    (hpre : ∀ it ∈ layout, ItemNonneg it)
    (h1 : compact f1 layout CompactType.null cols false = some out1)
    (h2 : compact f2 out1 CompactType.null cols false = some out2) :
    out2 = out1 := by
  obtain ⟨hmem, hns⟩ := compact_null_facts f1 layout cols out1 hpre h1
  exact compact_null_fix f2 out1 cols out2
    (fun a ha => (hmem a ha).1) (fun a ha => (hmem a ha).2)
    hns h2


/-! ### C4: the `horizontal` compaction mode -/

/-- `pullLoop` can only return on a failed loop condition. -/
theorem pullLoop_exit :
    ∀ (f : Nat) (cw : List LayoutItem) (a : Axis) (l l2 : LayoutItem),
      pullLoop f cw a l = some l2 →
      ¬(getAxis l2 a > 0 ∧ getFirstCollision cw l2 = none) := by
  intro f
  induction f with
  | zero =>
    intro cw a l l2 h
    unfold pullLoop at h
    split at h
    · exact Option.noConfusion h
    · rename_i hcond
      cases h
      exact hcond
  | succ f ih =>
    intro cw a l l2 h
    unfold pullLoop at h
    split at h
    · exact ih cw a _ l2 h
    · rename_i hcond
      cases h
      exact hcond

/-- The `x`-axis `resolveCompactionCollision` on the clone never changes the
clone's `y`. -/
theorem rcc_cur_y :
    ∀ (f : Nat) (order : List Nat) (st : CState) (m : Int) (st2 : CState),
      resolveCompactionCollision f order Axis.x st RTarget.cur m = some st2 →
      st2.cur.y = st.cur.y := by
  intro f
  cases f with
  | zero =>
    intro order st m st2 h
    exact Option.noConfusion h
  | succ f =>
    intro order st m st2 h
    unfold resolveCompactionCollision at h
    dsimp only at h
    split at h
    · exact Option.noConfusion h
    · rename_i st3 heq
      cases h
      have hdive : ∀ (s3 : CState) (k : Nat) (m2 : Int) (s4 : CState),
          resolveCompactionCollision f order Axis.x s3 (RTarget.idx k) m2 =
            some s4 → s4.cur = s3.cur :=
        fun s3 k m2 s4 hdv =>
          (rcc_preserve f order Axis.x s3 (RTarget.idx k) m2 s4 hdv).2.2 k rfl
      have hscan : ∀ (ps : List Nat) (s s2 : CState),
          resolveCollisionScan
            (fun st2 k m => resolveCompactionCollision f order Axis.x st2
              (RTarget.idx k) m)
            RTarget.cur m Axis.x s ps = some s2 →
          s2.cur = s.cur := by
        intro ps
        induction ps with
        | nil =>
          intro s s2 hh
          cases hh
          rfl
        | cons k rest ihp =>
          intro s s2 hh
          unfold resolveCollisionScan at hh
          dsimp only at hh
          split_ifs at hh with h1 h2 h3
          · exact ihp s s2 hh
          · cases hh
            rfl
          · rcases hdv : resolveCompactionCollision f order Axis.x s
                (RTarget.idx k) (m + getSize (targetGet s RTarget.cur) Axis.x)
                with _ | s3
            · rw [hdv] at hh
              exact Option.noConfusion hh
            · rw [hdv] at hh
              rw [ihp s3 s2 hh, hdive s k _ s3 hdv]
          · exact ihp s s2 hh
      have hcur := hscan _ _ _ heq
      show st3.cur.y = st.cur.y
      rw [hcur]
      rfl

/-- Exit analysis of the horizontal collision loop on a collision-free final
state: either it never ran, or it wrapped down to `x ≤ 0`, or the final
position sits flush right of some `compareWith` item that overlaps it
vertically, within the grid width. -/
theorem compactItemLoop_h_post :
    ∀ (f : Nat) (order : List Nat) (cw : List LayoutItem) (cols : Int)
      (ao : Bool) (st st2 : CState),
      compactItemLoop f order cw CompactType.horizontal cols ao st =
        some st2 →
      getFirstCollision cw st2.cur = none →
      st2 = st ∨ st2.cur.x ≤ 0 ∨
        ∃ c ∈ cw, c.i ≠ st2.cur.i ∧ c.x + c.w = st2.cur.x ∧
          st2.cur.y < c.y + c.h ∧ c.y < st2.cur.y + st2.cur.h ∧
          st2.cur.x + st2.cur.w ≤ cols := by
  intro f
  induction f with
  | zero =>
    intro order cw cols ao st st2 h _
    unfold compactItemLoop at h
    split at h
    · cases h
      exact Or.inl rfl
    · split at h
      · rename_i hcnd
        exact absurd hcnd.1 (by decide)
      · exact Option.noConfusion h
  | succ f ih =>
    intro order cw cols ao st st2 h hfin
    unfold compactItemLoop at h
    split at h
    · cases h
      exact Or.inl rfl
    · rename_i c0 hc0
      split at h
      · rename_i hcnd
        exact absurd hcnd.1 (by decide)
      · dsimp only at h
        split at h
        · exact Option.noConfusion h
        · rename_i st1 heq
          rw [if_pos rfl] at heq
          have hc0f := getFirstCollision_eq_some hc0
          have hcol := (collides_iff _ _).mp hc0f.2
          have hx1 : st1.cur.x = c0.x + c0.w :=
            rcc_sets_target (f + 1) order Axis.x st RTarget.cur _ st1
              trivial heq
          have hy1 : st1.cur.y = st.cur.y := rcc_cur_y (f + 1) order st _ st1 heq
          have hfe1 : FieldsEq st1.cur st.cur :=
            (rcc_preserve (f + 1) order Axis.x st RTarget.cur _ st1 heq).2.1
          split at h
          · -- overflow wrap: x is reset and pulled; on a collision-free
            -- final state the pull can only have stopped at the left edge
            split at h
            · exact Option.noConfusion h
            · rename_i l2 heq2
              rcases ih order cw cols ao _ st2 h hfin with he | hrest
              · subst he
                refine Or.inr (Or.inl ?_)
                have hexit := pullLoop_exit (f + 1) cw Axis.x _ l2 heq2
                exact le_of_not_lt (fun hgt => hexit ⟨hgt, hfin⟩)
              · exact Or.inr hrest
          · rename_i hnw
            have hbound : st1.cur.x + st1.cur.w ≤ cols :=
              le_of_not_lt (fun hgt => hnw ⟨rfl, hgt⟩)
            rcases ih order cw cols ao st1 st2 h hfin with he | hrest
            · subst he
              refine Or.inr (Or.inr ⟨c0, hc0f.1, ?_, ?_, ?_, ?_, ?_⟩)
              · rw [hfe1.1]
                exact hcol.1
              · exact hx1.symm
              · rw [hy1]
                exact hcol.2.2.2.1
              · rw [hy1, hfe1.2.2.1]
                exact hcol.2.2.2.2
              · exact hbound
            · exact Or.inr hrest

/-- Horizontal `compactItem` postcondition: the item lands at `x = 0` or
flush right of a vertically overlapping `compareWith` item, within the grid
width. -/
theorem compactItem_h_post (fuel : Nat) (order : List Nat)
    (cw : List LayoutItem) (cols : Int) (ao : Bool) (st st2 : CState)
    (hcw : ∀ c ∈ cw, ItemNonneg c) (hst : StNonneg st)
    (hw : st.cur.w ≤ cols)
    (h : compactItem fuel order cw CompactType.horizontal cols ao st =
      some st2) :
    st2.cur.x = 0 ∨ ∃ c ∈ cw, c.i ≠ st2.cur.i ∧ c.x + c.w = st2.cur.x ∧
      st2.cur.y < c.y + c.h ∧ c.y < st2.cur.y + st2.cur.h ∧
      st2.cur.x + st2.cur.w ≤ cols := by
  have hao : ¬(CompactType.horizontal = CompactType.null ∧ ao = true) :=
    fun hcnd => CompactType.noConfusion hcnd.1
  obtain ⟨hst2, _⟩ := compactItem_post fuel order cw CompactType.horizontal
    cols ao st st2 hao hcw hst (fun _ => hw) h
  unfold compactItem at h
  dsimp only at h
  split at h
  · exact Option.noConfusion h
  · rename_i l2 heq2
    split at h
    · exact Option.noConfusion h
    · rename_i st3 heq3
      cases h
      have hl2 : ItemNonneg l2 ∧
          ¬(getAxis l2 Axis.x > 0 ∧ getFirstCollision cw l2 = none) := by
        split at heq2
        · rename_i hv
          exact absurd hv (by decide)
        · split at heq2
          · exact pullLoop_nonneg_exit _ _ _ _ _ hst.2 heq2
          · rename_i hh
            exact absurd rfl hh
      have hfe : FieldsEq l2 st.cur := by
        split at heq2
        · rename_i hv
          exact absurd hv (by decide)
        · split at heq2
          · exact (pullLoop_preserve _ _ _ _ _ heq2).trans (FieldsEq.refl _)
          · rename_i hh
            exact absurd rfl hh
      obtain ⟨hst3, hnone3⟩ := compactItemLoop_post fuel order cw
        CompactType.horizontal cols ao { st with cur := l2 } st3 hao hcw
        ⟨hst.1, hl2.1⟩
        (fun _ => by
          show l2.w ≤ cols
          rw [hfe.2.1]
          exact hw) heq3
      rcases compactItemLoop_h_post fuel order cw cols ao { st with cur := l2 }
          st3 heq3 hnone3 with he | hx0 | ⟨c, hcm, hci, hcx, hy1, hy2, hbnd⟩
      · -- the loop never ran: the pull exit forces x = 0
        have hcur3 : st3.cur = l2 := by rw [he]
        have hx0 : l2.x = 0 := by
          have h1 := hl2.2
          rw [← hcur3] at h1
          have h2 : ¬(getAxis st3.cur Axis.x > 0) := fun hgt => h1 ⟨hgt, hnone3⟩
          have h3 : 0 ≤ l2.x := hl2.1.1
          rw [hcur3] at h2
          show l2.x = 0
          have h4 : ¬(l2.x > 0) := h2
          omega
        refine Or.inl ?_
        show max st3.cur.x 0 = 0
        rw [hcur3, hx0]
        decide
      · refine Or.inl ?_
        have hxnn : 0 ≤ st3.cur.x := hst3.2.1
        have he : st3.cur.x = 0 := le_antisymm hx0 hxnn
        show max st3.cur.x 0 = 0
        rw [he]
        decide
      · have hynn : 0 ≤ st3.cur.y := hst3.2.2.1
        have hxnn : 0 ≤ st3.cur.x := hst3.2.1
        refine Or.inr ⟨c, hcm, ?_, ?_, ?_, ?_, ?_⟩
        · show c.i ≠ st3.cur.i
          exact hci
        · show c.x + c.w = max st3.cur.x 0
          rw [max_eq_left hxnn]
          exact hcx
        · show max st3.cur.y 0 < c.y + c.h
          rw [max_eq_left hynn]
          exact hy1
        · show c.y < max st3.cur.y 0 + st3.cur.h
          rw [max_eq_left hynn]
          exact hy2
        · show max st3.cur.x 0 + st3.cur.w ≤ cols
          rw [max_eq_left hxnn]
          exact hbnd


theorem cmpColRow_total (a b : LayoutItem) :
    cmpColRow a b ≤ 0 ∨ cmpColRow b a ≤ 0 := by
  unfold cmpColRow
  split_ifs <;> omega

theorem cmpColRow_trans {a b c : LayoutItem} (h1 : cmpColRow a b ≤ 0)
    (h2 : cmpColRow b c ≤ 0) : cmpColRow a c ≤ 0 := by
  unfold cmpColRow at h1 h2 ⊢
  split_ifs at h1 h2 ⊢ <;> omega

/-- The horizontal index order is sorted by the col/row comparator. -/
theorem sortIndicesFor_sorted_h (layout : List LayoutItem) :
    List.Pairwise
      (fun a b =>
        cmpColRow (layout.getD a default) (layout.getD b default) ≤ 0)
      (sortIndicesFor layout CompactType.horizontal) := by
  haveI : IsTotal Nat (fun a b =>
      cmpColRow (layout.getD a default) (layout.getD b default) ≤ 0) :=
    ⟨fun a b => cmpColRow_total _ _⟩
  haveI : IsTrans Nat (fun a b =>
      cmpColRow (layout.getD a default) (layout.getD b default) ≤ 0) :=
    ⟨fun a b c => cmpColRow_trans⟩
  exact List.sorted_insertionSort _ _

theorem hblocked_mono {cols : Int} {cw cw2 : List LayoutItem} {o : LayoutItem}
    (hsub : ∀ c ∈ cw, c ∈ cw2) (h : HBlocked cols cw o) :
    HBlocked cols cw2 o := by
  rcases h with h | ⟨c, hc, hf⟩
  · exact Or.inl h
  · exact Or.inr ⟨c, hsub c hc, hf⟩

/-- Loop invariant of `compactGo` (horizontal) collecting, for each placed
non-static item, the left-edge-or-blocker fact, and locating every
`compareWith` member geometrically in the final output. -/
theorem compactGo_hblock (fuel : Nat) (fullOrder : List Nat) (cols : Int)
    (ao : Bool) (layout : List LayoutItem)
    (hwL : ∀ it ∈ layout, it.w ≤ cols) :
    ∀ (order : List Nat) (cw arr : List LayoutItem)
      (out out2 : List (Option LayoutItem)),
      (∀ c ∈ cw, ItemNonneg c) →
      (∀ j, ItemNonneg (arr.getD j default)) →
      (∀ j, FieldsEq (arr.getD j default) (layout.getD j default)) →
      (∀ j ∈ order, j < layout.length) →
      (∀ j ∈ order, j < out.length) →
      order.Nodup →
      (∀ c ∈ cw, CwPresent order arr out c) →
      (∀ j, out.getD j none ≠ none → j ∉ order) →
      (∀ j o, out.getD j none = some o → o.static = false →
        o ∈ cw ∧ HBlocked cols cw o) →
      compactGo fuel fullOrder CompactType.horizontal cols ao order cw arr
        out = some out2 →
      ∃ cw2, (∀ c ∈ cw, c ∈ cw2) ∧ (∀ c ∈ cw2, ItemNonneg c) ∧
        (∀ c ∈ cw2, ∃ j o, out2.getD j none = some o ∧ GeomEqS o c) ∧
        (∀ j o, out2.getD j none = some o → o.static = false →
          o ∈ cw2 ∧ HBlocked cols cw2 o) := by
  intro order
  induction order with
  | nil =>
    intro cw arr out out2 hcw _ _ _ _ _ hpres _ hslot h
    cases h
    refine ⟨cw, fun c hc => hc, hcw, ?_, hslot⟩
    intro c hc
    rcases hpres c hc with ⟨j, o, ho, hg⟩ | ⟨j, hj, _⟩
    · exact ⟨j, o, ho, hg⟩
    · exact absurd hj (List.not_mem_nil j)
  | cons idx rest ih =>
    intro cw arr out out2 hcw hnn hfe hltL hlto hnodup hpres hfill hslot h
    have hidxO : idx < out.length := hlto idx (List.mem_cons_self idx rest)
    have hidxL : idx < layout.length := hltL idx (List.mem_cons_self idx rest)
    have hmemL : layout.getD idx default ∈ layout := by
      rw [List.getD_eq_getElem _ _ hidxL]
      exact List.getElem_mem hidxL
    obtain ⟨hidxR, hnodupR⟩ := List.nodup_cons.mp hnodup
    unfold compactGo at h
    dsimp only at h
    rw [cloneLayoutItem_eq] at h
    split at h
    · -- static entry
      rename_i hstat
      refine ih cw arr _ out2 hcw hnn hfe
        (fun j hj => hltL j (List.mem_cons_of_mem idx hj))
        (fun j hj => by
          rw [List.length_set]
          exact hlto j (List.mem_cons_of_mem idx hj))
        hnodupR ?_ ?_ ?_ h
      · intro c hc
        rcases hpres c hc with ⟨j, o, ho, hg⟩ | ⟨j, hj, hg, hcs⟩
        · have hji : j ≠ idx := by
            intro e
            exact (hfill j (by rw [ho]; exact fun hh => Option.noConfusion hh))
              (e ▸ List.mem_cons_self idx rest)
          exact Or.inl ⟨j, o, by
            rw [getD_set_ne _ _ _ (fun e => hji e.symm)]
            exact ho, hg⟩
        · rcases List.mem_cons.mp hj with hji | hji
          · subst hji
            refine Or.inl ⟨j, { arr.getD j default with moved := false },
              by rw [getD_set_self _ _ _ _ hidxO], ?_⟩
            exact hg
          · exact Or.inr ⟨j, hji, hg, hcs⟩
      · intro j hne
        by_cases hji : j = idx
        · subst hji
          exact hidxR
        · rw [getD_set_ne _ _ _ (fun e => hji e.symm)] at hne
          exact fun hj => hfill j hne (List.mem_cons_of_mem idx hj)
      · intro j o ho hos
        by_cases hji : j = idx
        · subst hji
          rw [getD_set_self _ _ _ _ hidxO] at ho
          cases ho
          exact absurd hos (by
            show ¬((arr.getD j default).static = false)
            rw [hstat]
            exact fun hh => Bool.noConfusion hh)
        · rw [getD_set_ne _ _ _ (fun e => hji e.symm)] at ho
          exact hslot j o ho hos
    · -- non-static entry
      rename_i hstat
      split at h
      · exact Option.noConfusion h
      · rename_i st heq
        simp only [Bool.not_eq_true] at hstat
        have hao : ¬(CompactType.horizontal = CompactType.null ∧
            ao = true) := fun hcnd => CompactType.noConfusion hcnd.1
        have hwcur : (arr.getD idx default).w ≤ cols := by
          rw [(hfe idx).2.1]
          exact hwL _ hmemL
        obtain ⟨hstN, hnone⟩ := compactItem_post fuel fullOrder cw
          CompactType.horizontal cols ao ⟨arr, arr.getD idx default⟩ st hao
          hcw ⟨hnn, hnn idx⟩ (fun _ => hwcur) heq
        have hp := compactItem_preserve fuel fullOrder cw
          CompactType.horizontal cols ao ⟨arr, arr.getD idx default⟩ st heq
        have hsfix := compactItem_static_fix fuel fullOrder cw
          CompactType.horizontal cols ao ⟨arr, arr.getD idx default⟩ st heq
        have hhpost := compactItem_h_post fuel fullOrder cw cols ao
          ⟨arr, arr.getD idx default⟩ st hcw ⟨hnn, hnn idx⟩ hwcur heq
        have hlrS : ({ st.cur with moved := false } : LayoutItem).static
            = false := by
          show st.cur.static = false
          rw [hp.2.2.2.2.1]
          exact hstat
        have hlrN : ItemNonneg { st.cur with moved := false } :=
          ⟨hstN.2.1, hstN.2.2.1, hstN.2.2.2.1, hstN.2.2.2.2⟩
        obtain ⟨cw2, hsub2, hnn2, hpres2, hslot2⟩ := ih
          (cw ++ [{ st.cur with moved := false }]) st.arr
          (out.set idx (some { st.cur with moved := false })) out2
          (by
            intro c hc
            rcases List.mem_append.mp hc with h1 | h1
            · exact hcw c h1
            · rw [List.mem_singleton] at h1
              subst h1
              exact hlrN)
          hstN.1
          (fun j => (hp.1.2 j).trans (hfe j))
          (fun j hj => hltL j (List.mem_cons_of_mem idx hj))
          (fun j hj => by
            rw [List.length_set]
            exact hlto j (List.mem_cons_of_mem idx hj))
          hnodupR
          (by
            intro c hc
            rcases List.mem_append.mp hc with h1 | h1
            · rcases hpres c h1 with ⟨j, o, ho, hg⟩ | ⟨j, hj, hg, hcs⟩
              · have hji : j ≠ idx := by
                  intro e
                  exact (hfill j (by
                    rw [ho]
                    exact fun hh => Option.noConfusion hh))
                    (e ▸ List.mem_cons_self idx rest)
                exact Or.inl ⟨j, o, by
                  rw [getD_set_ne _ _ _ (fun e => hji e.symm)]
                  exact ho, hg⟩
              · rcases List.mem_cons.mp hj with hji | hji
                · exfalso
                  subst hji
                  have : (arr.getD j default).static = true := by
                    rw [hg.2.2.2.2.2, hcs]
                  rw [this] at hstat
                  exact Bool.noConfusion hstat
                · refine Or.inr ⟨j, hji, ?_, hcs⟩
                  have hjs : (arr.getD j default).static = true := by
                    rw [hg.2.2.2.2.2, hcs]
                  rw [hsfix j hjs]
                  exact hg
            · rw [List.mem_singleton] at h1
              subst h1
              exact Or.inl ⟨idx, { st.cur with moved := false },
                by rw [getD_set_self _ _ _ _ hidxO],
                ⟨rfl, rfl, rfl, rfl, rfl, rfl⟩⟩)
          (by
            intro j hne
            by_cases hji : j = idx
            · subst hji
              exact hidxR
            · rw [getD_set_ne _ _ _ (fun e => hji e.symm)] at hne
              exact fun hj => hfill j hne (List.mem_cons_of_mem idx hj))
          (by
            intro j o ho hos
            by_cases hji : j = idx
            · subst hji
              rw [getD_set_self _ _ _ _ hidxO] at ho
              cases ho
              refine ⟨List.mem_append.mpr (Or.inr (List.mem_singleton.mpr rfl)),
                ?_⟩
              rcases hhpost with hx0 | ⟨c, hcm, hci, hcx, hy1, hy2, hbnd⟩
              · exact Or.inl hx0
              · exact Or.inr ⟨c, List.mem_append.mpr (Or.inl hcm), hci, hcx,
                  hy1, hy2, hbnd⟩
            · rw [getD_set_ne _ _ _ (fun e => hji e.symm)] at ho
              obtain ⟨hmem, hvb⟩ := hslot j o ho hos
              exact ⟨List.mem_append.mpr (Or.inl hmem),
                hblocked_mono (fun c hc => List.mem_append.mpr (Or.inl hc))
                  hvb⟩)
          h
        exact ⟨cw2, fun c hc => hsub2 c (List.mem_append.mpr (Or.inl hc)),
          hnn2, hpres2, hslot2⟩

/-- Everything the second compaction needs to know about the first one's
output (horizontal): members are nonnegative with positive widths and
cleared `moved` flags, non-static members collide with nothing, and each
non-static member sits in column 0 or flush right of a vertically
overlapping member within the grid width. -/
theorem compact_h_facts (fuel : Nat) (layout : List LayoutItem) (cols : Int)
    (ao : Bool) (out : List LayoutItem)
    (hpre : ∀ it ∈ layout, ItemNonneg it)
    (hw1 : ∀ it ∈ layout, 1 ≤ it.w)
    (hwc : ∀ it ∈ layout, it.w ≤ cols)
    (h : compact fuel layout CompactType.horizontal cols ao = some out) :
    (∀ a ∈ out, ItemNonneg a ∧ 1 ≤ a.w ∧ a.moved = false) ∧
    (∀ l ∈ out, l.static = false →
      (∀ c ∈ out, collides c l = false) ∧
      (l.x = 0 ∨ ∃ c ∈ out, c.i ≠ l.i ∧ c.x + c.w = l.x ∧
        l.y < c.y + c.h ∧ c.y < l.y + l.h ∧ l.x + l.w ≤ cols)) := by
  unfold compact at h
  dsimp only at h
  split at h
  · exact Option.noConfusion h
  · rename_i outOpt heq
    cases h
    have hao : ¬(CompactType.horizontal = CompactType.null ∧
        ao = true) := fun hcnd => CompactType.noConfusion hcnd.1
    have hnn0 : ∀ j, ItemNonneg (layout.getD j default) := by
      intro j
      by_cases hj : j < layout.length
      · rw [List.getD_eq_getElem _ _ hj]
        exact hpre _ (List.getElem_mem hj)
      · rw [List.getD_eq_default _ _ (le_of_not_lt hj)]
        exact itemNonneg_default
    have hcw0 : ∀ c ∈ getStatics layout, ItemNonneg c := fun c hc =>
      hpre c (List.mem_filter.mp hc).1
    have hpair0 : List.Pairwise POk (getStatics layout) := by
      refine List.pairwise_of_forall_mem_list ?_
      intro a ha b hb hcase
      rcases hcase with h1 | h1
      · rw [(List.mem_filter.mp ha).2] at h1
        exact Bool.noConfusion h1
      · rw [(List.mem_filter.mp hb).2] at h1
        exact Bool.noConfusion h1
    have hordL : ∀ j ∈ sortIndicesFor layout CompactType.horizontal,
        j < layout.length :=
      fun j hj => List.mem_range.mp
        ((sortIndicesFor_perm layout CompactType.horizontal).mem_iff.mp hj)
    have hordO : ∀ j ∈ sortIndicesFor layout CompactType.horizontal,
        j < (List.replicate layout.length (none : Option LayoutItem)).length := by
      intro j hj
      rw [List.length_replicate]
      exact hordL j hj
    have hout0 : ∀ j o, (List.replicate layout.length
        (none : Option LayoutItem)).getD j none = some o →
        OutOk layout (getStatics layout) o := by
      intro j o ho
      rw [getD_replicate_none] at ho
      exact Option.noConfusion ho
    obtain ⟨cw2p, hp2, hsubP, _, houtP⟩ := compactGo_pairwise fuel
      (sortIndicesFor layout CompactType.horizontal) CompactType.horizontal
      cols ao layout hao (sortIndicesFor layout CompactType.horizontal)
      (getStatics layout) layout (List.replicate layout.length none) outOpt
      hcw0 hpair0 hnn0 (fun j => FieldsEq.refl _) (fun j _ => rfl)
      (fun _ => hwc) hordL hordO hout0 heq
    obtain ⟨cw2v, hsubV, hnnV, hpresV, hslotV⟩ := compactGo_hblock fuel
      (sortIndicesFor layout CompactType.horizontal) cols ao layout hwc
      (sortIndicesFor layout CompactType.horizontal) (getStatics layout) layout
      (List.replicate layout.length none) outOpt hcw0 hnn0
      (fun j => FieldsEq.refl _) hordL hordO
      (sortIndicesFor_nodup layout CompactType.horizontal)
      (by
        intro c hc
        obtain ⟨hcm, hcs⟩ := List.mem_filter.mp hc
        obtain ⟨j, hj, hjc⟩ := List.mem_iff_getElem.mp hcm
        refine Or.inr ⟨j,
          (sortIndicesFor_perm layout CompactType.horizontal).mem_iff.mpr
            (List.mem_range.mpr hj), ?_, hcs⟩
        rw [List.getD_eq_getElem _ _ hj, hjc]
        exact ⟨rfl, rfl, rfl, rfl, rfl, rfl⟩)
      (fun j hne => absurd (getD_replicate_none _ _) hne)
      (by
        intro j o ho
        rw [getD_replicate_none] at ho
        exact absurd ho (fun hh => Option.noConfusion hh))
      heq
    obtain ⟨hlen, houtU, hinS⟩ := compactGo_frame fuel
      (sortIndicesFor layout CompactType.horizontal) CompactType.horizontal
      cols ao layout (sortIndicesFor layout CompactType.horizontal)
      (getStatics layout) layout (List.replicate layout.length none) outOpt
      (fun j => FieldsEq.refl _) hordO heq
    have hslotIdx : ∀ a ∈ outOpt.map (fun o => o.getD default),
        ∃ j, j < outOpt.length ∧ j < layout.length ∧
          outOpt.getD j none = some a := by
      intro a ha
      obtain ⟨j, hj, hja⟩ := List.mem_iff_getElem.mp ha
      simp only [List.getElem_map] at hja
      have hjlen : j < outOpt.length := by simpa using hj
      have hjL : j < layout.length := by
        rw [hlen, List.length_replicate] at hjlen
        exact hjlen
      obtain ⟨o, ho, _⟩ := hinS j
        ((sortIndicesFor_perm layout CompactType.horizontal).mem_iff.mpr
          (List.mem_range.mpr hjL))
      rw [List.getD_eq_getElem _ _ hjlen] at ho
      rw [ho] at hja
      simp only [Option.getD_some] at hja
      subst hja
      refine ⟨j, hjlen, hjL, ?_⟩
      rw [List.getD_eq_getElem _ _ hjlen]
      exact ho
    have hslotMem : ∀ j o, outOpt.getD j none = some o →
        o ∈ outOpt.map (fun oo => oo.getD default) := by
      intro j o ho
      have hj : j < outOpt.length := by
        by_contra hno
        rw [List.getD_eq_default _ _ (le_of_not_lt hno)] at ho
        exact Option.noConfusion ho
      have helem : outOpt[j] = some o := by
        rw [← List.getD_eq_getElem _ _ hj]
        exact ho
      refine List.mem_iff_getElem.mpr ⟨j, by simpa using hj, ?_⟩
      rw [List.getElem_map, helem]
      rfl
    have hsymm : Symmetric POk := fun x y hxy => pok_symm hxy
    constructor
    · intro a ha
      obtain ⟨j, hjlen, hjL, hslotA⟩ := hslotIdx a ha
      obtain ⟨o, ho, hoc⟩ := hinS j
        ((sortIndicesFor_perm layout CompactType.horizontal).mem_iff.mpr
          (List.mem_range.mpr hjL))
      have hoa : o = a := by
        rw [hslotA] at ho
        exact (Option.some.inj ho).symm
      subst hoa
      have hmemLj : layout.getD j default ∈ layout := by
        rw [List.getD_eq_getElem _ _ hjL]
        exact List.getElem_mem hjL
      refine ⟨?_, ?_, hoc.2.2.2⟩
      · rcases houtP j o hslotA with ⟨_, li, hliM, _, hae⟩ | ⟨hoS, _⟩
        · have hnli := hpre li hliM
          rw [hae]
          exact ⟨hnli.1, hnli.2.1, hnli.2.2.1, hnli.2.2.2⟩
        · exact hnnV o (hslotV j o hslotA hoS).1
      · rw [hoc.2.1]
        exact hw1 _ hmemLj
    · intro l hl hlS
      obtain ⟨jl, hjlen, hjL, hslotL⟩ := hslotIdx l hl
      have hlC : l ∈ cw2p := by
        rcases houtP jl l hslotL with ⟨hls, _⟩ | ⟨_, hc⟩
        · rw [hls] at hlS
          exact Bool.noConfusion hlS
        · exact hc
      constructor
      · intro c hc
        by_cases hcl : c = l
        · subst hcl
          exact collides_self c
        · obtain ⟨jc, _, _, hslotC⟩ := hslotIdx c hc
          rcases houtP jc c hslotC with ⟨hcS, lc, hlcM, hlcS, hce⟩ | ⟨hcS, hcC⟩
          · have hlc2 : lc ∈ cw2p :=
              hsubP lc (List.mem_filter.mpr ⟨hlcM, hlcS⟩)
            have hne : lc ≠ l := by
              intro e
              rw [← e, hlcS] at hlS
              exact Bool.noConfusion hlS
            obtain ⟨h1, _⟩ := hp2.forall hsymm hlc2 hlC hne (Or.inr hlS)
            have he : collides c l = collides lc l :=
              collides_of_fields
                ⟨by rw [hce], by rw [hce], by rw [hce], by rw [hce],
                  by rw [hce]⟩
                ⟨rfl, rfl, rfl, rfl, rfl⟩
            rw [he]
            exact h1
          · obtain ⟨h1, _⟩ := hp2.forall hsymm hcC hlC hcl (Or.inl hcS)
            exact h1
      · obtain ⟨_, hvb⟩ := hslotV jl l hslotL hlS
        rcases hvb with hx0 | ⟨c, hcV, hci, hcx, hy1, hy2, hbnd⟩
        · exact Or.inl hx0
        · obtain ⟨j2, o2, ho2, hg⟩ := hpresV c hcV
          refine Or.inr ⟨o2, hslotMem j2 o2 ho2, ?_, ?_, ?_, ?_, hbnd⟩
          · rw [hg.1]
            exact hci
          · rw [hg.2.1, hg.2.2.2.1]
            exact hcx
          · rw [hg.2.2.1, hg.2.2.2.2.1]
            exact hy1
          · rw [hg.2.2.1]
            exact hy2


/-- Second-pass fixpoint: a non-static item of an already-compacted
horizontal layout is returned unchanged by a further horizontal
`compactItem`, and the array is not touched. -/
theorem compactItem_h_fix (fuel : Nat) (order2 : List Nat)
    (cw out1 : List LayoutItem) (cols : Int) (ao : Bool) (l : LayoutItem)
    (st2 : CState)
    (hnn : ∀ a ∈ out1, ItemNonneg a)
    (hw1 : ∀ a ∈ out1, 1 ≤ a.w)
    (hl : l ∈ out1)
    (hcwSub : ∀ c ∈ cw, c ∈ out1)
    (hfree : ∀ c ∈ out1, collides c l = false)
    (hblock : l.x = 0 ∨ ∃ c ∈ cw, c.i ≠ l.i ∧ c.x + c.w = l.x ∧
      l.y < c.y + c.h ∧ c.y < l.y + l.h ∧ l.x + l.w ≤ cols)
    (h : compactItem fuel order2 cw CompactType.horizontal cols ao
      ⟨out1, l⟩ = some st2) :
    st2 = ⟨out1, l⟩ := by
  have hlN : ItemNonneg l := hnn l hl
  have hlw1 : 1 ≤ l.w := hw1 l hl
  have hfcl : getFirstCollision cw l = none :=
    (getFirstCollision_eq_none_iff cw l).mpr
      (fun c hc => hfree c (hcwSub c hc))
  unfold compactItem at h
  dsimp only at h
  split at h
  · exact Option.noConfusion h
  · rename_i l2 heq2
    split at h
    · exact Option.noConfusion h
    · rename_i st3 heq3
      cases h
      split at heq2
      · rename_i hv
        exact absurd hv (by decide)
      · split at heq2
        · -- the horizontal branch (the only reachable one)
          have hst3 : st3 = (⟨out1, l⟩ : CState) := by
            rcases hblock with hx0 | ⟨c, hcm, hci, hcx, hy1, hy2, hbnd⟩
            · -- at the left edge: the pull does not move, the loop never runs
              have hl2 : l2 = l :=
                pullLoop_stay fuel cw Axis.x l l2
                  (fun hand => by
                    have h1 : l.x > 0 := hand.1
                    omega) heq2
              rw [hl2] at heq3
              exact (Option.some.inj
                ((compactItemLoop_none_eq fuel order2 cw
                  CompactType.horizontal cols ao ⟨out1, l⟩
                    hfcl).symm.trans heq3)).symm
            · -- blocked: the pull dips one column, the loop pushes straight
              -- back and the wrap check fails inside the grid width
              have hcN : ItemNonneg c := hnn c (hcwSub c hcm)
              have hcw1 : 1 ≤ c.w := hw1 c (hcwSub c hcm)
              have hxgt : getAxis l Axis.x > 0 := by
                show l.x > 0
                have := hcN.1
                omega
              have hcol1 : collides c (setAxis l Axis.x (getAxis l Axis.x - 1))
                  = true := by
                refine (collides_iff _ _).mpr ⟨hci, ?_, ?_, ?_, ?_⟩
                · show l.x - 1 < c.x + c.w
                  omega
                · show c.x < l.x - 1 + l.w
                  omega
                · show l.y < c.y + c.h
                  exact hy1
                · show c.y < l.y + l.h
                  exact hy2
              have hstop : getFirstCollision cw
                  (setAxis l Axis.x (getAxis l Axis.x - 1)) ≠ none := by
                intro hnone
                have hf := (getFirstCollision_eq_none_iff _ _).mp hnone c hcm
                rw [hcol1] at hf
                exact Bool.noConfusion hf
              have hl2 : l2 = setAxis l Axis.x (getAxis l Axis.x - 1) :=
                pullLoop_one_step fuel cw Axis.x l l2 hxgt hfcl hstop heq2
              subst hl2
              rcases hfc2 : getFirstCollision cw
                  (setAxis l Axis.x (getAxis l Axis.x - 1)) with _ | c2
              · exact absurd hfc2 hstop
              · obtain ⟨hc2m, hc2col⟩ := getFirstCollision_eq_some hfc2
                have hc2out : c2 ∈ out1 := hcwSub c2 hc2m
                have hc2free : collides c2 l = false := hfree c2 hc2out
                have hc2fields := (collides_iff _ _).mp hc2col
                have hc2i : c2.i ≠ l.i := hc2fields.1
                have hc2x1 : l.x - 1 < c2.x + c2.w := hc2fields.2.1
                have hc2x2 : c2.x < l.x - 1 + l.w := hc2fields.2.2.1
                have hc2y1 : l.y < c2.y + c2.h := hc2fields.2.2.2.1
                have hc2y2 : c2.y < l.y + l.h := hc2fields.2.2.2.2
                have hm : c2.x + c2.w = l.x := by
                  rcases (collides_eq_false_iff _ _).mp hc2free with
                    he | he | he | he | he
                  · exact absurd he hc2i
                  · omega
                  · omega
                  · omega
                  · omega
                have hbump : setAxis (setAxis l Axis.x (getAxis l Axis.x - 1))
                    Axis.x (getAxis (setAxis l Axis.x (getAxis l Axis.x - 1))
                      Axis.x + 1) = l := by
                  show ({ l with x := l.x - 1 + 1 } : LayoutItem) = l
                  have he : l.x - 1 + 1 = l.x := by omega
                  rw [he]
                have hnod : ∀ k, collides
                    (setAxis (setAxis l Axis.x (getAxis l Axis.x - 1)) Axis.x
                      (getAxis (setAxis l Axis.x (getAxis l Axis.x - 1))
                        Axis.x + 1))
                    (((⟨out1, setAxis l Axis.x (getAxis l Axis.x - 1)⟩ :
                      CState).arr).getD k default) = false := by
                  intro k
                  rw [hbump]
                  show collides l (out1.getD k default) = false
                  by_cases hk : k < out1.length
                  · rw [List.getD_eq_getElem _ _ hk, collides_symm]
                    exact hfree _ (List.getElem_mem hk)
                  · rw [List.getD_eq_default _ _ (le_of_not_lt hk)]
                    exact collides_default_right hlN.1
                cases fuel with
                | zero =>
                  have hv0 : compactItemLoop 0 order2 cw
                      CompactType.horizontal cols ao
                      ⟨out1, setAxis l Axis.x (getAxis l Axis.x - 1)⟩
                      = none := by
                    unfold compactItemLoop
                    rw [hfc2]
                    dsimp only
                    rw [if_neg (fun hcnd => CompactType.noConfusion hcnd.1)]
                  exact Option.noConfusion (hv0.symm.trans heq3)
                | succ g =>
                  have hres : setAxis (setAxis (setAxis l Axis.x
                      (getAxis l Axis.x - 1)) Axis.x
                        (getAxis (setAxis l Axis.x (getAxis l Axis.x - 1))
                          Axis.x + 1)) Axis.x (c2.x + c2.w) = l := by
                    rw [hbump, hm]
                    rfl
                  have hrcc : resolveCompactionCollision (g + 1) order2 Axis.x
                      ⟨out1, setAxis l Axis.x (getAxis l Axis.x - 1)⟩
                      RTarget.cur (c2.x + c2.w) =
                        some (⟨out1, l⟩ : CState) := by
                    rw [rcc_cur_no_dive g order2 Axis.x
                      ⟨out1, setAxis l Axis.x (getAxis l Axis.x - 1)⟩
                      (c2.x + c2.w) hnod]
                    show some ({ (⟨out1, setAxis l Axis.x
                      (getAxis l Axis.x - 1)⟩ :
                      CState) with cur := setAxis (setAxis (setAxis l Axis.x
                        (getAxis l Axis.x - 1)) Axis.x
                          (getAxis (setAxis l Axis.x (getAxis l Axis.x - 1))
                            Axis.x + 1)) Axis.x (c2.x + c2.w) }) =
                      some (⟨out1, l⟩ : CState)
                    rw [hres]
                  have hv1 : compactItemLoop (g + 1) order2 cw
                      CompactType.horizontal cols ao
                      ⟨out1, setAxis l Axis.x (getAxis l Axis.x - 1)⟩ =
                      some (⟨out1, l⟩ : CState) := by
                    unfold compactItemLoop
                    rw [hfc2]
                    dsimp only
                    rw [if_neg (fun hcnd => CompactType.noConfusion hcnd.1)]
                    rw [if_pos rfl, hrcc]
                    dsimp only
                    rw [if_neg (fun hcnd =>
                      absurd hcnd.2 (not_lt.mpr hbnd))]
                    exact compactItemLoop_none_eq g order2 cw
                      CompactType.horizontal cols ao ⟨out1, l⟩ hfcl
                  exact (Option.some.inj (hv1.symm.trans heq3)).symm
          subst hst3
          show ({ (⟨out1, l⟩ : CState) with cur :=
            { (⟨out1, l⟩ : CState).cur with
              y := max (⟨out1, l⟩ : CState).cur.y 0,
              x := max (⟨out1, l⟩ : CState).cur.x 0 } } : CState) =
            (⟨out1, l⟩ : CState)
          have hy : max l.y 0 = l.y := max_eq_left hlN.2.1
          have hx : max l.x 0 = l.x := max_eq_left hlN.1
          show ({ arr := out1, cur := { l with y := max l.y 0, x := max l.x 0 } }
            : CState) = (⟨out1, l⟩ : CState)
          rw [hy, hx]
        · rename_i hh
          exact absurd rfl hh

/-- Second-pass loop (horizontal): every slot gets back exactly the
already-compacted item at its index. -/
theorem compactGo_h_fix (fuel : Nat) (fullOrder : List Nat) (cols : Int)
    (ao : Bool) (out1 : List LayoutItem)
    (hnn : ∀ a ∈ out1, ItemNonneg a)
    (hw1 : ∀ a ∈ out1, 1 ≤ a.w)
    (hmv : ∀ a ∈ out1, a.moved = false)
    (hfree : ∀ l ∈ out1, l.static = false → ∀ c ∈ out1, collides c l = false)
    (hblock : ∀ l ∈ out1, l.static = false → l.x = 0 ∨ ∃ c ∈ out1,
      c.i ≠ l.i ∧ c.x + c.w = l.x ∧ l.y < c.y + c.h ∧ c.y < l.y + l.h ∧
      l.x + l.w ≤ cols)
    (hfull : ∀ j, j < out1.length → j ∈ fullOrder) :
    ∀ (order : List Nat) (cw : List LayoutItem)
      (out out2 : List (Option LayoutItem)),
      List.Pairwise (fun a b => cmpColRow (out1.getD a default)
        (out1.getD b default) ≤ 0) order →
      order.Nodup →
      (∀ k ∈ order, k < out1.length) →
      (∀ k ∈ order, k < out.length) →
      (∀ c ∈ cw, c ∈ out1) →
      (∀ c ∈ out1, c.static = true → c ∈ cw) →
      (∀ j, j ∈ fullOrder → j ∉ order → out1.getD j default ∈ cw) →
      compactGo fuel fullOrder CompactType.horizontal cols ao order cw out1
        out = some out2 →
      out2.length = out.length ∧
        (∀ j, j ∉ order → out2.getD j none = out.getD j none) ∧
        (∀ j ∈ order, out2.getD j none = some (out1.getD j default)) := by
  intro order
  induction order with
  | nil =>
    intro cw out out2 _ _ _ _ _ _ _ h
    cases h
    exact ⟨rfl, fun j _ => rfl, fun j hj => absurd hj (List.not_mem_nil j)⟩
  | cons idx rest ih =>
    intro cw out out2 hpw hnodup hlt hlto hcwSub hcwStat hproc h
    obtain ⟨hidxR, hnodupR⟩ := List.nodup_cons.mp hnodup
    have hidxL : idx < out1.length := hlt idx (List.mem_cons_self idx rest)
    have hidxO : idx < out.length := hlto idx (List.mem_cons_self idx rest)
    have hmemL : out1.getD idx default ∈ out1 := by
      rw [List.getD_eq_getElem _ _ hidxL]
      exact List.getElem_mem hidxL
    have hmovEq : ({ out1.getD idx default with moved := false } : LayoutItem)
        = out1.getD idx default := by
      rw [← hmv _ hmemL]
    unfold compactGo at h
    dsimp only at h
    rw [cloneLayoutItem_eq] at h
    split at h
    · -- static entry: the slot copy is the item itself
      rename_i hstat
      obtain ⟨hlen, hunt, hset⟩ := ih cw _ out2
        (List.pairwise_cons.mp hpw).2 hnodupR
        (fun k hk => hlt k (List.mem_cons_of_mem idx hk))
        (fun k hk => by
          rw [List.length_set]
          exact hlto k (List.mem_cons_of_mem idx hk))
        hcwSub hcwStat
        (by
          intro j hjf hjr
          by_cases hji : j = idx
          · subst hji
            exact hcwStat _ hmemL hstat
          · exact hproc j hjf (fun hj => by
              rcases List.mem_cons.mp hj with he | he
              · exact hji he
              · exact hjr he))
        h
      refine ⟨hlen.trans (by rw [List.length_set]), ?_, ?_⟩
      · intro j hj
        have hj1 : j ≠ idx := fun e => hj (e ▸ List.mem_cons_self idx rest)
        have hj2 : j ∉ rest := fun e => hj (List.mem_cons_of_mem idx e)
        rw [hunt j hj2, getD_set_ne _ _ _ (fun e => hj1 e.symm)]
      · intro j hj
        rcases List.mem_cons.mp hj with he | he
        · subst he
          rw [hunt j hidxR, getD_set_self _ _ _ _ hidxO, hmovEq]
        · exact hset j he
    · -- non-static entry: compactItem is the identity on it
      rename_i hstat
      split at h
      · exact Option.noConfusion h
      · rename_i st heq
        simp only [Bool.not_eq_true] at hstat
        have hblk : (out1.getD idx default).x = 0 ∨ ∃ c ∈ cw,
            c.i ≠ (out1.getD idx default).i ∧
            c.x + c.w = (out1.getD idx default).x ∧
            (out1.getD idx default).y < c.y + c.h ∧
            c.y < (out1.getD idx default).y + (out1.getD idx default).h ∧
            (out1.getD idx default).x + (out1.getD idx default).w ≤ cols := by
          rcases hblock _ hmemL hstat with
            hx0 | ⟨c, hcO, hci, hcx, hy1, hy2, hbnd⟩
          · exact Or.inl hx0
          · refine Or.inr ⟨c, ?_, hci, hcx, hy1, hy2, hbnd⟩
            by_cases hcs : c.static = true
            · exact hcwStat c hcO hcs
            · obtain ⟨jc, hjc, hjce⟩ := List.mem_iff_getElem.mp hcO
              have hgc : out1.getD jc default = c := by
                rw [List.getD_eq_getElem _ _ hjc, hjce]
              have hcx2 : c.x < (out1.getD idx default).x := by
                have := hw1 c hcO
                omega
              have hjcn : jc ∉ idx :: rest := by
                intro hjm
                rcases List.mem_cons.mp hjm with he | he
                · subst he
                  rw [hgc] at hcx2
                  omega
                · have hr := (List.pairwise_cons.mp hpw).1 jc he
                  rw [hgc] at hr
                  have h1 : cmpColRow (out1.getD idx default) c = 1 := by
                    unfold cmpColRow
                    rw [if_pos (Or.inl hcx2)]
                  rw [h1] at hr
                  omega
              rw [← hgc]
              exact hproc jc (hfull jc hjc) hjcn
        have hfix := compactItem_h_fix fuel fullOrder cw out1 cols ao
          (out1.getD idx default) st hnn hw1 hmemL hcwSub
          (hfree _ hmemL hstat) hblk heq
        subst hfix
        obtain ⟨hlen, hunt, hset⟩ := ih
          (cw ++ [{ out1.getD idx default with moved := false }]) _ out2
          (List.pairwise_cons.mp hpw).2 hnodupR
          (fun k hk => hlt k (List.mem_cons_of_mem idx hk))
          (fun k hk => by
            rw [List.length_set]
            exact hlto k (List.mem_cons_of_mem idx hk))
          (by
            intro c hc
            rcases List.mem_append.mp hc with h1 | h1
            · exact hcwSub c h1
            · rw [List.mem_singleton] at h1
              subst h1
              rw [hmovEq]
              exact hmemL)
          (fun c hc hcs => List.mem_append.mpr (Or.inl (hcwStat c hc hcs)))
          (by
            intro j hjf hjr
            by_cases hji : j = idx
            · subst hji
              exact List.mem_append.mpr (Or.inr
                (List.mem_singleton.mpr hmovEq.symm))
            · exact List.mem_append.mpr (Or.inl (hproc j hjf (fun hj => by
                rcases List.mem_cons.mp hj with he | he
                · exact hji he
                · exact hjr he))))
          h
        refine ⟨hlen.trans (by rw [List.length_set]), ?_, ?_⟩
        · intro j hj
          have hj1 : j ≠ idx := fun e => hj (e ▸ List.mem_cons_self idx rest)
          have hj2 : j ∉ rest := fun e => hj (List.mem_cons_of_mem idx e)
          rw [hunt j hj2, getD_set_ne _ _ _ (fun e => hj1 e.symm)]
        · intro j hj
          rcases List.mem_cons.mp hj with he | he
          · subst he
            rw [hunt j hidxR, getD_set_self _ _ _ _ hidxO, hmovEq]
          · exact hset j he

/-- Recompacting an already-compacted horizontal layout returns it
unchanged. -/
theorem compact_h_fix (fuel : Nat) (out1 : List LayoutItem) (cols : Int)
    (ao : Bool) (out2 : List LayoutItem)
    (hnn : ∀ a ∈ out1, ItemNonneg a)
    (hw1 : ∀ a ∈ out1, 1 ≤ a.w)
    (hmv : ∀ a ∈ out1, a.moved = false)
    (hfree : ∀ l ∈ out1, l.static = false → ∀ c ∈ out1, collides c l = false)
    (hblock : ∀ l ∈ out1, l.static = false → l.x = 0 ∨ ∃ c ∈ out1,
      c.i ≠ l.i ∧ c.x + c.w = l.x ∧ l.y < c.y + c.h ∧ c.y < l.y + l.h ∧
      l.x + l.w ≤ cols)
    (h : compact fuel out1 CompactType.horizontal cols ao = some out2) :
    out2 = out1 := by
  unfold compact at h
  dsimp only at h
  split at h
  · exact Option.noConfusion h
  · rename_i outOpt heq
    cases h
    have hordL : ∀ j ∈ sortIndicesFor out1 CompactType.horizontal,
        j < out1.length :=
      fun j hj => List.mem_range.mp
        ((sortIndicesFor_perm out1 CompactType.horizontal).mem_iff.mp hj)
    obtain ⟨hlen, hunt, hset⟩ := compactGo_h_fix fuel
      (sortIndicesFor out1 CompactType.horizontal) cols ao out1 hnn hw1 hmv
      hfree hblock
      (fun j hj =>
        (sortIndicesFor_perm out1 CompactType.horizontal).mem_iff.mpr
          (List.mem_range.mpr hj))
      (sortIndicesFor out1 CompactType.horizontal) (getStatics out1)
      (List.replicate out1.length none) outOpt
      (sortIndicesFor_sorted_h out1)
      (sortIndicesFor_nodup out1 CompactType.horizontal)
      hordL
      (fun k hk => by
        rw [List.length_replicate]
        exact hordL k hk)
      (fun c hc => (List.mem_filter.mp hc).1)
      (fun c hc hcs => List.mem_filter.mpr ⟨hc, hcs⟩)
      (fun j hjf hjr => absurd hjf hjr)
      heq
    have hlenO : outOpt.length = out1.length := by
      rw [hlen, List.length_replicate]
    refine List.ext_getElem (by rw [List.length_map, hlenO]) ?_
    intro j hj1 hj2
    have hjO : j < outOpt.length := by
      rw [List.length_map] at hj1
      exact hj1
    have hjL : j < out1.length := by
      rw [← hlenO]
      exact hjO
    have hslot := hset j
      ((sortIndicesFor_perm out1 CompactType.horizontal).mem_iff.mpr
        (List.mem_range.mpr hjL))
    rw [List.getD_eq_getElem _ _ hjO] at hslot
    rw [List.getElem_map, hslot]
    show (out1.getD j default) = out1[j]
    rw [List.getD_eq_getElem _ _ hjL]


/-- C4 (amended): `compact` is idempotent -- for every compaction mode and
both `allowOverlap` settings -- on layouts whose items have nonnegative
coordinates and sizes of at least one grid unit (and, for horizontal
compaction, widths at most the column count): recompacting the first result
returns it exactly, so every id keeps its `(x, y, w, h)`.  The input
restriction is necessary: see `compact_idempotent_counterexample`, where a
negative input `y` makes the second pass move an item again. -/
theorem compact_idempotent (f1 f2 : Nat) (layout : List LayoutItem)
    (ct : CompactType) (cols : Int) (ao : Bool) (out1 out2 : List LayoutItem)
    (hpre : ∀ it ∈ layout, 0 ≤ it.x ∧ 0 ≤ it.y ∧ 1 ≤ it.w ∧ 1 ≤ it.h)
    (hw : ct = CompactType.horizontal → ∀ it ∈ layout, it.w ≤ cols)
    (h1 : compact f1 layout ct cols ao = some out1)
    (h2 : compact f2 out1 ct cols ao = some out2) : out2 = out1 := by
  have hnn : ∀ it ∈ layout, ItemNonneg it := fun it hm =>
    ⟨(hpre it hm).1, (hpre it hm).2.1, by have := (hpre it hm).2.2.1; omega,
      by have := (hpre it hm).2.2.2; omega⟩
  have hh1 : ∀ it ∈ layout, 1 ≤ it.h := fun it hm => (hpre it hm).2.2.2
  have hw1 : ∀ it ∈ layout, 1 ≤ it.w := fun it hm => (hpre it hm).2.2.1
  cases ct with
  | horizontal =>
    obtain ⟨hmem, hns⟩ := compact_h_facts f1 layout cols ao out1 hnn hw1
      (hw rfl) h1
    exact compact_h_fix f2 out1 cols ao out2
      (fun a ha => (hmem a ha).1) (fun a ha => (hmem a ha).2.1)
      (fun a ha => (hmem a ha).2.2)
      (fun l hl hls => (hns l hl hls).1)
      (fun l hl hls => (hns l hl hls).2) h2
  | vertical =>
    obtain ⟨hmem, hns⟩ := compact_v_facts f1 layout cols ao out1 hnn hh1 h1
    exact compact_v_fix f2 out1 cols ao out2
      (fun a ha => (hmem a ha).1) (fun a ha => (hmem a ha).2.1)
      (fun a ha => (hmem a ha).2.2)
      (fun l hl hls => (hns l hl hls).1)
      (fun l hl hls => (hns l hl hls).2) h2
  | null =>
    cases ao with
    | true => exact compact_idem_null_true f1 f2 layout cols out1 out2 h1 h2
    | false =>
      exact compact_idem_null_false f1 f2 layout cols out1 out2 hnn h1 h2

/-- C4 counterexample to the unconditional claim: compacting `[cexS, cexN]`
(one static item, one item starting at `y = -1`) moves the non-static item to
`y = 0`, where it overlaps the static one; compacting that output again moves
it on to `y = 1`, so the second pass changes its coordinates. -/
theorem compact_idempotent_counterexample :
    compact 50 [cexS, cexN] CompactType.vertical 12 false =
        some [cexS, { cexN with y := 0 }] ∧
      compact 50 [cexS, { cexN with y := 0 }] CompactType.vertical 12 false =
        some [cexS, { cexN with y := 1 }] ∧
      ({ cexN with y := 0 } : LayoutItem) ≠ { cexN with y := 1 } := by
  refine ⟨by decide, by decide, by decide⟩

/-- Witness for `compact_idempotent` at a concrete two-item layout. -/
theorem compact_idempotent_witness : ([wA, wB] : List LayoutItem) = [wA, wB] :=
  compact_idempotent 30 30 [wA, wB] CompactType.vertical 12 false [wA, wB]
    [wA, wB] (by decide) (fun hh => CompactType.noConfusion hh) (by decide)
    (by decide)

end RGL
